import Mathlib

/-!
# go-config: environment binding (`env`) and the loaders of package `config`

A shallow embedding of `env/env.go` and `config.go`.

* Go types are finite trees (`GoType`); a struct type lists its fields in declaration
  order, each with its name, whether it is embedded, the result of `Tag.Lookup("env")`
  and its type.  The binder treats an embedded field as any other field; `setMode`
  finds a field promoted from an embedded struct.  Types that refer to themselves are
  not represented.
* Go values are trees (`Value`).  A non-nil pointer is represented by its pointee, so
  two pointers are never aliases of one cell, and a pointer produced by a custom decoder
  is a fresh cell.
* All struct fields are exported (settable through reflection).
* `int` and `uint` have 64 bits, as the table `bits` of the source assumes.
* A run-time panic of the reflect library is an outcome of its own (`Except.error`);
  a Go `error` return value is data (`Option Error`).
* Floating-point numbers are opaque: a float is identified by a natural number (its bit
  pattern); `strconv.ParseFloat`, the narrowing `float32(v)`, `fmt`'s `%v` and
  `reflect.Value.Convert` are parameters collected in `Lib`.
* The source function `walk` is split along its control flow: `walkBind` (indirection
  and `loadValueEnv`), `walk` (the call for one field), `walkCell` and `walkFields` (the
  kind test and the loop), and `walkRoot` (the call `walk(value, nil, nil)` of `Load`).
  Each `Set` of the source is recorded as an `Assign`, which `walk` applies to the
  fields of the struct.
-/

namespace GoConfig

/-! ## reflect: kinds, types, values -/

/-- The kinds of `reflect.Kind`. -/
inductive Kind
  | Invalid | Bool
  | Int | Int8 | Int16 | Int32 | Int64
  | Uint | Uint8 | Uint16 | Uint32 | Uint64 | Uintptr
  | Float32 | Float64 | Complex64 | Complex128
  | Array | Chan | Func | Interface | Map | Ptr | Slice | String | Struct | UnsafePointer
  deriving DecidableEq, Repr

mutual
/-- Go types.  `basic name kind` is a defined or predeclared type of a kind other than
pointer and struct (for the kinds the binder does not support the name identifies the
type); `struct name fields` with `name = ""` is an anonymous struct type. -/
inductive GoType
  | basic (name : String) (kind : Kind)
  | ptr (elem : GoType)
  | struct (name : String) (fields : Fields)
/-- The fields of a struct type in declaration order: field name, whether the field is
embedded (`StructField.Anonymous`), the value of the `env` key of the tag (`none` when
the tag has no `env` key), field type. -/
inductive Fields
  | nil
  | cons (name : String) (embedded : Bool) (tag : Option String) (type : GoType)
      (rest : Fields)
end

mutual
/-- Type identity. -/
def GoType.beq : GoType → GoType → Bool
  | .basic n k, .basic n2 k2 => n == n2 && k == k2
  | .ptr e, .ptr e2 => GoType.beq e e2
  | .struct n f, .struct n2 f2 => n == n2 && Fields.beq f f2
  | _, _ => false
/-- Identity of field lists (names, embedding, tags and types). -/
def Fields.beq : Fields → Fields → Bool
  | .nil, .nil => true
  | .cons n e t ty r, .cons n2 e2 t2 ty2 r2 =>
      n == n2 && e == e2 && t == t2 && GoType.beq ty ty2 && Fields.beq r r2
  | _, _ => false
end

/-- Go values.  `int` holds a value of any signed kind, `uint` of any unsigned kind,
`float` a floating-point number (by bit pattern); `nil` is the nil pointer and `ptr v` a
pointer to a cell holding `v`; `other` is a value of a kind the binder does not look
into (slice, map, channel, ...). -/
inductive Value
  | bool (b : Bool)
  | int (n : Int)
  | uint (n : Nat)
  | float (bits : Nat)
  | string (s : String)
  | nil
  | ptr (pointee : Value)
  | struct (fields : List Value)
  | other (id : Nat)

/-- A non-nil `interface{}`: a value with its dynamic type. -/
structure Iface where
  typ : GoType
  val : Value

/-- The descriptor `reflect.StructField`, as far as the binder reads it. -/
structure StructField where
  Name : String
  Typ : GoType
  Tag : Option String

/-- A `reflect.Value` of kind struct: the struct type and the current field values. -/
structure StructValue where
  name : String
  fields : Fields
  vals : List Value

/-- A Go `error`, by its message. -/
abbrev Error := String

/-- Computations that may panic (the message of the panic). -/
abbrev Run := Except String

/-- The method `Type.Kind()`. -/
def GoType.Kind : GoType → Kind
  | .basic _ k => k
  | .ptr _ => Kind.Ptr
  | .struct _ _ => Kind.Struct

/-- The method `Type.Elem()` of a pointer type. -/
def GoType.Elem : GoType → Option GoType
  | .ptr e => some e
  | _ => none

/-- Number of fields of a struct type. -/
def Fields.length : Fields → Nat
  | .nil => 0
  | .cons _ _ _ _ rest => rest.length + 1

/-- The descriptor of field `i`. -/
def Fields.get? : Fields → Nat → Option StructField
  | .nil, _ => none
  | .cons n _ t ty _, 0 => some ⟨n, ty, t⟩
  | .cons _ _ _ _ rest, i + 1 => rest.get? i

/-- The field names in declaration order. -/
def Fields.names : Fields → List String
  | .nil => []
  | .cons n _ _ _ rest => n :: rest.names

/-- Index and type of the first field with the given name (`FieldByName`). -/
def Fields.byName : Fields → String → Option (Nat × GoType)
  | .nil, _ => none
  | .cons n _ _ ty rest, name =>
      if n = name then some (0, ty)
      else match rest.byName name with
        | some (i, t) => some (i + 1, t)
        | none => none

/-- The predeclared type of a kind (`bool`, `int8`, `float64`, `string`, ...). -/
def predeclared : Kind → GoType
  | .Bool => .basic "bool" .Bool
  | .Int => .basic "int" .Int
  | .Int8 => .basic "int8" .Int8
  | .Int16 => .basic "int16" .Int16
  | .Int32 => .basic "int32" .Int32
  | .Int64 => .basic "int64" .Int64
  | .Uint => .basic "uint" .Uint
  | .Uint8 => .basic "uint8" .Uint8
  | .Uint16 => .basic "uint16" .Uint16
  | .Uint32 => .basic "uint32" .Uint32
  | .Uint64 => .basic "uint64" .Uint64
  | .Uintptr => .basic "uintptr" .Uintptr
  | .Float32 => .basic "float32" .Float32
  | .Float64 => .basic "float64" .Float64
  | .String => .basic "string" .String
  | k => .basic "" k

/-- Go's `reflect.Indirect`: the value a pointer points to (the zero `reflect.Value`, here
`none`, for a nil pointer); any other value is returned as it is. -/
def Indirect : GoType → Value → Option (GoType × Value)
  | .ptr e, .ptr pv => some (e, pv)
  | .ptr _, _ => none
  | t, v => some (t, v)

/-- A field found by name in or below a struct type, as `Type.FieldByName` searches for
it: the number of embedded structs above it, whether it is the only field of the name
at that depth, its index sequence and its type. -/
structure Promoted where
  depth : Nat
  unique : Bool
  index : List Nat
  typ : GoType

/-- Of two finds the shallower one counts; two finds at the same depth annihilate each
other (the name is ambiguous there) and still hide every deeper find. -/
def Promoted.merge : Option Promoted → Option Promoted → Option Promoted
  | none, b => b
  | some a, none => some a
  | some a, some b =>
    if a.depth < b.depth then some a
    else if b.depth < a.depth then some b
    else some ⟨a.depth, false, a.index, a.typ⟩

/-- A find inside the embedded field `i`, seen from the struct that embeds it. -/
def Promoted.below (i : Nat) (p : Promoted) : Promoted :=
  ⟨p.depth + 1, p.unique, i :: p.index, p.typ⟩

mutual
/-- The shallowest find of `name` in an embedded field of this type: the type is a
struct type `T`, or a pointer type `*T`, whose fields are searched. -/
def GoType.promoted (name : String) : GoType → Option Promoted
  | .struct _ fs => fs.promoted name 0
  | .ptr e => e.promotedElem name
  | .basic _ _ => none
/-- The shallowest find of `name` in the struct type a pointer type `*T` points to. -/
def GoType.promotedElem (name : String) : GoType → Option Promoted
  | .struct _ fs => fs.promoted name 0
  | .ptr _ => none
  | .basic _ _ => none
/-- The shallowest find of `name` in the fields from index `i` on: a field of that name
is a find of depth 0; an embedded field of another name is searched in turn. -/
def Fields.promoted (name : String) : Fields → Nat → Option Promoted
  | .nil, _ => none
  | .cons n emb _ ty rest, i =>
    Promoted.merge
      (if n = name then some ⟨0, true, [i], ty⟩
       else if emb then (ty.promoted name).map (Promoted.below i)
       else none)
      (rest.promoted name (i + 1))
end

/-- Go's `Type.FieldByName(name)` of a struct type: index sequence and type of the field
of that name.  A field of the struct itself is found first; otherwise the fields of
embedded structs are searched, and the field found is the only one of the name at the
shallowest depth where the name occurs (none if there are several). -/
def FieldByName (fs : Fields) (name : String) : Option (List Nat × GoType) :=
  match fs.byName name with
  | some (j, ty) => some ([j], ty)
  | none =>
    match fs.promoted name 0 with
    | some p => if p.unique then some (p.index, p.typ) else none
    | none => none

/-- The fields of a struct value that is reached on the way along an index sequence:
a pointer to an embedded struct is followed, a nil pointer panics. -/
def embeddedFields : Value → Run (List Value)
  | .struct vs => pure vs
  | .ptr (.struct vs) => pure vs
  | .nil => throw "reflect: indirection through nil pointer to embedded struct"
  | .ptr _ => throw "reflect: call of reflect.Value.Field on a value that is not a struct"
  | .bool _ => throw "reflect: call of reflect.Value.Field on a value that is not a struct"
  | .int _ => throw "reflect: call of reflect.Value.Field on a value that is not a struct"
  | .uint _ => throw "reflect: call of reflect.Value.Field on a value that is not a struct"
  | .float _ => throw "reflect: call of reflect.Value.Field on a value that is not a struct"
  | .string _ => throw "reflect: call of reflect.Value.Field on a value that is not a struct"
  | .other _ => throw "reflect: call of reflect.Value.Field on a value that is not a struct"

/-- Go's `Value.FieldByIndex(index)`: the field the index sequence leads to. -/
def FieldByIndex : List Nat → Value → Run Value
  | [], v => pure v
  | x :: rest, v => do
    let vs ← embeddedFields v
    match vs[x]? with
    | some f => FieldByIndex rest f
    | none => throw "reflect: Field index out of range"

/-- The struct value (or pointer to one) `v` with the fields `vs`. -/
def withFields : Value → List Value → Value
  | .ptr _, vs => .ptr (.struct vs)
  | _, vs => .struct vs

/-- The call `v.FieldByIndex(index).Set(x)`: the value `v` after it. -/
def SetByIndex : List Nat → Value → Value → Run Value
  | [], _, x => pure x
  | i :: rest, v, x => do
    let vs ← embeddedFields v
    match vs[i]? with
    | some f => do
      let f1 ← SetByIndex rest f x
      pure (withFields v (vs.set i f1))
    | none => throw "reflect: Field index out of range"

/-! ## The Go library functions the code calls -/

/-- Library functions that are taken as parameters. -/
structure Lib where
  /-- Go's `strconv.ParseFloat(s, bitSize)`: the float64 result, or the error. -/
  ParseFloat : String → Nat → Except Error Nat
  /-- The conversion `float32(v)` of a float64. -/
  float32 : Nat → Nat
  /-- The text `fmt` prints for the verb `%v`. -/
  Sprint : Option Iface → String
  /-- Go's `reflect.ValueOf(x).Convert(t)`; `none` when the conversion panics. -/
  Convert : Iface → GoType → Option Value

/-- The process environment: `none` for a variable that is not set. -/
abbrev Environ := String → Option String

/-- Go's `os.LookupEnv`; the empty name is never set (`syscall.Getenv` rejects it). -/
def LookupEnv (env : Environ) (key : String) : Option String :=
  if key = "" then none else env key

/-- Go's `os.Getenv`: the empty string for a variable that is not set. -/
def Getenv (env : Environ) (key : String) : String :=
  (LookupEnv env key).getD ""

/-- Go's `strings.ToLower`.  Only ASCII letters are mapped here; the characters outside ASCII
that Go maps differently never become a letter of `false`. -/
def ToLower (s : String) : String :=
  String.mk (s.data.map Char.toLower)

/-- Value of a run of decimal digits, continuing from `acc`; `none` at the first
character that is not a digit. -/
def parseDigits : List Char → Nat → Option Nat
  | [], acc => some acc
  | c :: cs, acc =>
      if 48 ≤ c.toNat ∧ c.toNat ≤ 57 then parseDigits cs (acc * 10 + (c.toNat - 48))
      else none

/-- The bit size `strconv` works with: 0 stands for 64. -/
def effBitSize (bitSize : Nat) : Nat :=
  if bitSize = 0 then 64 else bitSize

/-- Go's `strconv.ParseUint(s, 10, bitSize)`; `none` for either error (syntax, range): the
callers only test `err != nil`. -/
def ParseUint (s : String) (bitSize : Nat) : Option Nat :=
  if s.data = [] then none
  else if 64 < bitSize then none
  else match parseDigits s.data 0 with
    | none => none
    | some n => if n < 2 ^ effBitSize bitSize then some n else none

/-- Go's `strconv.ParseInt(s, 10, bitSize)`; `none` for either error. -/
def ParseInt (s : String) (bitSize : Nat) : Option Int :=
  match s.data with
  | [] => none
  | c :: cs =>
      let neg := c = '-'
      let ds := if c = '+' ∨ c = '-' then cs else c :: cs
      if ds = [] then none
      else if 64 < bitSize then none
      else match parseDigits ds 0 with
        | none => none
        | some un =>
            let cutoff := 2 ^ (effBitSize bitSize - 1)
            if neg then (if un ≤ cutoff then some (-(un : Int)) else none)
            else (if un < cutoff then some (un : Int) else none)

/-- Truncation to an unsigned integer of `w` bits. -/
def wrapUint (w : Nat) (n : Nat) : Nat :=
  n % 2 ^ w

/-- Truncation to a signed (two's complement) integer of `w` bits. -/
def wrapInt (w : Nat) (n : Int) : Int :=
  (n + 2 ^ (w - 1)) % 2 ^ w - 2 ^ (w - 1)

/-- The one assignment a bind step makes. -/
inductive Assign
  /-- Nothing is assigned. -/
  | skip
  /-- One of `value.Set...(v)`: the cell the handle `value` refers to now holds `v`. -/
  | value (v : Value)
  /-- The call `str.FieldByName(name).Set(p)`: that field of the parent now holds `p`. -/
  | field (name : String) (p : Value)

/-- The call `str.FieldByName(name).Set(reflect.ValueOf(x))`: panics unless the type of
`x` is the type of the field. -/
def SetFieldByName (str : Option StructValue) (name : String) (x : Iface) : Run Assign :=
  match str with
  | none => throw "invalid memory address or nil pointer dereference"
  | some s =>
    match s.fields.byName name with
    | none => throw "reflect: call of reflect.Value.Set on zero Value"
    | some (_, t) =>
      if x.typ.beq t then pure (.field name x.val)
      else throw "reflect.Set: value is not assignable to the type of the field"

/-- The method `value.SetBool(b)`. -/
def SetBool (value : Option (GoType × Value)) (b : Bool) : Run Assign :=
  match value with
  | none => throw "reflect: call of reflect.Value.SetBool on zero Value"
  | some (t, _) =>
    if t.Kind = Kind.Bool then pure (.value (.bool b))
    else throw "reflect: call of reflect.Value.SetBool on a value that is not a bool"

/-- The method `value.SetString(s)`. -/
def SetString (value : Option (GoType × Value)) (s : String) : Run Assign :=
  match value with
  | none => throw "reflect: call of reflect.Value.SetString on zero Value"
  | some (t, _) =>
    if t.Kind = Kind.String then pure (.value (.string s))
    else throw "reflect: call of reflect.Value.SetString on a value that is not a string"

/-- The method `value.SetFloat(x)`: a float32 cell receives `float32(x)`. -/
def SetFloat (lib : Lib) (value : Option (GoType × Value)) (x : Nat) : Run Assign :=
  match value with
  | none => throw "reflect: call of reflect.Value.SetFloat on zero Value"
  | some (t, _) =>
    match t.Kind with
    | .Float32 => pure (.value (.float (lib.float32 x)))
    | .Float64 => pure (.value (.float x))
    | _ => throw "reflect: call of reflect.Value.SetFloat on a value that is not a float"

/-- The method `value.SetInt(x)` for an int64 `x`: the cell receives `x` converted to
its own width. -/
def SetInt (value : Option (GoType × Value)) (x : Int) : Run Assign :=
  match value with
  | none => throw "reflect: call of reflect.Value.SetInt on zero Value"
  | some (t, _) =>
    match t.Kind with
    | .Int => pure (.value (.int (wrapInt 64 x)))
    | .Int8 => pure (.value (.int (wrapInt 8 x)))
    | .Int16 => pure (.value (.int (wrapInt 16 x)))
    | .Int32 => pure (.value (.int (wrapInt 32 x)))
    | .Int64 => pure (.value (.int (wrapInt 64 x)))
    | _ => throw "reflect: call of reflect.Value.SetInt on a value that is not an int"

/-- The method `value.SetUint(x)` for a uint64 `x`: the cell receives `x` converted to
its own width. -/
def SetUint (value : Option (GoType × Value)) (x : Nat) : Run Assign :=
  match value with
  | none => throw "reflect: call of reflect.Value.SetUint on zero Value"
  | some (t, _) =>
    match t.Kind with
    | .Uint => pure (.value (.uint (wrapUint 64 x)))
    | .Uintptr => pure (.value (.uint (wrapUint 64 x)))
    | .Uint8 => pure (.value (.uint (wrapUint 8 x)))
    | .Uint16 => pure (.value (.uint (wrapUint 16 x)))
    | .Uint32 => pure (.value (.uint (wrapUint 32 x)))
    | .Uint64 => pure (.value (.uint (wrapUint 64 x)))
    | _ => throw "reflect: call of reflect.Value.SetUint on a value that is not a uint"

/-- The call `value.Set(reflect.ValueOf(x).Convert(value.Type()))`. -/
def SetConverted (lib : Lib) (value : Option (GoType × Value)) (x : Iface) : Run Assign :=
  match value with
  | none => throw "reflect: call of reflect.Value.Type on zero Value"
  | some (t, _) =>
    match lib.Convert x t with
    | none => throw "reflect.Value.Convert: value cannot be converted to the type"
    | some v => pure (.value v)

/-! ## Package env (`env/env.go`) -/

namespace env

/-- The interface `Unmarshaler`: the method `UnmarshalField(field, name, value)` of a
struct type, as a function of the receiver (the struct) and the three arguments; the
result is the pair `(interface{}, error)`. -/
abbrev Decoder := Value → String → String → String → Option Iface × Option Error

/-- The struct types (by name) that implement `Unmarshaler`, with their method. -/
abbrev Unmarshalers := String → Option Decoder

/-- The table `bits`; a kind that is not a key of the map yields 0. -/
def bits : Kind → Nat
  | .Uint => 64
  | .Uint8 => 8
  | .Uint16 => 16
  | .Uint32 => 32
  | .Uint64 => 64
  | .Int => 64
  | .Int8 => 8
  | .Int16 => 16
  | .Int32 => 32
  | .Int64 => 64
  | _ => 0

/-- The table `castInts` applied to a uint64 or int64: a pointer to a new cell holding
the value converted to the kind (`int` and `uint` have 64 bits).  A kind that is not a
key, or an argument of the other signedness, panics. -/
def castInts (kind : Kind) (v : Value) : Run Iface :=
  match kind, v with
  | .Uint, .uint n => pure ⟨.ptr (predeclared .Uint), .ptr (.uint (wrapUint 64 n))⟩
  | .Uint8, .uint n => pure ⟨.ptr (predeclared .Uint8), .ptr (.uint (wrapUint 8 n))⟩
  | .Uint16, .uint n => pure ⟨.ptr (predeclared .Uint16), .ptr (.uint (wrapUint 16 n))⟩
  | .Uint32, .uint n => pure ⟨.ptr (predeclared .Uint32), .ptr (.uint (wrapUint 32 n))⟩
  | .Uint64, .uint n => pure ⟨.ptr (predeclared .Uint64), .ptr (.uint n)⟩
  | .Int, .int n => pure ⟨.ptr (predeclared .Int), .ptr (.int (wrapInt 64 n))⟩
  | .Int8, .int n => pure ⟨.ptr (predeclared .Int8), .ptr (.int (wrapInt 8 n))⟩
  | .Int16, .int n => pure ⟨.ptr (predeclared .Int16), .ptr (.int (wrapInt 16 n))⟩
  | .Int32, .int n => pure ⟨.ptr (predeclared .Int32), .ptr (.int (wrapInt 32 n))⟩
  | .Int64, .int n => pure ⟨.ptr (predeclared .Int64), .ptr (.int n)⟩
  | _, _ => throw "castInts: no cast for the kind, or interface conversion failed"

/-- Source function `unmarshalFromValue`. -/
def unmarshalFromValue (um : Unmarshalers) (environ : Environ) (envName : String)
    (strField : StructField) (str : Option StructValue) : Option Iface × Option Error :=
  match str with
  | some s =>
    match um s.name with
    | some unmarshaler =>
      match unmarshaler (.struct s.vals) strField.Name envName (Getenv environ envName) with
      | (_, some err) => (none, some err)
      | (some valUnmarshal, none) => (some valUnmarshal, none)
      | (none, none) => (none, none)
    | none => (none, none)
  | none => (none, none)

/-- Source function `setUInt`. -/
def setUInt (ptr : Bool) (str : Option StructValue) (strField : StructField)
    (envValue : String) (value : Option (GoType × Value)) (kind : Kind) :
    Run (Option Error × Assign) :=
  match ParseUint envValue (bits kind) with
  | none => pure (none, .skip)
  | some v =>
    if ptr then do
      let vCast ← castInts kind (.uint v)
      let a ← SetFieldByName str strField.Name vCast
      pure (none, a)
    else do
      let a ← SetUint value v
      pure (none, a)

/-- Source function `setInt`. -/
def setInt (ptr : Bool) (str : Option StructValue) (strField : StructField)
    (envValue : String) (value : Option (GoType × Value)) (kind : Kind) :
    Run (Option Error × Assign) :=
  match ParseInt envValue (bits kind) with
  | none => pure (none, .skip)
  | some v =>
    if ptr then do
      let vCast ← castInts kind (.int v)
      let a ← SetFieldByName str strField.Name vCast
      pure (none, a)
    else do
      let a ← SetInt value v
      pure (none, a)

/-- Source function `setFloat32`. -/
def setFloat32 (lib : Lib) (ptr : Bool) (str : Option StructValue) (strField : StructField)
    (envValue : String) (value : Option (GoType × Value)) : Run (Option Error × Assign) :=
  match lib.ParseFloat envValue 32 with
  | .error err => pure (some err, .skip)
  | .ok v =>
    let v32 := lib.float32 v
    if ptr then do
      let a ← SetFieldByName str strField.Name ⟨.ptr (predeclared .Float32), .ptr (.float v32)⟩
      pure (none, a)
    else do
      let a ← SetFloat lib value v
      pure (none, a)

/-- Source function `setFloat64`. -/
def setFloat64 (lib : Lib) (ptr : Bool) (str : Option StructValue) (strField : StructField)
    (envValue : String) (value : Option (GoType × Value)) : Run (Option Error × Assign) :=
  match lib.ParseFloat envValue 64 with
  | .error err => pure (some err, .skip)
  | .ok v =>
    if ptr then do
      let a ← SetFieldByName str strField.Name ⟨.ptr (predeclared .Float64), .ptr (.float v)⟩
      pure (none, a)
    else do
      let a ← SetFloat lib value v
      pure (none, a)

/-- Source function `setString`. -/
def setString (ptr : Bool) (str : Option StructValue) (strField : StructField)
    (envValue : String) (value : Option (GoType × Value)) : Run Assign :=
  if ptr then
    SetFieldByName str strField.Name ⟨.ptr (predeclared .String), .ptr (.string envValue)⟩
  else
    SetString value envValue

/-- Source function `setBool`. -/
def setBool (envValue : String) (ptr : Bool) (str : Option StructValue)
    (strField : StructField) (value : Option (GoType × Value)) : Run Assign :=
  let v : Bool := envValue != "" && envValue != "0" && ToLower envValue != "false"
  if ptr then
    SetFieldByName str strField.Name ⟨.ptr (predeclared .Bool), .ptr (.bool v)⟩
  else
    SetBool value v

/-- Source function `setValue`. -/
def setValue (lib : Lib) (ptr : Bool) (str : Option StructValue) (strField : StructField)
    (envValue : String) (value : Option (GoType × Value)) (kind : Kind) :
    Run (Option Error × Assign) :=
  match kind with
  | .Bool => do
      let a ← setBool envValue ptr str strField value
      pure (none, a)
  | .String => do
      let a ← setString ptr str strField envValue value
      pure (none, a)
  | .Float64 => setFloat64 lib ptr str strField envValue value
  | .Float32 => setFloat32 lib ptr str strField envValue value
  | .Int | .Int8 | .Int16 | .Int32 | .Int64 =>
      setInt ptr str strField envValue value kind
  | .Uint | .Uint8 | .Uint16 | .Uint32 | .Uint64 =>
      setUInt ptr str strField envValue value kind
  | _ => pure (none, .skip)

/-- Source function `loadValueEnv`: the returned `error` and the assignment made. -/
def loadValueEnv (lib : Lib) (um : Unmarshalers) (environ : Environ)
    (value : Option (GoType × Value)) (strField : Option StructField)
    (str : Option StructValue) : Run (Option Error × Assign) :=
  match strField with
  | none => pure (none, .skip)
  | some strField =>
    match strField.Tag with
    | none => pure (none, .skip)
    | some envName =>
      match unmarshalFromValue um environ envName strField str with
      | (_, some err) => pure (some err, .skip)
      | (envValueAsIs, none) =>
        let kind0 := strField.Typ.Kind
        let ptr : Bool := kind0 = Kind.Ptr
        let kind : Kind :=
          match strField.Typ with
          | .ptr elem => elem.Kind
          | _ => kind0
        match envValueAsIs with
        | none =>
          match LookupEnv environ envName with
          | none => pure (none, .skip)
          | some envValue => setValue lib ptr str strField envValue value kind
        | some x =>
          if ptr then do
            let a ← SetFieldByName str strField.Name x
            pure (none, a)
          else do
            let a ← SetConverted lib value x
            pure (none, a)

/-- The effect of an assignment on the fields `cur` of the struct whose field `i`, of
type `ft`, the handle `value` was taken from: the cell of `value` is the field itself,
or the pointee of the field when the field is a pointer. -/
def applyAssign (a : Assign) (ft : GoType) (all : Fields) (i : Nat) (cur : List Value) :
    List Value :=
  match a with
  | .skip => cur
  | .value v =>
    match ft with
    | .ptr _ => cur.set i (.ptr v)
    | _ => cur.set i v
  | .field name p =>
    match all.byName name with
    | some (j, _) => cur.set j p
    | none => cur

/-- The first statements of `walk` for field `i` (named `name`, tagged `tag`, of type
`ft`) of the struct `sname` with fields `all`, currently holding `cur`:
`value = reflect.Indirect(value)` and the call of `loadValueEnv`.  The result is the
`error` of `loadValueEnv`, the assignment it made and the fields of the struct after
that assignment. -/
def walkBind (lib : Lib) (um : Unmarshalers) (environ : Environ) (sname : String)
    (all : Fields) (i : Nat) (cur : List Value) (name : String) (tag : Option String)
    (ft : GoType) : Run (Option Error × Assign × List Value) :=
  match cur[i]? with
  | none => throw "reflect: Field index out of range"
  | some fv => do
    let value := Indirect ft fv
    let (err, a) ← loadValueEnv lib um environ value (some ⟨name, ft, tag⟩)
      (some ⟨sname, all, cur⟩)
    pure (err, a, applyAssign a ft all i cur)

mutual
/-- Source function `walk`, called from the loop for field `i` of a struct: the returned
`error` and the fields of the struct after the call.  After `loadValueEnv` (whose error
makes `walk` return nil), a value of kind struct is walked field by field: the field
itself, or for a pointer field the cell the pointer pointed to when `walk` was called. -/
def walk (lib : Lib) (um : Unmarshalers) (environ : Environ) (sname : String)
    (all : Fields) (i : Nat) (cur : List Value) (name : String) (tag : Option String) :
    GoType → Run (Option Error × List Value)
  | .basic tn k => do
      let (_, _, cur1) ← walkBind lib um environ sname all i cur name tag (.basic tn k)
      pure (none, cur1)
  | .struct n2 fs2 => do
      let (err, _, cur1) ← walkBind lib um environ sname all i cur name tag (.struct n2 fs2)
      match err, cur1[i]? with
      | none, some (.struct vs2) => do
          let (err2, vs3) ← walkFields lib um environ n2 fs2 fs2 0 vs2
          pure (err2, cur1.set i (.struct vs3))
      | _, _ => pure (none, cur1)
  | .ptr e => do
      let (err, a, cur1) ← walkBind lib um environ sname all i cur name tag (.ptr e)
      match err, cur[i]? with
      | none, some (.ptr pv) => do
          let (err2, r) ← walkCell lib um environ e pv
          match a, r with
          | .field _ _, _ => pure (err2, cur1)
          | _, some vs3 => pure (err2, cur1.set i (.ptr (.struct vs3)))
          | _, none => pure (err2, cur1)
      | _, _ => pure (none, cur1)
/-- The part of `walk` after `loadValueEnv` for the cell a pointer points to: a cell
that is not of kind struct is left alone (`none`); the fields of a struct are walked. -/
def walkCell (lib : Lib) (um : Unmarshalers) (environ : Environ) :
    GoType → Value → Run (Option Error × Option (List Value))
  | .struct n fs, v =>
      match v with
      | .struct vs => do
          let (err, vs2) ← walkFields lib um environ n fs fs 0 vs
          pure (err, some vs2)
      | _ => pure (none, none)
  | .basic _ _, _ => pure (none, none)
  | .ptr _, _ => pure (none, none)
/-- The loop of `walk` over the fields from index `i` on (`todo`) of the struct `sname`
with fields `all`; it stops at the first call that returns an error. -/
def walkFields (lib : Lib) (um : Unmarshalers) (environ : Environ) (sname : String)
    (all : Fields) : Fields → Nat → List Value → Run (Option Error × List Value)
  | .nil, _, cur => pure (none, cur)
  | .cons name _ tag ft rest, i, cur => do
      let (err, cur1) ← walk lib um environ sname all i cur name tag ft
      match err with
      | some e => pure (some e, cur1)
      | none => walkFields lib um environ sname all rest (i + 1) cur1
end

/-- Source function `walk` as `Load` calls it, `walk(value, nil, nil)`: the returned
`error` and the value after the call. -/
def walkRoot (lib : Lib) (um : Unmarshalers) (environ : Environ) (t : GoType)
    (v : Value) : Run (Option Error × Value) :=
  match Indirect t v with
  | none => do
      let (_, _) ← loadValueEnv lib um environ none none none
      pure (none, v)
  | some (t1, v1) => do
      let (err, _) ← loadValueEnv lib um environ (some (t1, v1)) none none
      match err with
      | some _ => pure (none, v)
      | none => do
        let (err2, r) ← walkCell lib um environ t1 v1
        match r, t with
        | none, _ => pure (err2, v)
        | some vs2, .ptr _ => pure (err2, .ptr (.struct vs2))
        | some vs2, _ => pure (err2, .struct vs2)

/-- Source function `Load`: the returned `error` and the argument after the call. -/
def Load (lib : Lib) (um : Unmarshalers) (environ : Environ) (v : Option Iface) :
    Run (Option Error × Option Iface) :=
  match v with
  | none => pure (some ("load(non-pointer " ++ lib.Sprint v ++ ")"), v)
  | some x =>
    if x.typ.Kind ≠ Kind.Ptr then
      pure (some ("load(non-pointer " ++ lib.Sprint v ++ ")"), v)
    else
      match x.val with
      | .ptr _ => do
          let (err, val) ← walkRoot lib um environ x.typ x.val
          pure (err, some ⟨x.typ, val⟩)
      | _ => pure (some ("load pointer nil " ++ lib.Sprint v), v)

end env


/-! ## Package config (`config.go`) -/

namespace config

/-- The type `Mode` (`type Mode int`), by its integer value. -/
abbrev Mode := Int

/-- Constant `ModeUnknown`. -/
def ModeUnknown : Mode := 0

/-- Constant `ModeFile`. -/
def ModeFile : Mode := 1

/-- Constant `ModeEnvironment`. -/
def ModeEnvironment : Mode := 2

/-- The Go type `Mode`, as `reflect.TypeOf(mode)` yields it. -/
def ModeType : GoType := .basic "config.Mode" .Int

/-- Source function `setMode`: the value after the call.  `v.FieldByName` finds a field
of the record itself or one promoted from an embedded struct, and panics when a nil
pointer to an embedded struct lies on the way to it.  Assigning through a value that
was not reached through a pointer panics. -/
def setMode (t : GoType) (v : Value) (mode : Mode) : Run Value :=
  match Indirect t v with
  | some (.struct _ fs, .struct vs) =>
    match FieldByName fs "ConfigMode" with
    | none => pure v
    | some (index, ty) => do
      let _ ← FieldByIndex index (.struct vs)
      if !(ty.beq ModeType) then pure v
      else
        match t with
        | .ptr _ => do
          let s ← SetByIndex index (.struct vs) (.int mode)
          pure (.ptr s)
        | _ => throw "reflect: reflect.Value.Set using unaddressable value"
  | _ => pure v

/-- Source function `LoadFromEnv`: the returned `error` and the argument after the
call. -/
def LoadFromEnv (lib : Lib) (um : env.Unmarshalers) (environ : Environ)
    (v : Option Iface) : Run (Option Error × Option Iface) :=
  match v with
  | none => pure (some ("LoadFromFile(non-pointer " ++ lib.Sprint v ++ ")"), v)
  | some x =>
    if x.typ.Kind ≠ Kind.Ptr then
      pure (some ("LoadFromFile(non-pointer " ++ lib.Sprint v ++ ")"), v)
    else do
      let (err, v1) ← env.Load lib um environ v
      match err, v1 with
      | some _, _ => pure (none, v1)
      | none, none => pure (none, v1)
      | none, some x1 => do
        let val ← setMode x1.typ x1.val ModeEnvironment
        pure (none, some ⟨x1.typ, val⟩)

/-- Source method `Mode.String`. -/
def Mode.String (m : Mode) : String :=
  if m = ModeFile then "file"
  else if m = ModeEnvironment then "environment"
  else "unknown"

end config

/-! ## Reading a result -/

/-- Field `i` of the struct a target points to. -/
def fieldOf (v : Option Iface) (i : Nat) : Option Value :=
  match v with
  | some ⟨_, .ptr (.struct vs)⟩ => vs[i]?
  | _ => none

/-- A pointer to a struct of type `struct sname fs` holding `vals`, as an argument of
`Load`. -/
def target (sname : String) (fs : Fields) (vals : List Value) : Option Iface :=
  some ⟨.ptr (.struct sname fs), .ptr (.struct vals)⟩

/-- What a field holds once `v` is stored in it: `v` itself in a value field, a pointer
to a cell holding `v` in a pointer field. -/
def stored (ft : GoType) (v : Value) : Value :=
  match ft with
  | .ptr _ => .ptr v
  | _ => v

/-- The kind the binder dispatches on: the kind of the field's type, or of the pointee
type for a pointer field. -/
def effKind (ft : GoType) : Kind :=
  match ft with
  | .ptr e => e.Kind
  | t => t.Kind

/-- An assignment that, when it is made by name, names the field `name`. -/
def Assign.okFor (name : String) : Assign → Prop
  | .field n _ => n = name
  | _ => True

/-- Only entry `i` may differ between two lists of field values. -/
def OnlyAt (i : Nat) (cur cur1 : List Value) : Prop :=
  cur1.length = cur.length ∧ ∀ j, j ≠ i → cur1[j]? = cur[j]?

/-! ## Data for concrete evaluation -/

/-- No struct type implements `Unmarshaler`. -/
def noUnmarshalers : env.Unmarshalers := fun _ => none

/-- The environment that sets exactly the listed variables (the first entry of a name
counts). -/
def envOf (kvs : List (String × String)) : Environ :=
  fun k => (kvs.find? (fun kv => kv.1 == k)).map (fun kv => kv.2)

/-- A library instance for evaluation on concrete inputs.  It parses the float literal
`3.14` of the tests and rejects every other text, narrows a float to itself, prints
`<nil>` for a nil argument and `{}` otherwise, and converts between identical types
only. -/
def sampleLib : Lib where
  ParseFloat := fun s _ =>
    if s = "3.14" then .ok 314
    else .error ("strconv.ParseFloat: parsing " ++ s ++ ": invalid syntax")
  float32 := fun v => v
  Sprint := fun v =>
    match v with
    | none => "<nil>"
    | some x =>
      match x.val with
      | .ptr _ => "&{}"
      | .struct _ => "{}"
      | _ => "<nil>"
  Convert := fun x t => if x.typ.beq t then some x.val else none

/-- The record `struct { F float64 "env:K"; S string "env:K2" }`. -/
def floatThenString : Fields :=
  .cons "F" false (some "K") (predeclared .Float64) (.cons "S" false (some "K2") (predeclared .String) .nil)

/-- The record `struct { F float64 "env:K" }`. -/
def oneFloat : Fields :=
  .cons "F" false (some "K") (predeclared .Float64) .nil

/-- What a field of type `ft` that held `old` holds after the assignment. -/
def Assign.result (a : Assign) (ft : GoType) (old : Value) : Value :=
  match a with
  | .skip => old
  | .value v => stored ft v
  | .field _ p => p

/-- Whether `walk` goes on into the fields of a value of this field type: a struct, or
a pointer to a struct. -/
def GoType.walksInto : GoType → Bool
  | .struct _ _ => true
  | .ptr (.struct _ _) => true
  | _ => false

/-- The record `struct { Field string "env:test"; Count uint "env:test4" }` of a type
`U` with a custom decoder, after `testEnvUnmarshaler`. -/
def decodedFields : Fields :=
  .cons "Field" false (some "test") (predeclared .String)
    (.cons "Count" false (some "test4") (predeclared .Uint) .nil)

/-- The method `UnmarshalField` of `U`: the field `Field` is given the name of its
variable, as in `testEnvUnmarshaler`; for every other field it returns the absent
signal `(nil, nil)`. -/
def sampleDecoder : env.Decoder :=
  fun _ field name _ =>
    if field = "Field" then (some ⟨predeclared .String, .string name⟩, none)
    else (none, none)

/-- Only the struct type `U` implements `Unmarshaler`. -/
def sampleUnmarshalers : env.Unmarshalers :=
  fun n => if n = "U" then some sampleDecoder else none

/-- Whether a string is one of the 32 spellings of `false` in upper and lower case
letters. -/
def isFalseWord (s : String) : Bool :=
  match s.data with
  | [c1, c2, c3, c4, c5] =>
    (c1 = 'f' || c1 = 'F') && (c2 = 'a' || c2 = 'A') && (c3 = 'l' || c3 = 'L') &&
      (c4 = 's' || c4 = 'S') && (c5 = 'e' || c5 = 'E')
  | _ => false

/-- The record `struct { Field bool "env:test_f1"; FieldPtr *bool "env:test_f1" }` of
`TestLoadBool`. -/
def boolPair : Fields :=
  .cons "Field" false (some "test_f1") (predeclared .Bool)
    (.cons "FieldPtr" false (some "test_f1") (.ptr (predeclared .Bool)) .nil)

/-- The character of a decimal digit `d < 10`. -/
def digitChar (d : Nat) : Char :=
  Char.ofNat (48 + d)

/-- The string `s` is a base-10 numeral of the integer `n`: an optional sign `+` or
`-` followed by at least one decimal digit, the digits (leading zeros allowed) having
in positional notation the value `n`, or `-n` after a minus sign (`+5` denotes 5, `-0`
denotes 0). -/
def Denotes (s : String) (n : Int) : Prop :=
  ∃ ds : List Nat, ds ≠ [] ∧ (∀ d ∈ ds, d < 10) ∧
    ((s.data = ds.map digitChar ∧ n = (Nat.ofDigits 10 ds.reverse : Nat)) ∨
      (s.data = '+' :: ds.map digitChar ∧ n = (Nat.ofDigits 10 ds.reverse : Nat)) ∨
      (s.data = '-' :: ds.map digitChar ∧ n = -((Nat.ofDigits 10 ds.reverse : Nat) : Int)))

/-- Whether a string begins with a sign `+` or `-`. -/
def hasSign (s : String) : Bool :=
  match s.data with
  | c :: _ => c = '+' || c = '-'
  | [] => false

/-- Signedness (true for signed) and declared width in bits of an integer kind; `int`
and `uint` count as 64 bits. -/
def intWidth : Kind → Option (Bool × Nat)
  | .Int => some (true, 64)
  | .Int8 => some (true, 8)
  | .Int16 => some (true, 16)
  | .Int32 => some (true, 32)
  | .Int64 => some (true, 64)
  | .Uint => some (false, 64)
  | .Uint8 => some (false, 8)
  | .Uint16 => some (false, 16)
  | .Uint32 => some (false, 32)
  | .Uint64 => some (false, 64)
  | _ => none

/-- The integers a kind of the given signedness and width can hold. -/
def inRange (signed : Bool) (w : Nat) (n : Int) : Prop :=
  if signed then -(2 : Int) ^ (w - 1) ≤ n ∧ n < (2 : Int) ^ (w - 1)
  else 0 ≤ n ∧ n < (2 : Int) ^ w

instance (signed : Bool) (w : Nat) (n : Int) : Decidable (inRange signed w n) := by
  unfold inRange; exact inferInstance

/-- The value of an integer field holding `n`. -/
def intValue (signed : Bool) (n : Int) : Value :=
  if signed then .int n else .uint n.toNat

/-- The record `struct { Field8 uint8 "env:test_f1"; Field8Ptr *uint8 "env:test_f1" }`,
two of the fields of `TestLoadUint`. -/
def uint8Pair : Fields :=
  .cons "Field8" false (some "test_f1") (predeclared .Uint8)
    (.cons "Field8Ptr" false (some "test_f1") (.ptr (predeclared .Uint8)) .nil)

/-- The ten decimal digit characters. -/
def decimalDigits : List Char :=
  ['0', '1', '2', '3', '4', '5', '6', '7', '8', '9']

/-- Whether a string is a base-10 integer: an optional sign `+` or `-` followed by at
least one decimal digit and nothing else. -/
def isDecimalInteger (s : String) : Bool :=
  match s.data with
  | [] => false
  | c :: cs =>
    if c = '+' ∨ c = '-' then !cs.isEmpty && cs.all (fun d => decimalDigits.contains d)
    else (c :: cs).all (fun d => decimalDigits.contains d)

/-- The record `struct { Field string "env:"; FieldInt int "env:test_int" }` of
`TestLoad`. -/
def testLoadFields : Fields :=
  .cons "Field" false (some "") (predeclared .String)
    (.cons "FieldInt" false (some "test_int") (predeclared .Int) .nil)

/-- The Value Coercion Table of the specification: the typed value a raw string stands
for in a field of the given kind, `none` when the string does not parse for the kind
(and for a kind the table does not list).  Bool: true unless the string is empty, `0` or
a spelling of `false`; string: identity; integers: base 10 with the range of the declared
width; floats: parsed as 32-bit or 64-bit float. -/
def coerced (lib : Lib) (k : Kind) (s : String) : Option Value :=
  match k with
  | .Bool => some (.bool (!(s == "" || s == "0" || isFalseWord s)))
  | .String => some (.string s)
  | .Float64 =>
    match lib.ParseFloat s 64 with
    | .ok v => some (.float v)
    | .error _ => none
  | .Float32 =>
    match lib.ParseFloat s 32 with
    | .ok v => some (.float (lib.float32 v))
    | .error _ => none
  | k =>
    match intWidth k with
    | some (true, w) => (ParseInt s w).map Value.int
    | some (false, w) => (ParseUint s w).map Value.uint
    | none => none

/-- The record `struct { Field8 int8 "env:test_f1"; Field8Ptr *int8 "env:test_f1" }`,
two of the fields of `TestLoadInt`. -/
def int8Pair : Fields :=
  .cons "Field8" false (some "test_f1") (predeclared .Int8)
    (.cons "Field8Ptr" false (some "test_f1") (.ptr (predeclared .Int8)) .nil)

/-- The record `struct { Field string "env:" }` of a type `E`: the `env` key of the tag
is present and empty. -/
def emptyTagFields : Fields :=
  .cons "Field" false (some "") (predeclared .String) .nil

/-- The type `E` implements `Unmarshaler`: its `UnmarshalField` returns the string
`decoded` for every field. -/
def emptyTagUnmarshalers : env.Unmarshalers :=
  fun n =>
    if n = "E" then some (fun _ _ _ _ => (some ⟨predeclared .String, .string "decoded"⟩, none))
    else none

/-- The kinds `setValue` has a case for. -/
def supportedKind : Kind → Bool
  | .Bool | .String | .Float32 | .Float64 => true
  | .Int | .Int8 | .Int16 | .Int32 | .Int64 => true
  | .Uint | .Uint8 | .Uint16 | .Uint32 | .Uint64 => true
  | _ => false

/-- A field type through which the binder can assign: a pointer field of a supported
kind points to the predeclared type of the kind (the setters of pointer mode allocate
cells of the predeclared types `bool`, `int8`, ...). -/
def GoType.settable : GoType → Bool
  | .ptr e => !supportedKind e.Kind || (predeclared e.Kind).beq e
  | _ => true

mutual
/-- A value has the shape of its type and lies in the part of Go the binder handles
without the help of a decoder: no record type in it implements `Unmarshaler`, the
field names of a record are distinct, and pointer fields are settable. -/
def WellFormed (um : env.Unmarshalers) : GoType → Value → Prop
  | .basic _ _, _ => True
  | .ptr e, v =>
    (GoType.ptr e).settable = true ∧
      match v with
      | .ptr pv => WellFormed um e pv
      | _ => True
  | .struct n fs, v =>
    match v with
    | .struct vs => um n = none ∧ fs.names.Nodup ∧ WellFormedFields um fs vs
    | _ => True
/-- The values of the fields of a record have the shape of the field types. -/
def WellFormedFields (um : env.Unmarshalers) : Fields → List Value → Prop
  | .nil, _ => True
  | .cons _ _ _ ft rest, vs =>
    match vs with
    | v :: vs' => WellFormed um ft v ∧ WellFormedFields um rest vs'
    | [] => False
end

/-- The record `struct { Field string "env:test_f1"; FieldPtr *string "env:test_f1";
UnknownField string }` of `TestLoadString`. -/
def stringRecord : Fields :=
  .cons "Field" false (some "test_f1") (predeclared .String)
    (.cons "FieldPtr" false (some "test_f1") (.ptr (predeclared .String))
      (.cons "UnknownField" false none (predeclared .String) .nil))

/-- The record `struct { Field64 float64 "env:test_f1"; FieldPtr64 *float64
"env:test_f1" }`, two of the fields of `TestLoadFloat`. -/
def floatPair : Fields :=
  .cons "Field64" false (some "test_f1") (predeclared .Float64)
    (.cons "FieldPtr64" false (some "test_f1") (.ptr (predeclared .Float64)) .nil)

/-- The record `struct { Port uint "env:PORT" }`. -/
def portRecord : Fields :=
  .cons "Port" false (some "PORT") (predeclared .Uint) .nil

/-- The record `struct { Name string "env:NAME"; DB DBConfig }` whose field `DB`, of the
record type `DBConfig` with the fields `portRecord`, has no binding annotation. -/
def nestedRecord : Fields :=
  .cons "Name" false (some "NAME") (predeclared .String)
    (.cons "DB" false none (.struct "DBConfig" portRecord) .nil)

mutual
/-- Whether no record type occurring in the type implements `Unmarshaler` and the fields
of each of its record types have distinct names (as Go requires of a struct type). -/
def GoType.plain (um : env.Unmarshalers) : GoType → Bool
  | .basic _ _ => true
  | .ptr e => e.plain um
  | .struct n fs => (um n).isNone && decide fs.names.Nodup && fs.plain um
/-- Whether the types of all the fields are plain. -/
def Fields.plain (um : env.Unmarshalers) : Fields → Bool
  | .nil => true
  | .cons _ _ _ ft rest => ft.plain um && rest.plain um
end

/-- The record `struct { DB DBConfig "env:DB" }`: the field of the record type `DBConfig`
(with the fields `portRecord`) has a binding annotation of its own. -/
def taggedNestedRecord : Fields :=
  .cons "DB" false (some "DB") (.struct "DBConfig" portRecord) .nil

/-- The type `D` implements `Unmarshaler`: its `UnmarshalField` returns the record
`DBConfig{Port: 1}` for every field. -/
def recordUnmarshalers : env.Unmarshalers :=
  fun n =>
    if n = "D" then
      some (fun _ _ _ _ => (some ⟨.struct "DBConfig" portRecord, .struct [.uint 1]⟩, none))
    else none

/-- The record `struct { Field string "env:"; Ptr *string "env:" }` of a type `E`: both
annotations are present and empty. -/
def emptyTagPair : Fields :=
  .cons "Field" false (some "") (predeclared .String)
    (.cons "Ptr" false (some "") (.ptr (predeclared .String)) .nil)

/-- The type `E` implements `Unmarshaler`: its `UnmarshalField` returns the string
`decoded` for the field `Field` and a pointer to a string `boxed` for every other
field. -/
def emptyTagPairUnmarshalers : env.Unmarshalers :=
  fun n =>
    if n = "E" then
      some (fun _ field _ _ =>
        if field = "Field" then (some ⟨predeclared .String, .string "decoded"⟩, none)
        else (some ⟨.ptr (predeclared .String), .ptr (.string "boxed")⟩, none))
    else none

/-! ## Unfolding equations and the error returned by `walk` -/

namespace env

theorem walkFields_nil (lib um environ sname all i cur) :
    walkFields lib um environ sname all .nil i cur = .ok (none, cur) := by
  rw [walkFields]; rfl

theorem walkFields_cons (lib um environ sname all name emb tag ft rest i cur) :
    walkFields lib um environ sname all (.cons name emb tag ft rest) i cur =
      (do
      let (err, cur1) ← walk lib um environ sname all i cur name tag ft
      match err with
      | some e => pure (some e, cur1)
      | none => walkFields lib um environ sname all rest (i + 1) cur1) := by
  rw [walkFields]

theorem walk_basic (lib um environ sname all i cur name tag tn k) :
    walk lib um environ sname all i cur name tag (.basic tn k) = (do
      let (_, _, cur1) ← walkBind lib um environ sname all i cur name tag (.basic tn k)
      pure (none, cur1)) := by
  rw [walk]

theorem walk_struct (lib um environ sname all i cur name tag n2 fs2) :
    walk lib um environ sname all i cur name tag (.struct n2 fs2) = (do
      let (err, _, cur1) ← walkBind lib um environ sname all i cur name tag (.struct n2 fs2)
      match err, cur1[i]? with
      | none, some (.struct vs2) => do
          let (err2, vs3) ← walkFields lib um environ n2 fs2 fs2 0 vs2
          pure (err2, cur1.set i (.struct vs3))
      | _, _ => pure (none, cur1)) := by
  rw [walk]

theorem walk_ptr (lib um environ sname all i cur name tag e) :
    walk lib um environ sname all i cur name tag (.ptr e) = (do
      let (err, a, cur1) ← walkBind lib um environ sname all i cur name tag (.ptr e)
      match err, cur[i]? with
      | none, some (.ptr pv) => do
          let (err2, r) ← walkCell lib um environ e pv
          match a, r with
          | .field _ _, _ => pure (err2, cur1)
          | _, some vs3 => pure (err2, cur1.set i (.ptr (.struct vs3)))
          | _, none => pure (err2, cur1)
      | _, _ => pure (none, cur1)) := by
  rw [walk]

theorem walkCell_struct (lib um environ n fs v) :
    walkCell lib um environ (.struct n fs) v =
      (match v with
      | .struct vs => do
          let (err, vs2) ← walkFields lib um environ n fs fs 0 vs
          pure (err, some vs2)
      | _ => pure (none, none)) := by
  cases v <;> rfl

theorem walkCell_basic (lib um environ tn k v) :
    walkCell lib um environ (.basic tn k) v = .ok (none, none) := by
  rw [walkCell]; rfl

theorem walkCell_ptr (lib um environ e v) :
    walkCell lib um environ (.ptr e) v = .ok (none, none) := by
  rw [walkCell]; rfl

mutual
theorem walk_err (lib um environ sname all i cur name tag) :
    ∀ (ft : GoType) (err : Option Error) (cur1 : List Value),
      walk lib um environ sname all i cur name tag ft = .ok (err, cur1) → err = none
  | .basic tn k, err, cur1, h => by
      rw [walk_basic] at h
      simp only [bind, Except.bind] at h
      split at h
      · simp at h
      · simp [pure, Except.pure] at h
        exact h.1.symm
  | .struct n2 fs2, err, cur1, h => by
      rw [walk_struct] at h
      simp only [bind, Except.bind] at h
      split at h
      · simp at h
      · split at h
        · split at h
          · simp at h
          · rename_i r heq
            simp [pure, Except.pure] at h
            have := walkFields_err lib um environ n2 fs2 fs2 0 _ _ _ heq
            rw [← h.1]; exact this
        · simp [pure, Except.pure] at h
          exact h.1.symm
  | .ptr e, err, cur1, h => by
      rw [walk_ptr] at h
      simp only [bind, Except.bind] at h
      split at h
      · simp at h
      · split at h
        · split at h
          · simp at h
          · rename_i r heq
            have := walkCell_err lib um environ e _ _ _ heq
            split at h <;> simp [pure, Except.pure] at h <;> (rw [← h.1]; exact this)
        · simp [pure, Except.pure] at h
          exact h.1.symm
theorem walkCell_err (lib um environ) :
    ∀ (t : GoType) (v : Value) (err : Option Error) (r : Option (List Value)),
      walkCell lib um environ t v = .ok (err, r) → err = none
  | .struct n fs, v, err, r, h => by
      rw [walkCell_struct] at h
      split at h
      · simp only [bind, Except.bind] at h
        split at h
        · simp at h
        · rename_i x heq
          simp [pure, Except.pure] at h
          have := walkFields_err lib um environ n fs fs 0 _ _ _ heq
          rw [← h.1]; exact this
      · simp [pure, Except.pure] at h; exact h.1.symm
  | .basic _ _, _, err, r, h => by
      rw [walkCell_basic] at h; simp at h; exact h.1.symm
  | .ptr _, _, err, r, h => by
      rw [walkCell_ptr] at h; simp at h; exact h.1.symm
theorem walkFields_err (lib um environ sname all) :
    ∀ (todo : Fields) (i : Nat) (cur : List Value) (err : Option Error) (cur1 : List Value),
      walkFields lib um environ sname all todo i cur = .ok (err, cur1) → err = none
  | .nil, i, cur, err, cur1, h => by
      rw [walkFields_nil] at h; simp at h; exact h.1.symm
  | .cons name _ tag ft rest, i, cur, err, cur1, h => by
      rw [walkFields_cons] at h
      simp only [bind, Except.bind] at h
      split at h
      · simp at h
      · rename_i x heq
        have h1 := walk_err lib um environ sname all i cur name tag ft _ _ heq
        split at h
        · rename_i e he; rw [h1] at he; simp at he
        · exact walkFields_err lib um environ sname all rest (i+1) _ _ _ h
end

theorem SetFieldByName_okFor (str name x a) (h : SetFieldByName str name x = .ok a) :
    Assign.okFor name a := by
  unfold SetFieldByName at h
  split at h
  · simp [throw, throwThe, MonadExceptOf.throw] at h
  · split at h
    · simp [throw, throwThe, MonadExceptOf.throw] at h
    · split at h
      · simp [pure, Except.pure] at h; subst h; simp [Assign.okFor]
      · simp [throw, throwThe, MonadExceptOf.throw] at h

theorem SetBool_okFor (value b name a) (h : SetBool value b = .ok a) : Assign.okFor name a := by
  unfold SetBool at h
  split at h
  · simp [throw, throwThe, MonadExceptOf.throw] at h
  · split at h
    · simp [pure, Except.pure] at h; subst h; simp [Assign.okFor]
    · simp [throw, throwThe, MonadExceptOf.throw] at h

theorem SetString_okFor (value b name a) (h : SetString value b = .ok a) : Assign.okFor name a := by
  unfold SetString at h
  split at h
  · simp [throw, throwThe, MonadExceptOf.throw] at h
  · split at h
    · simp [pure, Except.pure] at h; subst h; simp [Assign.okFor]
    · simp [throw, throwThe, MonadExceptOf.throw] at h

theorem SetFloat_okFor (lib value b name a) (h : SetFloat lib value b = .ok a) : Assign.okFor name a := by
  unfold SetFloat at h
  split at h
  · simp [throw, throwThe, MonadExceptOf.throw] at h
  · split at h <;> first
      | (simp [pure, Except.pure] at h; subst h; simp [Assign.okFor])
      | simp [throw, throwThe, MonadExceptOf.throw] at h

theorem SetInt_okFor (value b name a) (h : SetInt value b = .ok a) : Assign.okFor name a := by
  unfold SetInt at h
  split at h
  · simp [throw, throwThe, MonadExceptOf.throw] at h
  · split at h <;> first
      | (simp [pure, Except.pure] at h; subst h; simp [Assign.okFor])
      | simp [throw, throwThe, MonadExceptOf.throw] at h

theorem SetUint_okFor (value b name a) (h : SetUint value b = .ok a) : Assign.okFor name a := by
  unfold SetUint at h
  split at h
  · simp [throw, throwThe, MonadExceptOf.throw] at h
  · split at h <;> first
      | (simp [pure, Except.pure] at h; subst h; simp [Assign.okFor])
      | simp [throw, throwThe, MonadExceptOf.throw] at h

theorem SetConverted_okFor (lib value b name a) (h : SetConverted lib value b = .ok a) : Assign.okFor name a := by
  unfold SetConverted at h
  split at h
  · simp [throw, throwThe, MonadExceptOf.throw] at h
  · split at h <;> first
      | (simp [pure, Except.pure] at h; subst h; simp [Assign.okFor])
      | simp [throw, throwThe, MonadExceptOf.throw] at h

end env

theorem Run.bind_eq_ok {α β : Type} (x : Run α) (f : α → Run β) (b : β) :
    (x >>= f) = .ok b ↔ ∃ a, x = .ok a ∧ f a = .ok b := by
  cases x with
  | error e => simp [bind, Except.bind]
  | ok a => simp [bind, Except.bind]

theorem Run.pure_eq_ok {α : Type} (a b : α) :
    (pure a : Run α) = .ok b ↔ a = b := by
  simp [pure, Except.pure]

theorem Run.throw_ne_ok {α : Type} (e : String) (b : α) :
    (throw e : Run α) = .ok b ↔ False := by
  simp [throw, throwThe, MonadExceptOf.throw]

namespace env

theorem setUInt_okFor (ptr str sf envValue value kind err a)
    (h : setUInt ptr str sf envValue value kind = .ok (err, a)) :
    err = none ∧ Assign.okFor sf.Name a := by
  unfold setUInt at h
  split at h
  · simp [Run.pure_eq_ok] at h; obtain ⟨h1, h2⟩ := h; subst h1 h2; simp [Assign.okFor]
  · split at h
    · simp only [Run.bind_eq_ok, Run.pure_eq_ok] at h
      obtain ⟨c, _, a', ha, h⟩ := h
      simp at h; obtain ⟨h1, h2⟩ := h; subst h1 h2
      exact ⟨rfl, SetFieldByName_okFor _ _ _ _ ha⟩
    · simp only [Run.bind_eq_ok, Run.pure_eq_ok] at h
      obtain ⟨a', ha, h⟩ := h
      simp at h; obtain ⟨h1, h2⟩ := h; subst h1 h2
      exact ⟨rfl, SetUint_okFor _ _ _ _ ha⟩

theorem setInt_okFor (ptr str sf envValue value kind err a)
    (h : setInt ptr str sf envValue value kind = .ok (err, a)) :
    err = none ∧ Assign.okFor sf.Name a := by
  unfold setInt at h
  split at h
  · simp [Run.pure_eq_ok] at h; obtain ⟨h1, h2⟩ := h; subst h1 h2; simp [Assign.okFor]
  · split at h
    · simp only [Run.bind_eq_ok, Run.pure_eq_ok] at h
      obtain ⟨c, _, a', ha, h⟩ := h
      simp at h; obtain ⟨h1, h2⟩ := h; subst h1 h2
      exact ⟨rfl, SetFieldByName_okFor _ _ _ _ ha⟩
    · simp only [Run.bind_eq_ok, Run.pure_eq_ok] at h
      obtain ⟨a', ha, h⟩ := h
      simp at h; obtain ⟨h1, h2⟩ := h; subst h1 h2
      exact ⟨rfl, SetInt_okFor _ _ _ _ ha⟩

theorem setFloat32_okFor (lib ptr str sf envValue value err a)
    (h : setFloat32 lib ptr str sf envValue value = .ok (err, a)) :
    Assign.okFor sf.Name a ∧ (err ≠ none → a = .skip) := by
  unfold setFloat32 at h
  split at h
  · simp [Run.pure_eq_ok] at h; obtain ⟨h1, h2⟩ := h; subst h1 h2; simp [Assign.okFor]
  · simp only at h
    split at h
    · simp only [Run.bind_eq_ok, Run.pure_eq_ok] at h
      obtain ⟨a', ha, h⟩ := h
      simp at h; obtain ⟨h1, h2⟩ := h; subst h1 h2
      exact ⟨SetFieldByName_okFor _ _ _ _ ha, by simp⟩
    · simp only [Run.bind_eq_ok, Run.pure_eq_ok] at h
      obtain ⟨a', ha, h⟩ := h
      simp at h; obtain ⟨h1, h2⟩ := h; subst h1 h2
      exact ⟨SetFloat_okFor _ _ _ _ _ ha, by simp⟩

theorem setFloat64_okFor (lib ptr str sf envValue value err a)
    (h : setFloat64 lib ptr str sf envValue value = .ok (err, a)) :
    Assign.okFor sf.Name a ∧ (err ≠ none → a = .skip) := by
  unfold setFloat64 at h
  split at h
  · simp [Run.pure_eq_ok] at h; obtain ⟨h1, h2⟩ := h; subst h1 h2; simp [Assign.okFor]
  · split at h
    · simp only [Run.bind_eq_ok, Run.pure_eq_ok] at h
      obtain ⟨a', ha, h⟩ := h
      simp at h; obtain ⟨h1, h2⟩ := h; subst h1 h2
      exact ⟨SetFieldByName_okFor _ _ _ _ ha, by simp⟩
    · simp only [Run.bind_eq_ok, Run.pure_eq_ok] at h
      obtain ⟨a', ha, h⟩ := h
      simp at h; obtain ⟨h1, h2⟩ := h; subst h1 h2
      exact ⟨SetFloat_okFor _ _ _ _ _ ha, by simp⟩

theorem setString_okFor (ptr str sf envValue value a)
    (h : setString ptr str sf envValue value = .ok a) : Assign.okFor sf.Name a := by
  unfold setString at h
  split at h
  · exact SetFieldByName_okFor _ _ _ _ h
  · exact SetString_okFor _ _ _ _ h

theorem setBool_okFor (envValue ptr str sf value a)
    (h : setBool envValue ptr str sf value = .ok a) : Assign.okFor sf.Name a := by
  unfold setBool at h
  simp only at h
  split at h
  · exact SetFieldByName_okFor _ _ _ _ h
  · exact SetBool_okFor _ _ _ _ h

theorem setValue_okFor (lib ptr str sf envValue value kind err a)
    (h : setValue lib ptr str sf envValue value kind = .ok (err, a)) :
    Assign.okFor sf.Name a ∧ (err ≠ none → a = .skip) := by
  unfold setValue at h
  split at h
  · simp only [Run.bind_eq_ok, Run.pure_eq_ok] at h
    obtain ⟨a', ha, h⟩ := h
    simp at h; obtain ⟨h1, h2⟩ := h; subst h1 h2
    exact ⟨setBool_okFor _ _ _ _ _ _ ha, by simp⟩
  · simp only [Run.bind_eq_ok, Run.pure_eq_ok] at h
    obtain ⟨a', ha, h⟩ := h
    simp at h; obtain ⟨h1, h2⟩ := h; subst h1 h2
    exact ⟨setString_okFor _ _ _ _ _ _ ha, by simp⟩
  · exact setFloat64_okFor _ _ _ _ _ _ _ _ h
  · exact setFloat32_okFor _ _ _ _ _ _ _ _ h
  all_goals first
    | exact ⟨(setInt_okFor _ _ _ _ _ _ _ _ h).2, by simp [(setInt_okFor _ _ _ _ _ _ _ _ h).1]⟩
    | exact ⟨(setUInt_okFor _ _ _ _ _ _ _ _ h).2, by simp [(setUInt_okFor _ _ _ _ _ _ _ _ h).1]⟩
    | (simp [Run.pure_eq_ok] at h; obtain ⟨h1, h2⟩ := h; subst h1 h2; simp [Assign.okFor])

theorem loadValueEnv_okFor (lib um environ value sf str err a)
    (h : loadValueEnv lib um environ value (some sf) str = .ok (err, a)) :
    Assign.okFor sf.Name a ∧ (err ≠ none → a = .skip) := by
  unfold loadValueEnv at h
  simp only at h
  split at h
  · simp [Run.pure_eq_ok] at h; obtain ⟨h1, h2⟩ := h; subst h1 h2; simp [Assign.okFor]
  · split at h
    · simp [Run.pure_eq_ok] at h; obtain ⟨h1, h2⟩ := h; subst h1 h2; simp [Assign.okFor]
    · split at h
      · split at h
        · simp [Run.pure_eq_ok] at h; obtain ⟨h1, h2⟩ := h; subst h1 h2; simp [Assign.okFor]
        · exact setValue_okFor _ _ _ _ _ _ _ _ _ h
      · split at h
        · simp only [Run.bind_eq_ok, Run.pure_eq_ok] at h
          obtain ⟨a', ha, h⟩ := h
          simp at h; obtain ⟨h1, h2⟩ := h; subst h1 h2
          exact ⟨SetFieldByName_okFor _ _ _ _ ha, by simp⟩
        · simp only [Run.bind_eq_ok, Run.pure_eq_ok] at h
          obtain ⟨a', ha, h⟩ := h
          simp at h; obtain ⟨h1, h2⟩ := h; subst h1 h2
          exact ⟨SetConverted_okFor _ _ _ _ _ ha, by simp⟩

end env

theorem OnlyAt.refl (i : Nat) (cur : List Value) : OnlyAt i cur cur :=
  ⟨rfl, fun _ _ => rfl⟩

theorem OnlyAt.set (i : Nat) (cur cur1 : List Value) (v : Value) (h : OnlyAt i cur cur1) :
    OnlyAt i cur (cur1.set i v) := by
  refine ⟨by simp [h.1], fun j hj => ?_⟩
  rw [List.getElem?_set_ne (Ne.symm hj)]
  exact h.2 j hj

theorem Fields.name_mem_of_get : ∀ (fs : Fields) (j : Nat) (sf : StructField),
    fs.get? j = some sf → sf.Name ∈ fs.names
  | .nil, _, _, h => by simp [Fields.get?] at h
  | .cons n _ t ty rest, 0, sf, h => by
      simp [Fields.get?] at h; subst h; simp [Fields.names]
  | .cons n _ t ty rest, j + 1, sf, h => by
      simp only [Fields.get?] at h
      simp only [Fields.names, List.mem_cons]
      exact Or.inr (Fields.name_mem_of_get rest j sf h)

theorem Fields.byName_of_get : ∀ (fs : Fields) (j : Nat) (sf : StructField),
    fs.names.Nodup → fs.get? j = some sf → fs.byName sf.Name = some (j, sf.Typ)
  | .nil, _, _, _, h => by simp [Fields.get?] at h
  | .cons n _ t ty rest, 0, sf, _, h => by
      simp [Fields.get?] at h; subst h; simp [Fields.byName]
  | .cons n _ t ty rest, j + 1, sf, hnd, h => by
      simp only [Fields.get?] at h
      simp only [Fields.names, List.nodup_cons] at hnd
      have hmem := Fields.name_mem_of_get rest j sf h
      have hne : n ≠ sf.Name := fun e => hnd.1 (e ▸ hmem)
      have ih := Fields.byName_of_get rest j sf hnd.2 h
      simp [Fields.byName, hne, ih]

namespace env

theorem applyAssign_only (a : Assign) (ft : GoType) (all : Fields) (i : Nat)
    (cur : List Value) (name : String) (t : GoType) (ha : Assign.okFor name a)
    (hn : all.byName name = some (i, t)) : OnlyAt i cur (applyAssign a ft all i cur) := by
  cases a with
  | skip => exact OnlyAt.refl i cur
  | value v =>
    unfold applyAssign
    cases ft <;> exact OnlyAt.set i cur cur _ (OnlyAt.refl i cur)
  | field n p =>
    simp only [Assign.okFor] at ha
    subst ha
    simp only [applyAssign, hn]
    exact OnlyAt.set i cur cur _ (OnlyAt.refl i cur)

theorem walkBind_spec (lib um environ sname all i cur name tag ft err a cur1)
    (h : walkBind lib um environ sname all i cur name tag ft = .ok (err, a, cur1)) :
    ∃ fv, cur[i]? = some fv ∧
      loadValueEnv lib um environ (Indirect ft fv) (some ⟨name, ft, tag⟩)
        (some ⟨sname, all, cur⟩) = .ok (err, a) ∧
      cur1 = applyAssign a ft all i cur := by
  unfold walkBind at h
  split at h
  · simp [Run.throw_ne_ok] at h
  · rename_i fv hfv
    simp only [Run.bind_eq_ok, Run.pure_eq_ok] at h
    obtain ⟨⟨e1, a1⟩, h1, h2⟩ := h
    simp at h2
    obtain ⟨h3, h4, h5⟩ := h2
    subst h3 h4
    exact ⟨fv, hfv, h1, h5.symm⟩

theorem walkBind_only (lib um environ sname all i cur name tag ft err a cur1 t)
    (hn : all.byName name = some (i, t))
    (h : walkBind lib um environ sname all i cur name tag ft = .ok (err, a, cur1)) :
    OnlyAt i cur cur1 := by
  obtain ⟨fv, _, h1, h2⟩ := walkBind_spec _ _ _ _ _ _ _ _ _ _ _ _ _ h
  subst h2
  exact applyAssign_only a ft all i cur name t (loadValueEnv_okFor _ _ _ _ _ _ _ _ h1).1 hn

theorem walk_only (lib um environ sname all i cur name tag t)
    (hn : all.byName name = some (i, t)) (ft : GoType) (err : Option Error)
    (cur' : List Value)
    (h : walk lib um environ sname all i cur name tag ft = .ok (err, cur')) :
    OnlyAt i cur cur' := by
  cases ft with
  | basic tn k =>
    rw [walk_basic] at h
    simp only [Run.bind_eq_ok, Run.pure_eq_ok] at h
    obtain ⟨⟨e1, a1, c1⟩, h1, h2⟩ := h
    simp at h2
    rw [← h2.2]
    exact walkBind_only _ _ _ _ _ _ _ _ _ _ _ _ _ _ hn h1
  | struct n2 fs2 =>
    rw [walk_struct] at h
    simp only [Run.bind_eq_ok] at h
    obtain ⟨⟨e1, a1, c1⟩, h1, h2⟩ := h
    have ho := walkBind_only _ _ _ _ _ _ _ _ _ _ _ _ _ _ hn h1
    simp only at h2
    split at h2
    · simp only [Run.bind_eq_ok, Run.pure_eq_ok] at h2
      obtain ⟨⟨e2, vs3⟩, _, h3⟩ := h2
      simp at h3
      rw [← h3.2]
      exact OnlyAt.set i cur c1 _ ho
    · simp [Run.pure_eq_ok] at h2
      rw [← h2.2]; exact ho
  | ptr e =>
    rw [walk_ptr] at h
    simp only [Run.bind_eq_ok] at h
    obtain ⟨⟨e1, a1, c1⟩, h1, h2⟩ := h
    have ho := walkBind_only _ _ _ _ _ _ _ _ _ _ _ _ _ _ hn h1
    simp only at h2
    split at h2
    · simp only [Run.bind_eq_ok] at h2
      obtain ⟨⟨e2, r⟩, _, h3⟩ := h2
      simp only at h3
      split at h3
      · simp [Run.pure_eq_ok] at h3; rw [← h3.2]; exact ho
      · simp [Run.pure_eq_ok] at h3; rw [← h3.2]; exact OnlyAt.set i cur c1 _ ho
      · simp [Run.pure_eq_ok] at h3; rw [← h3.2]; exact ho
    · simp [Run.pure_eq_ok] at h2
      rw [← h2.2]; exact ho

theorem walkFields_spec (lib um environ sname all) (hnd : all.names.Nodup) :
    ∀ (todo : Fields) (i : Nat) (cur : List Value) (err : Option Error)
      (cur' : List Value),
      (∀ k, todo.get? k = all.get? (i + k)) →
      walkFields lib um environ sname all todo i cur = .ok (err, cur') →
      cur'.length = cur.length ∧ (∀ j, j < i → cur'[j]? = cur[j]?) ∧
      (∀ j sf, i ≤ j → all.get? j = some sf → ∃ st st',
        (∀ k, j ≤ k → st[k]? = cur[k]?) ∧
        walk lib um environ sname all j st sf.Name sf.Tag sf.Typ = .ok (none, st') ∧
        cur'[j]? = st'[j]?)
  | .nil, i, cur, err, cur', hsuf, h => by
      rw [walkFields_nil] at h
      simp at h
      obtain ⟨_, h2⟩ := h
      subst h2
      refine ⟨rfl, fun _ _ => rfl, fun j sf hj hg => ?_⟩
      have := hsuf (j - i)
      rw [Nat.add_sub_cancel' hj, hg] at this
      simp [Fields.get?] at this
  | .cons name _ tag ft rest, i, cur, err, cur', hsuf, h => by
      rw [walkFields_cons] at h
      simp only [Run.bind_eq_ok] at h
      obtain ⟨⟨e1, c1⟩, h1, h2⟩ := h
      have he1 := walk_err _ _ _ _ _ _ _ _ _ _ _ _ h1
      subst he1
      simp only at h2
      have hget : all.get? i = some ⟨name, ft, tag⟩ := by
        have := hsuf 0
        simpa [Fields.get?] using this.symm
      have hn := Fields.byName_of_get all i _ hnd hget
      have ho := walk_only _ _ _ _ _ _ _ _ _ _ hn _ _ _ h1
      have hsuf' : ∀ k, rest.get? k = all.get? (i + 1 + k) := by
        intro k
        have := hsuf (k + 1)
        simp only [Fields.get?] at this
        rw [this]; congr 1; omega
      obtain ⟨ih1, ih2, ih3⟩ :=
        walkFields_spec lib um environ sname all hnd rest (i + 1) c1 err cur' hsuf' h2
      refine ⟨by rw [ih1, ho.1], fun j hj => ?_, fun j sf hj hg => ?_⟩
      · rw [ih2 j (by omega), ho.2 j (by omega)]
      · by_cases hji : j = i
        · subst hji
          rw [hget] at hg
          simp at hg
          subst hg
          exact ⟨cur, c1, fun _ _ => rfl, h1, ih2 j (by omega)⟩
        · obtain ⟨c, c', hc, hw, hr⟩ := ih3 j sf (by omega) hg
          refine ⟨c, c', fun k hk => ?_, hw, hr⟩
          rw [hc k hk, ho.2 k (by omega)]

theorem Load_target (lib um environ sname fs vals r)
    (h : Load lib um environ (target sname fs vals) = .ok r) :
    ∃ vals', walkFields lib um environ sname fs fs 0 vals = .ok (none, vals') ∧
      r = (none, target sname fs vals') := by
  unfold Load target at h
  simp only [GoType.Kind, ne_eq, not_true_eq_false, ↓reduceIte, Run.bind_eq_ok] at h
  obtain ⟨⟨e1, v1⟩, h1, h2⟩ := h
  unfold walkRoot at h1
  simp only [Indirect, loadValueEnv, Run.bind_eq_ok, Run.pure_eq_ok] at h1
  obtain ⟨⟨e2, a2⟩, h3, h4⟩ := h1
  simp at h3
  obtain ⟨h5, _⟩ := h3
  subst h5
  simp only [Run.bind_eq_ok] at h4
  obtain ⟨⟨e3, r3⟩, h6, h7⟩ := h4
  rw [walkCell_struct] at h6
  simp only [Run.bind_eq_ok, Run.pure_eq_ok] at h6
  obtain ⟨⟨e4, vs4⟩, h8, h9⟩ := h6
  have he4 := walkFields_err _ _ _ _ _ _ _ _ _ _ h8
  subst he4
  simp at h9
  obtain ⟨h10, h11⟩ := h9
  subst h10 h11
  simp [Run.pure_eq_ok] at h7
  obtain ⟨h12, h13⟩ := h7
  subst h12 h13
  simp [Run.pure_eq_ok] at h2
  exact ⟨vs4, h8, h2.symm⟩

theorem Load_field (lib um environ sname fs vals r i sf) (hnd : fs.names.Nodup)
    (hget : fs.get? i = some sf)
    (h : Load lib um environ (target sname fs vals) = .ok r) :
    r.1 = none ∧ ∃ st st', (∀ k, i ≤ k → st[k]? = vals[k]?) ∧
      walk lib um environ sname fs i st sf.Name sf.Tag sf.Typ = .ok (none, st') ∧
      fieldOf r.2 i = st'[i]? := by
  obtain ⟨vals', hw, hr⟩ := Load_target _ _ _ _ _ _ _ h
  subst hr
  obtain ⟨_, _, h3⟩ := walkFields_spec lib um environ sname fs hnd fs 0 vals none vals'
    (fun k => by simp) hw
  obtain ⟨c, c', hc, hwk, hres⟩ := h3 i sf (Nat.zero_le _) hget
  exact ⟨rfl, c, c', hc, hwk, by simpa [fieldOf, target] using hres⟩

theorem applyAssign_at (a : Assign) (ft : GoType) (all : Fields) (i : Nat)
    (st : List Value) (name : String) (t : GoType) (fv : Value)
    (ha : Assign.okFor name a) (hn : all.byName name = some (i, t))
    (hfv : st[i]? = some fv) :
    (applyAssign a ft all i st)[i]? = some (a.result ft fv) := by
  have hi : i < st.length := by
    rcases Nat.lt_or_ge i st.length with h | h
    · exact h
    · rw [List.getElem?_eq_none h] at hfv; simp at hfv
  cases a with
  | skip => simpa [applyAssign, Assign.result] using hfv
  | value v =>
    cases ft <;> simp [applyAssign, Assign.result, stored, List.getElem?_set_self, hi]
  | field n p =>
    simp only [Assign.okFor] at ha
    subst ha
    simp [applyAssign, hn, Assign.result, List.getElem?_set_self, hi]

theorem walk_leaf (lib um environ sname all i st name tag) (ft : GoType)
    (hleaf : ft.walksInto = false) (e : Option Error) (st' : List Value)
    (h : walk lib um environ sname all i st name tag ft = .ok (e, st')) :
    ∃ fv err a, st[i]? = some fv ∧
      loadValueEnv lib um environ (Indirect ft fv) (some ⟨name, ft, tag⟩)
        (some ⟨sname, all, st⟩) = .ok (err, a) ∧
      st' = applyAssign a ft all i st := by
  cases ft with
  | basic tn k =>
    rw [walk_basic] at h
    simp only [Run.bind_eq_ok, Run.pure_eq_ok] at h
    obtain ⟨⟨e1, a1, c1⟩, h1, h2⟩ := h
    simp at h2
    obtain ⟨fv, hfv, hl, hc⟩ := walkBind_spec _ _ _ _ _ _ _ _ _ _ _ _ _ h1
    exact ⟨fv, e1, a1, hfv, hl, by rw [← h2.2, hc]⟩
  | struct n2 fs2 => simp [GoType.walksInto] at hleaf
  | ptr el =>
    rw [walk_ptr] at h
    simp only [Run.bind_eq_ok] at h
    obtain ⟨⟨e1, a1, c1⟩, h1, h2⟩ := h
    obtain ⟨fv, hfv, hl, hc⟩ := walkBind_spec _ _ _ _ _ _ _ _ _ _ _ _ _ h1
    refine ⟨fv, e1, a1, hfv, hl, ?_⟩
    simp only at h2
    split at h2
    · simp only [Run.bind_eq_ok] at h2
      obtain ⟨⟨e2, r⟩, hcell, h3⟩ := h2
      have hr : r = none := by
        cases el with
        | basic _ _ => rw [walkCell_basic] at hcell; simp at hcell; exact hcell.2.symm
        | ptr _ => rw [walkCell_ptr] at hcell; simp at hcell; exact hcell.2.symm
        | struct _ _ => simp [GoType.walksInto] at hleaf
      subst hr
      simp only at h3
      split at h3
      · simp [Run.pure_eq_ok] at h3; rw [← h3.2, hc]
      · rename_i hh; simp at hh
      · simp [Run.pure_eq_ok] at h3; rw [← h3.2, hc]
    · simp [Run.pure_eq_ok] at h2
      rw [← h2.2, hc]

theorem Load_leaf_field (lib um environ sname fs vals r i sf) (hnd : fs.names.Nodup)
    (hget : fs.get? i = some sf) (hleaf : sf.Typ.walksInto = false)
    (h : Load lib um environ (target sname fs vals) = .ok r) :
    r.1 = none ∧ ∃ st fv err a, (∀ k, i ≤ k → st[k]? = vals[k]?) ∧
      vals[i]? = some fv ∧
      loadValueEnv lib um environ (Indirect sf.Typ fv) (some sf) (some ⟨sname, fs, st⟩)
        = .ok (err, a) ∧
      fieldOf r.2 i = some (a.result sf.Typ fv) := by
  obtain ⟨hr, st, st', hst, hw, hf⟩ := Load_field _ _ _ _ _ _ _ _ _ hnd hget h
  obtain ⟨fv, err, a, hfv, hl, hs⟩ := walk_leaf _ _ _ _ _ _ _ _ _ _ hleaf _ _ hw
  refine ⟨hr, st, fv, err, a, hst, ?_, hl, ?_⟩
  · rw [← hst i (Nat.le_refl _)]; exact hfv
  · rw [hf, hs]
    exact applyAssign_at a sf.Typ fs i st sf.Name sf.Typ fv
      (loadValueEnv_okFor _ _ _ _ _ _ _ _ hl).1 (Fields.byName_of_get fs i sf hnd hget) hfv

theorem loadValueEnv_nodec (lib : Lib) (um : Unmarshalers) (environ : Environ)
    (value : Option (GoType × Value)) (name key sname : String) (ft : GoType)
    (fs : Fields) (st : List Value) (hum : um sname = none) :
    loadValueEnv lib um environ value (some ⟨name, ft, some key⟩) (some ⟨sname, fs, st⟩)
      = (match LookupEnv environ key with
        | none => pure (none, .skip)
        | some s => setValue lib (decide (ft.Kind = Kind.Ptr)) (some ⟨sname, fs, st⟩)
            ⟨name, ft, some key⟩ s value (effKind ft)) := by
  simp only [loadValueEnv, unmarshalFromValue, hum]
  cases LookupEnv environ key with
  | none => rfl
  | some s => cases ft <;> rfl

end env

theorem Char.eq_of_toNat_eq (a b : Char) (h : a.toNat = b.toNat) : a = b := by
  apply Char.ext
  apply UInt32.ext
  exact h

theorem toLower_eq_iff (c : Char) (lo up : Char) (hlo : lo.toNat = up.toNat + 32)
    (hup : 65 ≤ up.toNat ∧ up.toNat ≤ 90) :
    c.toLower = lo ↔ (c = lo ∨ c = up) := by
  unfold Char.toLower
  simp only
  split
  · rename_i h
    have hof : (Char.ofNat (c.toNat + 32)).toNat = c.toNat + 32 := by
      generalize c.toNat = n at h
      obtain ⟨h1, h2⟩ := h
      interval_cases n <;> rfl
    constructor
    · intro h2
      right
      apply Char.eq_of_toNat_eq
      have := congrArg Char.toNat h2
      rw [hof, hlo] at this
      omega
    · rintro (h2 | h2)
      · subst h2; omega
      · subst h2
        apply Char.eq_of_toNat_eq
        rw [hof, hlo]
  · rename_i h
    constructor
    · intro h2; exact Or.inl h2
    · rintro (h2 | h2)
      · exact h2
      · subst h2; exact absurd hup h

theorem ToLower_eq_false_iff (s : String) : ToLower s = "false" ↔ isFalseWord s = true := by
  have hf := fun c => toLower_eq_iff c 'f' 'F' (by decide) (by decide)
  have ha := fun c => toLower_eq_iff c 'a' 'A' (by decide) (by decide)
  have hl := fun c => toLower_eq_iff c 'l' 'L' (by decide) (by decide)
  have hs := fun c => toLower_eq_iff c 's' 'S' (by decide) (by decide)
  have he := fun c => toLower_eq_iff c 'e' 'E' (by decide) (by decide)
  unfold ToLower isFalseWord
  rw [String.ext_iff]
  rcases s.data with _ | ⟨c1, _ | ⟨c2, _ | ⟨c3, _ | ⟨c4, _ | ⟨c5, _ | ⟨c6, t⟩⟩⟩⟩⟩⟩ <;>
    simp [hf, ha, hl, hs, he, and_assoc]

theorem setBool_value_eq (s : String) :
    (s != "" && s != "0" && ToLower s != "false")
      = !(s == "" || s == "0" || isFalseWord s) := by
  have h := ToLower_eq_false_iff s
  by_cases h1 : s = "" <;> by_cases h2 : s = "0" <;>
    by_cases h3 : ToLower s = "false" <;> simp_all [bne]

theorem digitChar_toNat (d : Nat) (h : d < 10) : (digitChar d).toNat = 48 + d := by
  unfold digitChar
  interval_cases d <;> rfl

theorem parseDigits_map (ds : List Nat) : ∀ (acc : Nat), (∀ d ∈ ds, d < 10) →
    parseDigits (ds.map digitChar) acc
      = some (acc * 10 ^ ds.length + Nat.ofDigits 10 ds.reverse) := by
  induction ds with
  | nil => intro acc _; simp [parseDigits]
  | cons d ds ih =>
    intro acc h
    have hd : d < 10 := h d (List.mem_cons_self _ _)
    have hds : ∀ x ∈ ds, x < 10 := fun x hx => h x (List.mem_cons_of_mem _ hx)
    have hc := digitChar_toNat d hd
    simp only [List.map_cons, parseDigits, hc]
    rw [if_pos (by omega), ih _ hds]
    simp only [List.reverse_cons, Nat.ofDigits_append, Nat.ofDigits_singleton,
      List.length_reverse, List.length_cons]
    congr 1
    have : 48 + d - 48 = d := by omega
    rw [this]
    ring

theorem parseDigits_minus (cs : List Char) (acc : Nat) :
    parseDigits ('-' :: cs) acc = none := by
  simp [parseDigits]

theorem digitChar_ne_sign (d : Nat) (h : d < 10) :
    digitChar d ≠ '+' ∧ digitChar d ≠ '-' := by
  have hc := digitChar_toNat d h
  constructor <;> intro he <;> rw [he] at hc <;> simp at hc <;> omega

theorem wrapInt_id (w : Nat) (n : Int) (hw : w = 8 ∨ w = 16 ∨ w = 32 ∨ w = 64)
    (h1 : -(2 : Int) ^ (w - 1) ≤ n) (h2 : n < (2 : Int) ^ (w - 1)) : wrapInt w n = n := by
  unfold wrapInt
  rcases hw with rfl | rfl | rfl | rfl <;> norm_num at h1 h2 ⊢ <;> omega

theorem wrapUint_id (w : Nat) (n : Nat) (h : n < 2 ^ w) : wrapUint w n = n :=
  Nat.mod_eq_of_lt h

theorem intWidth_cases (k : Kind) (signed : Bool) (w : Nat)
    (h : intWidth k = some (signed, w)) : w = 8 ∨ w = 16 ∨ w = 32 ∨ w = 64 := by
  cases k <;> simp [intWidth] at h <;> omega

namespace env

theorem SetInt_in_range (t : GoType) (fv : Value) (w : Nat) (n : Int)
    (hw : intWidth t.Kind = some (true, w)) (hin : inRange true w n) :
    SetInt (some (t, fv)) n = .ok (.value (.int n)) := by
  have hw' := intWidth_cases _ true w hw
  simp only [inRange, if_true] at hin
  unfold SetInt
  simp only
  generalize t.Kind = k at hw
  cases k <;> simp [intWidth] at hw <;> subst hw <;>
    simp [wrapInt_id _ n (by simp) hin.1 hin.2, pure, Except.pure]

theorem SetUint_in_range (t : GoType) (fv : Value) (w : Nat) (n : Int)
    (hw : intWidth t.Kind = some (false, w)) (hin : inRange false w n) :
    SetUint (some (t, fv)) n.toNat = .ok (.value (.uint n.toNat)) := by
  simp only [inRange, Bool.false_eq_true, if_false] at hin
  have hlt : n.toNat < 2 ^ w := by
    have h0 := hin.1
    have h1 := hin.2
    have : ((n.toNat : Nat) : Int) < ((2 ^ w : Nat) : Int) := by
      rw [Int.toNat_of_nonneg h0]; push_cast; exact h1
    exact_mod_cast this
  unfold SetUint
  simp only
  generalize t.Kind = k at hw
  cases k <;> simp [intWidth] at hw <;> subst hw <;>
    simp [wrapUint_id _ _ hlt, pure, Except.pure]

theorem setValue_signed (lib ptr str sf s value) (k : Kind) (w : Nat)
    (hw : intWidth k = some (true, w)) :
    setValue lib ptr str sf s value k = setInt ptr str sf s value k := by
  cases k <;> simp [intWidth] at hw <;> rfl

theorem setValue_unsigned (lib ptr str sf s value) (k : Kind) (w : Nat)
    (hw : intWidth k = some (false, w)) :
    setValue lib ptr str sf s value k = setUInt ptr str sf s value k := by
  cases k <;> simp [intWidth] at hw <;> rfl

theorem leaf_of_intWidth (ft : GoType) (signed : Bool) (w : Nat)
    (hw : intWidth (effKind ft) = some (signed, w)) : ft.walksInto = false := by
  cases ft with
  | basic _ _ => rfl
  | struct _ _ => simp [effKind, GoType.Kind, intWidth] at hw
  | ptr el => cases el <;> first | rfl | simp [effKind, GoType.Kind, intWidth] at hw

/-- The assignment of a pointer-mode setter, read as the new content of the field. -/
theorem SetFieldByName_result (sname : String) (fs : Fields) (st : List Value)
    (name : String) (ft : GoType) (x : Iface) (a : Assign) (old : Value)
    (ha : SetFieldByName (some ⟨sname, fs, st⟩) name x = .ok a) :
    a.result ft old = x.val := by
  unfold SetFieldByName at ha
  simp only at ha
  split at ha
  · simp [Run.throw_ne_ok] at ha
  · split at ha
    · simp [Run.pure_eq_ok] at ha; subst ha; rfl
    · simp [Run.throw_ne_ok] at ha

end env

theorem mem_decimalDigits (c : Char) (h : 48 ≤ c.toNat ∧ c.toNat ≤ 57) :
    decimalDigits.contains c = true := by
  have hc : c = Char.ofNat c.toNat := (Char.ofNat_toNat c).symm
  generalize c.toNat = n at h hc
  obtain ⟨h1, h2⟩ := h
  subst hc
  interval_cases n <;> decide

theorem parseDigits_some_all (cs : List Char) : ∀ (acc v : Nat),
    parseDigits cs acc = some v → cs.all (fun d => decimalDigits.contains d) = true := by
  induction cs with
  | nil => intro _ _ _; rfl
  | cons c cs ih =>
    intro acc v h
    simp only [parseDigits] at h
    split at h
    · rename_i hc
      simp only [List.all_cons, Bool.and_eq_true]
      exact ⟨mem_decimalDigits c hc, ih _ _ h⟩
    · simp at h

theorem ParseUint_malformed (s : String) (w : Nat) (h : isDecimalInteger s = false) :
    ParseUint s w = none := by
  unfold ParseUint
  by_cases h1 : s.data = []
  · rw [if_pos h1]
  · rw [if_neg h1]
    by_cases h2 : 64 < w
    · rw [if_pos h2]
    · rw [if_neg h2]
      cases hp : parseDigits s.data 0 with
      | none => rfl
      | some v =>
        exfalso
        have hall := parseDigits_some_all _ _ _ hp
        unfold isDecimalInteger at h
        cases hd : s.data with
        | nil => exact h1 hd
        | cons c cs =>
          rw [hd] at h hall
          simp only at h
          by_cases hsign : c = '+' ∨ c = '-'
          · simp only [List.all_cons, Bool.and_eq_true] at hall
            rcases hsign with rfl | rfl <;> exact absurd hall.1 (by decide)
          · rw [if_neg hsign, hall] at h; simp at h

theorem ParseInt_malformed (s : String) (w : Nat) (h : isDecimalInteger s = false) :
    ParseInt s w = none := by
  unfold ParseInt
  unfold isDecimalInteger at h
  cases hd : s.data with
  | nil => rfl
  | cons c cs =>
    rw [hd] at h
    simp only at h ⊢
    by_cases h1 : (if c = '+' ∨ c = '-' then cs else c :: cs) = []
    · rw [if_pos h1]
    · rw [if_neg h1]
      by_cases h2 : 64 < w
      · rw [if_pos h2]
      · rw [if_neg h2]
        cases hp : parseDigits (if c = '+' ∨ c = '-' then cs else c :: cs) 0 with
        | none => rfl
        | some v =>
          exfalso
          have hall := parseDigits_some_all _ _ _ hp
          by_cases hsign : c = '+' ∨ c = '-'
          · rw [if_pos hsign] at h hall h1
            rw [hall] at h
            cases cs with
            | nil => exact h1 rfl
            | cons _ _ => simp at h
          · rw [if_neg hsign] at h hall
            rw [hall] at h; simp at h

theorem ParseInt_range (s : String) (w : Nat) (n : Int)
    (hw : w = 8 ∨ w = 16 ∨ w = 32 ∨ w = 64) (h : ParseInt s w = some n) :
    inRange true w n := by
  have hw0 : effBitSize w = w := by
    unfold effBitSize; rw [if_neg (by omega)]
  have hpow : ((2 ^ (w - 1) : Nat) : Int) = (2 : Int) ^ (w - 1) := by push_cast; rfl
  have hpos : (0 : Int) < (2 : Int) ^ (w - 1) := by positivity
  simp only [inRange, if_true]
  unfold ParseInt at h
  cases hd : s.data with
  | nil => rw [hd] at h; simp at h
  | cons c cs =>
    rw [hd] at h
    simp only [hw0] at h
    by_cases h1 : (if c = '+' ∨ c = '-' then cs else c :: cs) = []
    · rw [if_pos h1] at h; simp at h
    · rw [if_neg h1] at h
      by_cases h2 : 64 < w
      · rw [if_pos h2] at h; simp at h
      · rw [if_neg h2] at h
        cases hp : parseDigits (if c = '+' ∨ c = '-' then cs else c :: cs) 0 with
        | none => rw [hp] at h; simp at h
        | some un =>
          rw [hp] at h
          simp only at h
          by_cases hneg : c = '-'
          · rw [if_pos hneg] at h
            by_cases hr : un ≤ 2 ^ (w - 1)
            · rw [if_pos hr] at h
              simp at h
              rw [← hpow]
              omega
            · rw [if_neg hr] at h; simp at h
          · rw [if_neg hneg] at h
            by_cases hr : un < 2 ^ (w - 1)
            · rw [if_pos hr] at h
              simp at h
              rw [← hpow]
              omega
            · rw [if_neg hr] at h; simp at h

theorem ParseUint_range (s : String) (w : Nat) (n : Nat)
    (hw : w = 8 ∨ w = 16 ∨ w = 32 ∨ w = 64) (h : ParseUint s w = some n) :
    n < 2 ^ w := by
  have hw0 : effBitSize w = w := by
    unfold effBitSize; rw [if_neg (by omega)]
  unfold ParseUint at h
  by_cases h1 : s.data = []
  · rw [if_pos h1] at h; simp at h
  · rw [if_neg h1] at h
    by_cases h2 : 64 < w
    · rw [if_pos h2] at h; simp at h
    · rw [if_neg h2] at h
      cases hp : parseDigits s.data 0 with
      | none => rw [hp] at h; simp at h
      | some v =>
        rw [hp, hw0] at h
        simp only at h
        by_cases hr : v < 2 ^ w
        · rw [if_pos hr] at h
          simp at h
          omega
        · rw [if_neg hr] at h; simp at h

namespace env

theorem setValue_coerced_value (lib : Lib) (str : Option StructValue) (sf : StructField)
    (s : String) (t : GoType) (fv : Value) (v : Value)
    (h : coerced lib t.Kind s = some v) :
    setValue lib false str sf s (some (t, fv)) t.Kind = .ok (none, .value v) := by
  generalize hk : t.Kind = k at h
  cases k <;> simp [coerced, intWidth] at h
  case Bool =>
    subst h
    simp [setValue, setBool, SetBool, hk, setBool_value_eq, bind, Except.bind, pure,
      Except.pure]
  case String =>
    subst h
    simp [setValue, setString, SetString, hk, bind, Except.bind, pure, Except.pure]
  case Float64 =>
    split at h
    · simp at h; subst h
      rename_i x hx
      simp [setValue, setFloat64, hx, SetFloat, hk, bind, Except.bind, pure, Except.pure]
    · simp at h
  case Float32 =>
    split at h
    · simp at h; subst h
      rename_i x hx
      simp [setValue, setFloat32, hx, SetFloat, hk, bind, Except.bind, pure, Except.pure]
    · simp at h
  all_goals
    obtain ⟨n, hn, hv⟩ := h
    subst hv
    first
      | (have hr := ParseInt_range s _ n (by simp) hn
         simp only [inRange, if_true] at hr
         simp [setValue, setInt, bits, hn, SetInt, hk, wrapInt_id _ n (by simp) hr.1 hr.2,
           bind, Except.bind, pure, Except.pure])
      | (have hr := ParseUint_range s _ n (by simp) hn
         simp [setValue, setUInt, bits, hn, SetUint, hk, wrapUint_id _ n hr,
           bind, Except.bind, pure, Except.pure])

theorem setValue_coerced_ptr (lib : Lib) (str : Option StructValue) (sf : StructField)
    (s : String) (value : Option (GoType × Value)) (k : Kind) (v : Value)
    (h : coerced lib k s = some v) :
    setValue lib true str sf s value k
      = (do
          let a ← SetFieldByName str sf.Name ⟨.ptr (predeclared k), .ptr v⟩
          pure (none, a)) := by
  cases k <;> simp [coerced, intWidth] at h
  case Bool =>
    subst h
    simp [setValue, setBool, setBool_value_eq]
  case String =>
    subst h
    simp [setValue, setString]
  case Float64 =>
    split at h
    · simp at h; subst h
      rename_i x hx
      simp [setValue, setFloat64, hx]
    · simp at h
  case Float32 =>
    split at h
    · simp at h; subst h
      rename_i x hx
      simp [setValue, setFloat32, hx]
    · simp at h
  all_goals
    obtain ⟨n, hn, hv⟩ := h
    subst hv
    first
      | (have hr := ParseInt_range s _ n (by simp) hn
         simp only [inRange, if_true] at hr
         simp [setValue, setInt, bits, hn, castInts, wrapInt_id _ n (by simp) hr.1 hr.2,
           bind, Except.bind, pure, Except.pure])
      | (have hr := ParseUint_range s _ n (by simp) hn
         simp [setValue, setUInt, bits, hn, castInts, wrapUint_id _ n hr,
           bind, Except.bind, pure, Except.pure])

theorem loadValueEnv_returns (lib : Lib) (um : Unmarshalers) (environ : Environ)
    (sname : String) (all : Fields) (st : List Value) (name : String)
    (tag : Option String) (ft : GoType) (fv : Value) (i : Nat) (hum : um sname = none)
    (hby : all.byName name = some (i, ft)) (hset : ft.settable = true) :
    ∃ err a, loadValueEnv lib um environ (Indirect ft fv) (some ⟨name, ft, tag⟩)
      (some ⟨sname, all, st⟩) = .ok (err, a) := by
  cases tag with
  | none => exact ⟨none, .skip, rfl⟩
  | some key =>
    rw [loadValueEnv_nodec lib um environ _ name key sname ft all st hum]
    cases LookupEnv environ key with
    | none => exact ⟨none, .skip, rfl⟩
    | some s =>
      simp only
      cases ft with
      | struct n fs => exact ⟨none, .skip, rfl⟩
      | basic tn k =>
        cases k <;>
          simp [setValue, GoType.Kind, effKind, Indirect, setBool, SetBool, setString,
            SetString, setFloat64, setFloat32, SetFloat, setInt, setUInt, SetInt, SetUint,
            bind, Except.bind, pure, Except.pure] <;>
          (try split) <;> simp
      | ptr e =>
        have hk : (GoType.ptr e).Kind = Kind.Ptr := rfl
        have he : effKind (GoType.ptr e) = e.Kind := rfl
        simp only [hk, he, decide_True]
        simp only [GoType.settable, Bool.or_eq_true, Bool.not_eq_true'] at hset
        generalize hek : e.Kind = k at hset
        have hbeq : supportedKind k = true →
            (GoType.ptr (predeclared k)).beq (GoType.ptr e) = true := by
          intro hs
          rcases hset with h | h
          · rw [h] at hs; simp at hs
          · simpa [GoType.beq] using h
        cases k <;>
          simp [setValue, setBool, setString, setFloat64, setFloat32, setInt, setUInt,
            SetFieldByName, hby, castInts, bind, Except.bind, pure, Except.pure] <;>
          (try simp [hbeq (by rfl)]) <;>
          (try split) <;> simp [hbeq (by rfl)]

end env

theorem OnlyAt.drop_succ (i : Nat) (cur cur1 : List Value) (h : OnlyAt i cur cur1) :
    cur1.drop (i + 1) = cur.drop (i + 1) := by
  apply List.ext_getElem?
  intro k
  rw [List.getElem?_drop, List.getElem?_drop]
  exact h.2 _ (by omega)

theorem drop_eq_cons_get (cur : List Value) (i : Nat) (v : Value) (vs : List Value)
    (h : cur.drop i = v :: vs) : cur[i]? = some v ∧ cur.drop (i + 1) = vs := by
  constructor
  · have := congrArg (fun l => l[0]?) h
    simpa [List.getElem?_drop] using this
  · have := congrArg (fun l => l.drop 1) h
    simpa [List.drop_drop, Nat.add_comm] using this

theorem WellFormed_ptr (um : env.Unmarshalers) (e : GoType) (v : Value) :
    WellFormed um (.ptr e) v ↔
      (GoType.ptr e).settable = true ∧ ∀ pv, v = .ptr pv → WellFormed um e pv := by
  cases v <;> simp [WellFormed]

theorem WellFormed_struct (um : env.Unmarshalers) (n : String) (fs : Fields)
    (vs : List Value) :
    WellFormed um (.struct n fs) (.struct vs) ↔
      um n = none ∧ fs.names.Nodup ∧ WellFormedFields um fs vs := by
  simp [WellFormed]

theorem WellFormedFields_cons (um : env.Unmarshalers) (n : String) (e : Bool)
    (t : Option String)
    (ft : GoType) (rest : Fields) (vs : List Value) :
    WellFormedFields um (.cons n e t ft rest) vs ↔
      ∃ v vs', vs = v :: vs' ∧ WellFormed um ft v ∧ WellFormedFields um rest vs' := by
  cases vs with
  | nil => simp [WellFormedFields]
  | cons a as =>
    simp only [WellFormedFields]
    constructor
    · intro h; exact ⟨a, as, rfl, h⟩
    · rintro ⟨v, vs', heq, h⟩
      cases heq
      exact h

namespace env

theorem walkBind_returns (lib : Lib) (um : Unmarshalers) (environ : Environ)
    (sname : String) (all : Fields) (i : Nat) (cur : List Value) (name : String)
    (tag : Option String) (ft : GoType) (fv : Value) (hfv : cur[i]? = some fv)
    (hum : um sname = none) (hby : all.byName name = some (i, ft))
    (hset : ft.settable = true) :
    ∃ err a, walkBind lib um environ sname all i cur name tag ft
      = .ok (err, a, applyAssign a ft all i cur) := by
  obtain ⟨err, a, h⟩ := loadValueEnv_returns lib um environ sname all cur name tag ft fv i
    hum hby hset
  refine ⟨err, a, ?_⟩
  simp [walkBind, hfv, h, bind, Except.bind, pure, Except.pure]

theorem walkBind_struct_skip (lib : Lib) (um : Unmarshalers) (environ : Environ)
    (sname : String) (all : Fields) (i : Nat) (cur : List Value) (name : String)
    (tag : Option String) (n2 : String) (fs2 : Fields) (fv : Value)
    (hfv : cur[i]? = some fv) (hum : um sname = none) :
    walkBind lib um environ sname all i cur name tag (.struct n2 fs2)
      = .ok (none, .skip, cur) := by
  cases tag with
  | none => simp [walkBind, hfv, loadValueEnv, applyAssign, bind, Except.bind, pure,
      Except.pure]
  | some key =>
    simp only [walkBind, hfv, loadValueEnv_nodec lib um environ _ name key sname _ all cur hum]
    cases LookupEnv environ key <;>
      simp [setValue, effKind, GoType.Kind, applyAssign, bind, Except.bind, pure,
        Except.pure]

mutual
theorem walk_returns (lib : Lib) (um : Unmarshalers) (environ : Environ) (sname : String)
    (all : Fields) (i : Nat) (cur : List Value) (name : String) (tag : Option String) :
    ∀ (ft : GoType) (fv : Value), cur[i]? = some fv → um sname = none →
      all.byName name = some (i, ft) → WellFormed um ft fv →
      ∃ cur', walk lib um environ sname all i cur name tag ft = .ok (none, cur')
  | .basic tn k, fv, hfv, hum, hby, _ => by
      obtain ⟨err, a, h⟩ := walkBind_returns lib um environ sname all i cur name tag
        (.basic tn k) fv hfv hum hby rfl
      exact ⟨_, by rw [walk_basic, h]; rfl⟩
  | .struct n2 fs2, fv, hfv, hum, hby, hwf => by
      rw [walk_struct, walkBind_struct_skip lib um environ sname all i cur name tag n2 fs2
        fv hfv hum]
      simp only [bind, Except.bind, hfv]
      cases fv with
      | struct vs2 =>
        obtain ⟨h1, h2, h3⟩ := (WellFormed_struct um n2 fs2 vs2).mp hwf
        obtain ⟨vs3, hw⟩ := walkFields_returns lib um environ n2 fs2 fs2 0 vs2 h1 h2
          (fun k => by simp) (by simpa using h3)
        exact ⟨cur.set i (.struct vs3), by simp [hw, pure, Except.pure]⟩
      | _ => exact ⟨_, rfl⟩
  | .ptr e, fv, hfv, hum, hby, hwf => by
      obtain ⟨hset, hcell⟩ := (WellFormed_ptr um e fv).mp hwf
      obtain ⟨err, a, h⟩ := walkBind_returns lib um environ sname all i cur name tag
        (.ptr e) fv hfv hum hby hset
      rw [walk_ptr, h]
      simp only [bind, Except.bind, hfv]
      cases err with
      | some _ => exact ⟨_, rfl⟩
      | none =>
        cases fv with
        | ptr pv =>
          obtain ⟨r, hr⟩ := walkCell_returns lib um environ e pv (hcell pv rfl)
          simp only [hr]
          cases a <;> cases r <;> exact ⟨_, rfl⟩
        | _ => exact ⟨_, rfl⟩
theorem walkCell_returns (lib : Lib) (um : Unmarshalers) (environ : Environ) :
    ∀ (t : GoType) (v : Value), WellFormed um t v →
      ∃ r, walkCell lib um environ t v = .ok (none, r)
  | .basic _ _, _, _ => ⟨none, by rw [walkCell_basic]⟩
  | .ptr _, _, _ => ⟨none, by rw [walkCell_ptr]⟩
  | .struct n fs, v, hwf => by
      rw [walkCell_struct]
      cases v with
      | struct vs =>
        obtain ⟨h1, h2, h3⟩ := (WellFormed_struct um n fs vs).mp hwf
        obtain ⟨vs3, hw⟩ := walkFields_returns lib um environ n fs fs 0 vs h1 h2
          (fun k => by simp) (by simpa using h3)
        exact ⟨some vs3, by simp [hw, bind, Except.bind, pure, Except.pure]⟩
      | _ => exact ⟨_, rfl⟩
theorem walkFields_returns (lib : Lib) (um : Unmarshalers) (environ : Environ)
    (sname : String) (all : Fields) :
    ∀ (todo : Fields) (i : Nat) (cur : List Value), um sname = none → all.names.Nodup →
      (∀ k, todo.get? k = all.get? (i + k)) → WellFormedFields um todo (cur.drop i) →
      ∃ cur', walkFields lib um environ sname all todo i cur = .ok (none, cur')
  | .nil, i, cur, _, _, _, _ => ⟨cur, by rw [walkFields_nil]⟩
  | .cons name _ tag ft rest, i, cur, hum, hnd, hsuf, hwf => by
      obtain ⟨v, vs, hd, hv, hrest⟩ := (WellFormedFields_cons um name _ tag ft rest _).mp hwf
      · obtain ⟨hfv, hdrop⟩ := drop_eq_cons_get cur i v vs hd
        have hget : all.get? i = some ⟨name, ft, tag⟩ := by
          have := hsuf 0
          simpa [Fields.get?] using this.symm
        have hby := Fields.byName_of_get all i _ hnd hget
        obtain ⟨cur1, h1⟩ := walk_returns lib um environ sname all i cur name tag ft v
          hfv hum hby hv
        have ho := walk_only _ _ _ _ _ _ _ _ _ _ hby _ _ _ h1
        have hsuf' : ∀ k, rest.get? k = all.get? (i + 1 + k) := by
          intro k
          have := hsuf (k + 1)
          simp only [Fields.get?] at this
          rw [this]; congr 1; omega
        obtain ⟨cur2, h2⟩ := walkFields_returns lib um environ sname all rest (i + 1) cur1
          hum hnd hsuf' (by rw [OnlyAt.drop_succ i cur cur1 ho, hdrop]; exact hrest)
        exact ⟨cur2, by rw [walkFields_cons, h1]; simpa [bind, Except.bind] using h2⟩
end

/-- `Load` returns, with a nil error, on every pointer to a well-formed record. -/
theorem Load_returns (lib : Lib) (um : Unmarshalers) (environ : Environ)
    (sname : String) (fs : Fields) (vals : List Value)
    (hwf : WellFormed um (.struct sname fs) (.struct vals)) :
    ∃ vals', Load lib um environ (target sname fs vals)
      = .ok (none, target sname fs vals') := by
  obtain ⟨h1, h2, h3⟩ := (WellFormed_struct um sname fs vals).mp hwf
  obtain ⟨vals', hw⟩ := walkFields_returns lib um environ sname fs fs 0 vals h1 h2
    (fun k => by simp) (by simpa using h3)
  refine ⟨vals', ?_⟩
  simp [Load, target, GoType.Kind, walkRoot, Indirect, loadValueEnv, walkCell_struct, hw,
    bind, Except.bind, pure, Except.pure]

end env

namespace env

theorem Load_field_of_skip (lib : Lib) (um : Unmarshalers) (environ : Environ)
    (sname : String) (fs : Fields) (vals : List Value) (r : Option Error × Option Iface)
    (i : Nat) (sf : StructField) (hnd : fs.names.Nodup) (hget : fs.get? i = some sf)
    (hleaf : sf.Typ.walksInto = false)
    (hskip : ∀ value st, ∃ err, loadValueEnv lib um environ value (some sf)
      (some ⟨sname, fs, st⟩) = .ok (err, .skip))
    (hok : Load lib um environ (target sname fs vals) = .ok r) :
    ∃ old, vals[i]? = some old ∧ fieldOf r.2 i = some old := by
  obtain ⟨_, st, fv, err, a, _, hfv, hl, hres⟩ :=
    Load_leaf_field lib um environ sname fs vals r i _ hnd hget hleaf hok
  obtain ⟨err', h'⟩ := hskip (Indirect sf.Typ fv) st
  rw [h'] at hl
  simp at hl
  rw [← hl.2] at hres
  exact ⟨fv, hfv, by simpa [Assign.result] using hres⟩

theorem coerced_kind_leaf (lib : Lib) (ft : GoType) (s : String) (v : Value)
    (hv : coerced lib (effKind ft) s = some v) : ft.walksInto = false := by
  cases ft with
  | basic _ _ => rfl
  | struct _ _ => simp [effKind, GoType.Kind, coerced, intWidth] at hv
  | ptr el =>
    cases el with
    | basic _ _ => rfl
    | ptr _ => rfl
    | struct _ _ => simp [effKind, GoType.Kind, coerced, intWidth] at hv

theorem Load_field_of_coerced (lib : Lib) (um : Unmarshalers) (environ : Environ)
    (sname : String) (fs : Fields) (vals : List Value) (r : Option Error × Option Iface)
    (i : Nat) (name key : String) (ft : GoType) (s : String) (v : Value)
    (hnd : fs.names.Nodup) (hget : fs.get? i = some ⟨name, ft, some key⟩)
    (hum : um sname = none) (hs : LookupEnv environ key = some s)
    (hv : coerced lib (effKind ft) s = some v)
    (hok : Load lib um environ (target sname fs vals) = .ok r) :
    fieldOf r.2 i = some (stored ft v) := by
  have hleaf := coerced_kind_leaf lib ft s v hv
  obtain ⟨_, st, fv, err, a, _, _, hl, hres⟩ :=
    Load_leaf_field lib um environ sname fs vals r i _ hnd hget hleaf hok
  rw [hres]
  rw [loadValueEnv_nodec lib um environ _ name key sname _ fs st hum, hs] at hl
  cases ft with
  | struct _ _ => simp [effKind, GoType.Kind, coerced, intWidth] at hv
  | basic tn k =>
    have hkp : k ≠ Kind.Ptr := by
      intro h; subst h; simp [effKind, GoType.Kind, coerced, intWidth] at hv
    simp only [GoType.Kind, hkp, decide_False, effKind, Indirect] at hl
    have := setValue_coerced_value lib (some ⟨sname, fs, st⟩)
      ⟨name, .basic tn k, some key⟩ s (.basic tn k) fv v
      (by simpa [effKind, GoType.Kind] using hv)
    simp only [GoType.Kind] at this
    rw [this] at hl
    simp at hl
    rw [← hl.2]
    rfl
  | ptr el =>
    have hek : effKind (GoType.ptr el) = el.Kind := rfl
    have hpk : (GoType.ptr el).Kind = Kind.Ptr := rfl
    rw [hek] at hv
    simp only [hek, hpk, decide_True] at hl
    rw [setValue_coerced_ptr lib _ _ s _ el.Kind v hv] at hl
    simp only [Run.bind_eq_ok, Run.pure_eq_ok] at hl
    obtain ⟨a', ha', hp⟩ := hl
    simp at hp
    rw [← hp.2, SetFieldByName_result sname fs st name _ _ a' fv ha']
    rfl

theorem setValue_uncoerced (lib : Lib) (ptr : Bool) (str : Option StructValue)
    (sf : StructField) (s : String) (value : Option (GoType × Value)) (k : Kind)
    (hv : coerced lib k s = none) :
    ∃ err, setValue lib ptr str sf s value k = .ok (err, .skip) := by
  cases k <;> simp [coerced, intWidth] at hv <;>
    first
      | exact ⟨none, rfl⟩
      | (split at hv
         · simp at hv
         · rename_i e he
           refine ⟨some e, ?_⟩
           simp [setValue, setFloat64, setFloat32, he, pure, Except.pure])
      | (refine ⟨none, ?_⟩
         simp [setValue, setInt, setUInt, bits, hv, pure, Except.pure])

end env

namespace env

theorem walk_of_error (lib : Lib) (um : Unmarshalers) (environ : Environ)
    (sname : String) (all : Fields) (i : Nat) (st : List Value) (name : String)
    (tag : Option String) (ft : GoType) (fv : Value) (e : Error)
    (hfv : st[i]? = some fv)
    (hl : loadValueEnv lib um environ (Indirect ft fv) (some ⟨name, ft, tag⟩)
      (some ⟨sname, all, st⟩) = .ok (some e, .skip)) :
    walk lib um environ sname all i st name tag ft = .ok (none, st) := by
  have hb : walkBind lib um environ sname all i st name tag ft = .ok (some e, .skip, st) := by
    simp only [walkBind, hfv, hl]
    cases ft <;> rfl
  cases ft with
  | basic tn k => rw [walk_basic, hb]; rfl
  | struct n2 fs2 => rw [walk_struct, hb]; rfl
  | ptr el => rw [walk_ptr, hb]; rfl

theorem walk_ok_get (lib : Lib) (um : Unmarshalers) (environ : Environ)
    (sname : String) (all : Fields) (i : Nat) (st : List Value) (name : String)
    (tag : Option String) (ft : GoType) (r : Option Error × List Value)
    (h : walk lib um environ sname all i st name tag ft = .ok r) :
    ∃ fv, st[i]? = some fv := by
  cases hst : st[i]? with
  | some fv => exact ⟨fv, rfl⟩
  | none =>
    have hb : walkBind lib um environ sname all i st name tag ft
        = .error "reflect: Field index out of range" := by
      simp only [walkBind, hst]
      rfl
    cases ft with
    | basic tn k => rw [walk_basic, hb] at h; cases h
    | struct n2 fs2 => rw [walk_struct, hb] at h; cases h
    | ptr el => rw [walk_ptr, hb] at h; cases h

theorem Load_of_walkFields (lib : Lib) (um : Unmarshalers) (environ : Environ)
    (sname : String) (fs : Fields) (vals vals' : List Value) (e : Option Error)
    (hw : walkFields lib um environ sname fs fs 0 vals = .ok (e, vals')) :
    Load lib um environ (target sname fs vals) = .ok (none, target sname fs vals') := by
  have he := walkFields_err lib um environ sname fs fs 0 _ _ _ hw
  subst he
  simp [Load, target, GoType.Kind, walkRoot, Indirect, loadValueEnv, walkCell_struct, hw,
    bind, Except.bind, pure, Except.pure]

theorem walk_untagged_record (lib : Lib) (um : Unmarshalers) (environ : Environ)
    (sname : String) (all : Fields) (i : Nat) (st st' : List Value) (name : String)
    (ft : GoType) (n2 : String) (fs2 : Fields) (vs2 : List Value) (e : Option Error)
    (hft : ft = .struct n2 fs2 ∨ ft = .ptr (.struct n2 fs2))
    (hfv : st[i]? = some (stored ft (.struct vs2)))
    (h : walk lib um environ sname all i st name none ft = .ok (e, st')) :
    ∃ vs3, walkFields lib um environ n2 fs2 fs2 0 vs2 = .ok (none, vs3) ∧
      st' = st.set i (stored ft (.struct vs3)) := by
  rcases hft with hft | hft
  · subst hft
    simp only [stored] at hfv
    have hb : walkBind lib um environ sname all i st name none (.struct n2 fs2)
        = .ok (none, .skip, st) := by
      simp only [walkBind, hfv, loadValueEnv]
      rfl
    rw [walk_struct, hb] at h
    simp only [bind, Except.bind, hfv] at h
    cases hw : walkFields lib um environ n2 fs2 fs2 0 vs2 with
    | error m => rw [hw] at h; cases h
    | ok p =>
      obtain ⟨e2, vs3⟩ := p
      have he := walkFields_err lib um environ n2 fs2 fs2 0 _ _ _ hw
      subst he
      rw [hw] at h
      simp [pure, Except.pure] at h
      exact ⟨vs3, rfl, by simp [stored, h.2]⟩
  · subst hft
    simp only [stored] at hfv
    have hb : walkBind lib um environ sname all i st name none (.ptr (.struct n2 fs2))
        = .ok (none, .skip, st) := by
      simp only [walkBind, hfv, loadValueEnv]
      rfl
    rw [walk_ptr, hb] at h
    simp only [bind, Except.bind, hfv, walkCell_struct] at h
    cases hw : walkFields lib um environ n2 fs2 fs2 0 vs2 with
    | error m => rw [hw] at h; cases h
    | ok p =>
      obtain ⟨e2, vs3⟩ := p
      have he := walkFields_err lib um environ n2 fs2 fs2 0 _ _ _ hw
      subst he
      rw [hw] at h
      simp [pure, Except.pure] at h
      exact ⟨vs3, rfl, by simp [stored, h.2]⟩

end env

theorem plain_struct (um : env.Unmarshalers) (n : String) (fs : Fields) :
    (GoType.struct n fs).plain um = true ↔
      um n = none ∧ fs.names.Nodup ∧ fs.plain um = true := by
  rw [GoType.plain]
  simp [and_assoc]

theorem plain_ptr (um : env.Unmarshalers) (e : GoType) :
    (GoType.ptr e).plain um = e.plain um := by
  rw [GoType.plain]

theorem plain_cons (um : env.Unmarshalers) (n : String) (e : Bool) (t : Option String)
    (ft : GoType) (rest : Fields) :
    (Fields.cons n e t ft rest).plain um = true ↔
      ft.plain um = true ∧ rest.plain um = true := by
  rw [Fields.plain]
  simp

theorem set_eq_self (st : List Value) (i : Nat) (v : Value) (h : st[i]? = some v) :
    st.set i v = st := by
  apply List.ext_getElem?
  intro k
  by_cases hk : i = k
  · subst hk
    have hi : i < st.length := by
      rcases Nat.lt_or_ge i st.length with h1 | h1
      · exact h1
      · rw [List.getElem?_eq_none h1] at h; simp at h
    rw [List.getElem?_set_self hi, h]
  · rw [List.getElem?_set_ne hk]

theorem Assign.result_result (a : Assign) (ft : GoType) (fv : Value) :
    a.result ft (a.result ft fv) = a.result ft fv := by
  cases a <;> rfl

namespace env

theorem applyAssign_eq_set (a : Assign) (ft : GoType) (all : Fields) (i : Nat)
    (st : List Value) (name : String) (t : GoType) (fv : Value)
    (ha : Assign.okFor name a) (hn : all.byName name = some (i, t))
    (hfv : st[i]? = some fv) :
    applyAssign a ft all i st = st.set i (a.result ft fv) := by
  cases a with
  | skip => simp [applyAssign, Assign.result, set_eq_self st i fv hfv]
  | value v => cases ft <;> simp [applyAssign, Assign.result, stored]
  | field n p =>
    simp only [Assign.okFor] at ha
    subst ha
    simp [applyAssign, hn, Assign.result]

theorem setValue_ptr_indep (lib : Lib) (sname : String) (all : Fields)
    (st st2 : List Value) (sf : StructField) (s : String)
    (value value2 : Option (GoType × Value)) (kind : Kind) :
    setValue lib true (some ⟨sname, all, st⟩) sf s value kind
      = setValue lib true (some ⟨sname, all, st2⟩) sf s value2 kind := by
  cases kind <;> rfl

theorem setValue_cell_indep (lib : Lib) (ptr : Bool) (sname : String) (all : Fields)
    (st st2 : List Value) (sf : StructField) (s : String) (t : GoType) (fv fv2 : Value)
    (kind : Kind) :
    setValue lib ptr (some ⟨sname, all, st⟩) sf s (some (t, fv)) kind
      = setValue lib ptr (some ⟨sname, all, st2⟩) sf s (some (t, fv2)) kind := by
  cases ptr <;> cases kind <;> rfl

theorem loadValueEnv_indep (lib : Lib) (um : Unmarshalers) (environ : Environ)
    (sname : String) (all : Fields) (name : String) (tag : Option String) (ft : GoType)
    (fv fv2 : Value) (st st2 : List Value) (hum : um sname = none) :
    loadValueEnv lib um environ (Indirect ft fv) (some ⟨name, ft, tag⟩)
        (some ⟨sname, all, st⟩)
      = loadValueEnv lib um environ (Indirect ft fv2) (some ⟨name, ft, tag⟩)
        (some ⟨sname, all, st2⟩) := by
  cases tag with
  | none => rfl
  | some key =>
    rw [loadValueEnv_nodec lib um environ _ name key sname _ all st hum,
      loadValueEnv_nodec lib um environ _ name key sname _ all st2 hum]
    cases LookupEnv environ key with
    | none => rfl
    | some s =>
      cases ft with
      | basic tn k => exact setValue_cell_indep lib _ sname all st st2 _ s _ fv fv2 _
      | struct n2 fs2 => exact setValue_cell_indep lib _ sname all st st2 _ s _ fv fv2 _
      | ptr e => exact setValue_ptr_indep lib sname all st st2 _ s _ _ _

theorem walkBind_rerun (lib : Lib) (um : Unmarshalers) (environ : Environ)
    (sname : String) (all : Fields) (i : Nat) (st : List Value) (name : String)
    (tag : Option String) (ft t : GoType) (err : Option Error) (a : Assign)
    (c1 : List Value) (hum : um sname = none) (hby : all.byName name = some (i, t))
    (h : walkBind lib um environ sname all i st name tag ft = .ok (err, a, c1)) :
    ∃ fv, st[i]? = some fv ∧ Assign.okFor name a ∧ (err ≠ none → a = .skip) ∧
      c1 = st.set i (a.result ft fv) ∧
      ∀ st2 fv2, st2[i]? = some fv2 →
        walkBind lib um environ sname all i st2 name tag ft
          = .ok (err, a, st2.set i (a.result ft fv2)) := by
  obtain ⟨fv, hfv, hl, hc⟩ := walkBind_spec _ _ _ _ _ _ _ _ _ _ _ _ _ h
  have hok := loadValueEnv_okFor _ _ _ _ _ _ _ _ hl
  simp only at hok
  refine ⟨fv, hfv, hok.1, hok.2, ?_, fun st2 fv2 h2 => ?_⟩
  · rw [hc]; exact applyAssign_eq_set a ft all i st name t fv hok.1 hby hfv
  · have hl2 := loadValueEnv_indep lib um environ sname all name tag ft fv fv2 st st2 hum
    rw [hl] at hl2
    simp only [walkBind, h2, ← hl2]
    rw [← applyAssign_eq_set a ft all i st2 name t fv2 hok.1 hby h2]
    rfl

theorem SetFieldByName_field (str name x a) (h : SetFieldByName str name x = .ok a) :
    a = .field name x.val := by
  unfold SetFieldByName at h
  split at h
  · simp [throw, throwThe, MonadExceptOf.throw] at h
  · split at h
    · simp [throw, throwThe, MonadExceptOf.throw] at h
    · split at h
      · simp [pure, Except.pure] at h; exact h.symm
      · simp [throw, throwThe, MonadExceptOf.throw] at h

theorem setValue_ptr_shape (lib : Lib) (str : Option StructValue) (sf : StructField)
    (s : String) (value : Option (GoType × Value)) (kind : Kind) (err : Option Error)
    (a : Assign) (h : setValue lib true str sf s value kind = .ok (err, a)) :
    a = .skip ∨ (kind ≠ Kind.Struct ∧ ∃ p, a = .field sf.Name p) := by
  have hint : ∀ err a, setInt true str sf s value kind = .ok (err, a) →
      a = .skip ∨ ∃ p, a = .field sf.Name p := by
    intro err a h
    unfold setInt at h
    split at h
    · simp [Run.pure_eq_ok] at h; exact Or.inl h.2.symm
    · simp only [↓reduceIte, Run.bind_eq_ok, Run.pure_eq_ok] at h
      obtain ⟨c, _, a', ha, h⟩ := h
      simp at h
      rw [← h.2]
      exact Or.inr ⟨_, SetFieldByName_field _ _ _ _ ha⟩
  have huint : ∀ err a, setUInt true str sf s value kind = .ok (err, a) →
      a = .skip ∨ ∃ p, a = .field sf.Name p := by
    intro err a h
    unfold setUInt at h
    split at h
    · simp [Run.pure_eq_ok] at h; exact Or.inl h.2.symm
    · simp only [↓reduceIte, Run.bind_eq_ok, Run.pure_eq_ok] at h
      obtain ⟨c, _, a', ha, h⟩ := h
      simp at h
      rw [← h.2]
      exact Or.inr ⟨_, SetFieldByName_field _ _ _ _ ha⟩
  have hf32 : ∀ err a, setFloat32 lib true str sf s value = .ok (err, a) →
      a = .skip ∨ ∃ p, a = .field sf.Name p := by
    intro err a h
    unfold setFloat32 at h
    split at h
    · simp [Run.pure_eq_ok] at h; exact Or.inl h.2.symm
    · simp only [↓reduceIte, Run.bind_eq_ok, Run.pure_eq_ok] at h
      obtain ⟨a', ha, h⟩ := h
      simp at h
      rw [← h.2]
      exact Or.inr ⟨_, SetFieldByName_field _ _ _ _ ha⟩
  have hf64 : ∀ err a, setFloat64 lib true str sf s value = .ok (err, a) →
      a = .skip ∨ ∃ p, a = .field sf.Name p := by
    intro err a h
    unfold setFloat64 at h
    split at h
    · simp [Run.pure_eq_ok] at h; exact Or.inl h.2.symm
    · simp only [↓reduceIte, Run.bind_eq_ok, Run.pure_eq_ok] at h
      obtain ⟨a', ha, h⟩ := h
      simp at h
      rw [← h.2]
      exact Or.inr ⟨_, SetFieldByName_field _ _ _ _ ha⟩
  cases kind
  case Struct => simp [setValue, Run.pure_eq_ok] at h; exact Or.inl h.2.symm
  case Bool =>
    simp only [setValue, setBool, ↓reduceIte, Run.bind_eq_ok, Run.pure_eq_ok] at h
    obtain ⟨a', ha, h⟩ := h
    simp at h
    rw [← h.2]
    exact Or.inr ⟨by decide, _, SetFieldByName_field _ _ _ _ ha⟩
  case String =>
    simp only [setValue, setString, ↓reduceIte, Run.bind_eq_ok, Run.pure_eq_ok] at h
    obtain ⟨a', ha, h⟩ := h
    simp at h
    rw [← h.2]
    exact Or.inr ⟨by decide, _, SetFieldByName_field _ _ _ _ ha⟩
  case Float32 => exact (hf32 err a h).imp id (fun hp => ⟨by decide, hp⟩)
  case Float64 => exact (hf64 err a h).imp id (fun hp => ⟨by decide, hp⟩)
  case Int => exact (hint err a h).imp id (fun hp => ⟨by decide, hp⟩)
  case Int8 => exact (hint err a h).imp id (fun hp => ⟨by decide, hp⟩)
  case Int16 => exact (hint err a h).imp id (fun hp => ⟨by decide, hp⟩)
  case Int32 => exact (hint err a h).imp id (fun hp => ⟨by decide, hp⟩)
  case Int64 => exact (hint err a h).imp id (fun hp => ⟨by decide, hp⟩)
  case Uint => exact (huint err a h).imp id (fun hp => ⟨by decide, hp⟩)
  case Uint8 => exact (huint err a h).imp id (fun hp => ⟨by decide, hp⟩)
  case Uint16 => exact (huint err a h).imp id (fun hp => ⟨by decide, hp⟩)
  case Uint32 => exact (huint err a h).imp id (fun hp => ⟨by decide, hp⟩)
  case Uint64 => exact (huint err a h).imp id (fun hp => ⟨by decide, hp⟩)
  all_goals (simp [setValue, Run.pure_eq_ok] at h; exact Or.inl h.2.symm)

theorem loadValueEnv_ptr_shape (lib : Lib) (um : Unmarshalers) (environ : Environ)
    (value : Option (GoType × Value)) (name sname : String) (tag : Option String)
    (e : GoType) (all : Fields) (st : List Value) (err : Option Error) (a : Assign)
    (hum : um sname = none)
    (h : loadValueEnv lib um environ value (some ⟨name, .ptr e, tag⟩)
      (some ⟨sname, all, st⟩) = .ok (err, a)) :
    a = .skip ∨ ((∀ x, walkCell lib um environ e x = .ok (none, none)) ∧
      ∃ p, a = .field name p) := by
  cases tag with
  | none => simp [loadValueEnv, Run.pure_eq_ok] at h; exact Or.inl h.2.symm
  | some key =>
    rw [loadValueEnv_nodec lib um environ _ name key sname _ all st hum] at h
    cases hs : LookupEnv environ key with
    | none => rw [hs] at h; simp [Run.pure_eq_ok] at h; exact Or.inl h.2.symm
    | some s =>
      rw [hs] at h
      simp only [GoType.Kind, decide_True, effKind] at h
      rcases setValue_ptr_shape lib _ _ s _ _ err a h with h1 | ⟨hk, hp⟩
      · exact Or.inl h1
      · refine Or.inr ⟨fun x => ?_, hp⟩
        cases e with
        | basic tn k => rw [walkCell_basic]
        | ptr e2 => rw [walkCell_ptr]
        | struct n fs => simp [GoType.Kind] at hk

theorem walk_ptr_fixed (lib : Lib) (um : Unmarshalers) (environ : Environ)
    (sname : String) (all : Fields) (i : Nat) (st2 : List Value) (name : String)
    (tag : Option String) (el : GoType) (err : Option Error) (a : Assign) (v : Value)
    (hv : st2[i]? = some v)
    (hb : walkBind lib um environ sname all i st2 name tag (.ptr el) = .ok (err, a, st2))
    (hcell : err = none → ∀ pv, v = .ptr pv →
      (∃ p, a = .field name p) ∧ (∃ r, walkCell lib um environ el pv = .ok (none, r)) ∨
      walkCell lib um environ el pv = .ok (none, none) ∨
      ∃ vs3, pv = .struct vs3 ∧ walkCell lib um environ el pv = .ok (none, some vs3)) :
    walk lib um environ sname all i st2 name tag (.ptr el) = .ok (none, st2) := by
  rw [walk_ptr, hb]
  simp only [bind, Except.bind, hv]
  cases err with
  | some m => rfl
  | none =>
    cases v with
    | ptr pv =>
      rcases hcell rfl pv rfl with ⟨⟨p, hp⟩, r, hr⟩ | hr | ⟨vs3, hpv, hr⟩
      · subst hp
        simp only [hr]
        rfl
      · simp only [hr]
        cases a <;> rfl
      · subst hpv
        simp only [hr]
        cases a with
        | field n p => rfl
        | skip => simp [pure, Except.pure, set_eq_self st2 i _ hv]
        | value w => simp [pure, Except.pure, set_eq_self st2 i _ hv]
    | bool _ => rfl
    | int _ => rfl
    | uint _ => rfl
    | float _ => rfl
    | string _ => rfl
    | nil => rfl
    | struct _ => rfl
    | other _ => rfl

mutual
theorem walk_idem (lib : Lib) (um : Unmarshalers) (environ : Environ) (sname : String)
    (all : Fields) (i : Nat) (name : String) (tag : Option String) (t : GoType) :
    ∀ (ft : GoType), ft.plain um = true → um sname = none →
      all.byName name = some (i, t) → ∀ (st st' : List Value) (e : Option Error),
      walk lib um environ sname all i st name tag ft = .ok (e, st') →
      ∃ v', st' = st.set i v' ∧ ∀ st2, st2[i]? = some v' →
        walk lib um environ sname all i st2 name tag ft = .ok (none, st2)
  | .basic tn k, _, hum, hby, st, st', e, h => by
      rw [walk_basic] at h
      simp only [Run.bind_eq_ok, Run.pure_eq_ok] at h
      obtain ⟨⟨e1, a, c1⟩, h1, h2⟩ := h
      simp at h2
      obtain ⟨fv, hfv, hok, _, hc, hre⟩ := walkBind_rerun lib um environ sname all i st
        name tag _ t e1 a c1 hum hby h1
      refine ⟨a.result _ fv, by rw [← h2.2, hc], fun st2 h2' => ?_⟩
      rw [walk_basic, hre st2 _ h2', Assign.result_result, set_eq_self st2 i _ h2']
      rfl
  | .struct n2 fs2, hp, hum, hby, st, st', e, h => by
      obtain ⟨hum2, hnd2, hp2⟩ := (plain_struct um n2 fs2).mp hp
      rw [walk_struct] at h
      simp only [Run.bind_eq_ok] at h
      obtain ⟨⟨e1, a, c1⟩, h1, h2⟩ := h
      obtain ⟨fv, hfv, _⟩ := walkBind_spec _ _ _ _ _ _ _ _ _ _ _ _ _ h1
      have hb := walkBind_struct_skip lib um environ sname all i st name tag n2 fs2 fv
        hfv hum
      rw [hb] at h1
      cases h1
      simp only [hfv] at h2
      cases fv with
      | struct vs2 =>
        simp only [Run.bind_eq_ok, Run.pure_eq_ok] at h2
        obtain ⟨⟨e2, vs3⟩, hw, h3⟩ := h2
        simp at h3
        have hidem := walkFields_idem lib um environ n2 fs2 fs2 hp2 hum2 hnd2 0
          (fun k => by simp) vs2 vs3 e2 hw
        refine ⟨.struct vs3, h3.2.symm, fun st2 hst2 => ?_⟩
        rw [walk_struct, walkBind_struct_skip lib um environ sname all i st2 name tag n2
          fs2 _ hst2 hum]
        simp only [bind, Except.bind, hst2, hidem, pure, Except.pure,
          set_eq_self st2 i _ hst2]
      | _ =>
        simp [Run.pure_eq_ok] at h2
        refine ⟨_, by rw [← h2.2, set_eq_self st i _ hfv], fun st2 hst2 => ?_⟩
        rw [walk_struct, walkBind_struct_skip lib um environ sname all i st2 name tag n2
          fs2 _ hst2 hum]
        simp only [bind, Except.bind, hst2]
        rfl
  | .ptr el, hp, hum, hby, st, st', e, h => by
      have hpe : el.plain um = true := by rw [plain_ptr] at hp; exact hp
      rw [walk_ptr] at h
      simp only [Run.bind_eq_ok] at h
      obtain ⟨⟨e1, a, c1⟩, h1, h2⟩ := h
      obtain ⟨fv, hfv, hok, herr, hc, hre⟩ := walkBind_rerun lib um environ sname all i st
        name tag _ t e1 a c1 hum hby h1
      obtain ⟨fv0, hfv0, hl, _⟩ := walkBind_spec _ _ _ _ _ _ _ _ _ _ _ _ _ h1
      have hshape := loadValueEnv_ptr_shape lib um environ _ name sname tag el all st e1 a
        hum hl
      simp only [hfv] at h2
      have hfix : ∀ (v : Value) (st2 : List Value), st2[i]? = some v →
          a.result (.ptr el) v = v →
          walkBind lib um environ sname all i st2 name tag (.ptr el) = .ok (e1, a, st2) := by
        intro v st2 hst2 hres
        rw [hre st2 v hst2, hres, set_eq_self st2 i v hst2]
      rcases hshape with ha | ⟨hcell, p, ha⟩
      · subst ha
        simp only [Assign.result] at hc hfix
        rw [set_eq_self st i fv hfv] at hc
        cases e1 with
        | some m =>
          simp [Run.pure_eq_ok] at h2
          refine ⟨fv, by rw [← h2.2, hc, set_eq_self st i fv hfv], fun st2 hst2 => ?_⟩
          exact walk_ptr_fixed lib um environ sname all i st2 name tag el _ _ fv hst2
            (hfix fv st2 hst2 trivial) (fun hh => by cases hh)
        | none =>
          cases fv with
          | ptr pv =>
            simp only [Run.bind_eq_ok] at h2
            obtain ⟨⟨e2, r⟩, hw, h3⟩ := h2
            have he2 := walkCell_err lib um environ el pv e2 r hw
            subst he2
            cases r with
            | none =>
              simp [Run.pure_eq_ok] at h3
              refine ⟨.ptr pv, by rw [← h3.2, hc, set_eq_self st i _ hfv],
                fun st2 hst2 => ?_⟩
              exact walk_ptr_fixed lib um environ sname all i st2 name tag el _ _ _ hst2
                (hfix _ st2 hst2 trivial)
                (fun _ pv2 hpv2 => by cases hpv2; exact Or.inr (Or.inl hw))
            | some vs3 =>
              simp [Run.pure_eq_ok] at h3
              have hidem := walkCell_idem lib um environ el hpe pv none vs3 hw
              refine ⟨.ptr (.struct vs3), by rw [← h3.2, hc], fun st2 hst2 => ?_⟩
              exact walk_ptr_fixed lib um environ sname all i st2 name tag el _ _ _ hst2
                (hfix _ st2 hst2 trivial)
                (fun _ pv2 hpv2 => by cases hpv2; exact Or.inr (Or.inr ⟨vs3, rfl, hidem⟩))
          | _ =>
            simp [Run.pure_eq_ok] at h2
            refine ⟨_, by rw [← h2.2, hc, set_eq_self st i _ hfv], fun st2 hst2 => ?_⟩
            exact walk_ptr_fixed lib um environ sname all i st2 name tag el _ _ _ hst2
              (hfix _ st2 hst2 trivial) (fun _ pv2 hpv2 => by cases hpv2)
      · subst ha
        simp only [Assign.result] at hc hfix
        have hst' : st' = c1 := by
          cases e1 with
          | some m => simp [Run.pure_eq_ok] at h2; exact h2.2.symm
          | none =>
            cases fv with
            | ptr pv =>
              simp only [hcell pv, bind, Except.bind, pure, Except.pure] at h2
              simp at h2
              exact h2.2.symm
            | _ =>
              simp [Run.pure_eq_ok] at h2
              exact h2.2.symm
        refine ⟨p, by rw [hst', hc], fun st2 hst2 => ?_⟩
        exact walk_ptr_fixed lib um environ sname all i st2 name tag el _ _ _ hst2
          (hfix p st2 hst2 rfl) (fun _ pv2 _ => Or.inr (Or.inl (hcell pv2)))
theorem walkCell_idem (lib : Lib) (um : Unmarshalers) (environ : Environ) :
    ∀ (t : GoType), t.plain um = true → ∀ (v : Value) (e : Option Error)
      (vs3 : List Value), walkCell lib um environ t v = .ok (e, some vs3) →
      walkCell lib um environ t (.struct vs3) = .ok (none, some vs3)
  | .struct n fs, hp, v, e, vs3, h => by
      obtain ⟨hum2, hnd2, hp2⟩ := (plain_struct um n fs).mp hp
      rw [walkCell_struct] at h
      cases v with
      | struct vs =>
        simp only [Run.bind_eq_ok, Run.pure_eq_ok] at h
        obtain ⟨⟨e2, vs2⟩, hw, h3⟩ := h
        simp at h3
        have hidem := walkFields_idem lib um environ n fs fs hp2 hum2 hnd2 0
          (fun k => by simp) vs vs2 e2 hw
        rw [walkCell_struct]
        simp only [bind, Except.bind, ← h3.2, hidem]
        rfl
      | _ => simp [Run.pure_eq_ok] at h
  | .basic _ _, _, v, e, vs3, h => by
      rw [walkCell_basic] at h; simp [Run.pure_eq_ok] at h
  | .ptr _, _, v, e, vs3, h => by
      rw [walkCell_ptr] at h; simp [Run.pure_eq_ok] at h
theorem walkFields_idem (lib : Lib) (um : Unmarshalers) (environ : Environ)
    (sname : String) (all : Fields) :
    ∀ (todo : Fields), todo.plain um = true → um sname = none → all.names.Nodup →
      ∀ (i : Nat), (∀ k, todo.get? k = all.get? (i + k)) →
      ∀ (st st' : List Value) (e : Option Error),
      walkFields lib um environ sname all todo i st = .ok (e, st') →
      walkFields lib um environ sname all todo i st' = .ok (none, st')
  | .nil, _, _, _, i, _, st, st', e, h => by
      rw [walkFields_nil]
  | .cons name _ tag ft rest, hp, hum, hnd, i, hsuf, st, st', e, h => by
      obtain ⟨hpf, hpr⟩ := (plain_cons um name _ tag ft rest).mp hp
      have hget : all.get? i = some ⟨name, ft, tag⟩ := by
        have := hsuf 0
        simpa [Fields.get?] using this.symm
      have hby := Fields.byName_of_get all i _ hnd hget
      simp only at hby
      have hsuf' : ∀ k, rest.get? k = all.get? (i + 1 + k) := by
        intro k
        have := hsuf (k + 1)
        simp only [Fields.get?] at this
        rw [this]
        congr 1
        omega
      rw [walkFields_cons] at h
      simp only [Run.bind_eq_ok] at h
      obtain ⟨⟨e1, st1⟩, hw, h2⟩ := h
      have he1 := walk_err lib um environ sname all i st name tag ft e1 st1 hw
      subst he1
      simp only at h2
      obtain ⟨v', hst1, hre⟩ := walk_idem lib um environ sname all i name tag ft ft hpf hum
        hby st st1 none hw
      obtain ⟨fv, hfv⟩ := walk_ok_get _ _ _ _ _ _ _ _ _ _ _ hw
      have hi : i < st.length := by
        rcases Nat.lt_or_ge i st.length with h1 | h1
        · exact h1
        · rw [List.getElem?_eq_none h1] at hfv; simp at hfv
      obtain ⟨_, hlow, _⟩ := walkFields_spec lib um environ sname all hnd rest (i + 1) st1
        e st' hsuf' h2
      have hst'i : st'[i]? = some v' := by
        rw [hlow i (Nat.lt_succ_self i), hst1, List.getElem?_set_self hi]
      have hrest := walkFields_idem lib um environ sname all rest hpr hum hnd (i + 1) hsuf'
        st1 st' e h2
      rw [walkFields_cons, hre st' hst'i]
      simp only [bind, Except.bind]
      exact hrest
end

theorem Load_idem (lib : Lib) (um : Unmarshalers) (environ : Environ) (x : Option Iface)
    (hplain : ∀ y, x = some y → y.typ.plain um = true) (r : Option Error × Option Iface)
    (h : Load lib um environ x = .ok r) : Load lib um environ r.2 = .ok r := by
  cases x with
  | none =>
    simp only [Load, Run.pure_eq_ok] at h
    subst h
    rfl
  | some y =>
    obtain ⟨t, v⟩ := y
    have hp : t.plain um = true := hplain ⟨t, v⟩ rfl
    by_cases hk : t.Kind ≠ Kind.Ptr
    · have h' := h
      simp only [Load, hk, ne_eq, not_false_eq_true, ↓reduceIte, Run.pure_eq_ok] at h'
      subst h'
      exact h
    · have hk' : t.Kind = Kind.Ptr := by simpa using hk
      cases v with
      | ptr pv =>
        simp only [Load, hk', ne_eq, not_true_eq_false, ↓reduceIte, Run.bind_eq_ok,
          Run.pure_eq_ok] at h
        obtain ⟨⟨e1, v1⟩, hw, hr⟩ := h
        subst hr
        cases t with
        | struct n fs => simp [GoType.Kind] at hk'
        | basic tn k =>
          simp [walkRoot, Indirect, loadValueEnv, walkCell_basic, bind, Except.bind, pure,
            Except.pure] at hw
          obtain ⟨h1, h2⟩ := hw
          subst h1 h2
          simp [Load, hk', walkRoot, Indirect, loadValueEnv, walkCell_basic, bind,
            Except.bind, pure, Except.pure]
        | ptr e =>
          have hpe : e.plain um = true := by rw [plain_ptr] at hp; exact hp
          simp only [walkRoot, Indirect, loadValueEnv, Run.bind_eq_ok, Run.pure_eq_ok] at hw
          obtain ⟨⟨e0, a0⟩, h0, hw⟩ := hw
          simp at h0
          obtain ⟨h01, _⟩ := h0
          subst h01
          simp only [Run.bind_eq_ok] at hw
          obtain ⟨⟨e2, r2⟩, hc, hw⟩ := hw
          have he2 := walkCell_err lib um environ e pv e2 r2 hc
          subst he2
          cases r2 with
          | none =>
            simp [Run.pure_eq_ok] at hw
            obtain ⟨h1, h2⟩ := hw
            subst h1 h2
            simp [Load, GoType.Kind, walkRoot, Indirect, loadValueEnv, hc, bind, Except.bind,
              pure, Except.pure]
          | some vs3 =>
            simp [Run.pure_eq_ok] at hw
            obtain ⟨h1, h2⟩ := hw
            subst h1 h2
            have hidem := walkCell_idem lib um environ e hpe pv none vs3 hc
            simp [Load, GoType.Kind, walkRoot, Indirect, loadValueEnv, hidem, bind,
              Except.bind, pure, Except.pure]
      | _ =>
        have h' := h
        simp only [Load, hk', ne_eq, not_true_eq_false, ↓reduceIte, Run.pure_eq_ok] at h'
        subst h'
        exact h

end env

namespace config

end config

namespace env

theorem walkFields_state (lib um environ sname all) (hnd : all.names.Nodup) :
    ∀ (todo : Fields) (i : Nat) (cur : List Value) (err : Option Error)
      (cur' : List Value),
      (∀ k, todo.get? k = all.get? (i + k)) →
      walkFields lib um environ sname all todo i cur = .ok (err, cur') →
      ∀ j sf, i ≤ j → all.get? j = some sf → ∃ st st',
        (∀ k, j ≤ k → st[k]? = cur[k]?) ∧ (∀ k, k < j → st[k]? = cur'[k]?) ∧
        walk lib um environ sname all j st sf.Name sf.Tag sf.Typ = .ok (none, st') ∧
        cur'[j]? = st'[j]?
  | .nil, i, cur, err, cur', hsuf, h => by
      intro j sf hj hg
      have := hsuf (j - i)
      rw [Nat.add_sub_cancel' hj, hg] at this
      simp [Fields.get?] at this
  | .cons name _ tag ft rest, i, cur, err, cur', hsuf, h => by
      have hspec := walkFields_spec lib um environ sname all hnd _ i cur err cur' hsuf h
      rw [walkFields_cons] at h
      simp only [Run.bind_eq_ok] at h
      obtain ⟨⟨e1, c1⟩, h1, h2⟩ := h
      have he1 := walk_err _ _ _ _ _ _ _ _ _ _ _ _ h1
      subst he1
      simp only at h2
      have hget : all.get? i = some ⟨name, ft, tag⟩ := by
        have := hsuf 0
        simpa [Fields.get?] using this.symm
      have hn := Fields.byName_of_get all i _ hnd hget
      have ho := walk_only _ _ _ _ _ _ _ _ _ _ hn _ _ _ h1
      have hsuf' : ∀ k, rest.get? k = all.get? (i + 1 + k) := by
        intro k
        have := hsuf (k + 1)
        simp only [Fields.get?] at this
        rw [this]; congr 1; omega
      obtain ⟨_, ih2, _⟩ :=
        walkFields_spec lib um environ sname all hnd rest (i + 1) c1 err cur' hsuf' h2
      intro j sf hj hg
      by_cases hji : j = i
      · subst hji
        rw [hget] at hg
        simp at hg
        subst hg
        refine ⟨cur, c1, fun _ _ => rfl, fun k hk => ?_, h1, ih2 j (by omega)⟩
        rw [ih2 k (by omega), ho.2 k (by omega)]
      · obtain ⟨c, c', hc, hlow, hw, hr⟩ :=
          walkFields_state lib um environ sname all hnd rest (i + 1) c1 err cur' hsuf' h2
            j sf (by omega) hg
        refine ⟨c, c', fun k hk => ?_, hlow, hw, hr⟩
        rw [hc k hk, ho.2 k (by omega)]

/-- The walk step of field `i` inside `Load`: it starts from the record `st` in which the
fields before `i` already hold their final values and the fields from `i` on still hold
what they held before the call. -/
theorem Load_field_state (lib um environ sname fs vals r i sf) (hnd : fs.names.Nodup)
    (hget : fs.get? i = some sf)
    (h : Load lib um environ (target sname fs vals) = .ok r) :
    r.1 = none ∧ ∃ st st', (∀ k, i ≤ k → st[k]? = vals[k]?) ∧
      (∀ k, k < i → st[k]? = fieldOf r.2 k) ∧
      walk lib um environ sname fs i st sf.Name sf.Tag sf.Typ = .ok (none, st') ∧
      fieldOf r.2 i = st'[i]? := by
  obtain ⟨vals', hw, hr⟩ := Load_target _ _ _ _ _ _ _ h
  subst hr
  obtain ⟨c, c', hc, hlow, hwk, hres⟩ :=
    walkFields_state lib um environ sname fs hnd fs 0 vals none vals' (fun k => by simp) hw
      i sf (Nat.zero_le _) hget
  exact ⟨rfl, c, c', hc, fun k hk => by simpa [fieldOf, target] using hlow k hk, hwk,
    by simpa [fieldOf, target] using hres⟩

/-- The walk of a record-typed field after the binder left `new` in it. -/
theorem walk_struct_after (lib : Lib) (um : Unmarshalers) (environ : Environ)
    (sname : String) (all : Fields) (i : Nat) (st st' cur1 : List Value) (name : String)
    (tag : Option String) (n2 : String) (fs2 : Fields) (a : Assign) (new : Value)
    (e : Option Error)
    (hb : walkBind lib um environ sname all i st name tag (.struct n2 fs2)
      = .ok (none, a, cur1))
    (hnew : cur1[i]? = some new)
    (h : walk lib um environ sname all i st name tag (.struct n2 fs2) = .ok (e, st')) :
    (∀ vs2, new = .struct vs2 →
      ∃ vs3, walkFields lib um environ n2 fs2 fs2 0 vs2 = .ok (none, vs3) ∧
        st' = cur1.set i (.struct vs3)) ∧
    ((∀ vs2, new ≠ .struct vs2) → st' = cur1) := by
  rw [walk_struct, hb] at h
  simp only [bind, Except.bind, hnew] at h
  constructor
  · intro vs2 hvs
    subst hvs
    simp only at h
    cases hw : walkFields lib um environ n2 fs2 fs2 0 vs2 with
    | error m => rw [hw] at h; cases h
    | ok p =>
      obtain ⟨e2, vs3⟩ := p
      have he := walkFields_err lib um environ n2 fs2 fs2 0 _ _ _ hw
      subst he
      rw [hw] at h
      simp [pure, Except.pure] at h
      exact ⟨vs3, rfl, h.2.symm⟩
  · intro hne
    cases new with
    | struct vs2 => exact absurd rfl (hne vs2)
    | _ =>
      simp [pure, Except.pure] at h
      exact h.2.symm

/-- The walk of a pointer field to which the binder assigned nothing. -/
theorem walk_ptr_after_skip (lib : Lib) (um : Unmarshalers) (environ : Environ)
    (sname : String) (all : Fields) (i : Nat) (st st' : List Value) (name : String)
    (tag : Option String) (el : GoType) (fv : Value) (e : Option Error)
    (hb : walkBind lib um environ sname all i st name tag (.ptr el) = .ok (none, .skip, st))
    (hfv : st[i]? = some fv)
    (h : walk lib um environ sname all i st name tag (.ptr el) = .ok (e, st')) :
    (∀ n2 fs2 vs2, el = .struct n2 fs2 → fv = .ptr (.struct vs2) →
      ∃ vs3, walkFields lib um environ n2 fs2 fs2 0 vs2 = .ok (none, vs3) ∧
        st' = st.set i (.ptr (.struct vs3))) ∧
    (((GoType.ptr el).walksInto = false ∨ ∀ vs2, fv ≠ .ptr (.struct vs2)) → st' = st) := by
  rw [walk_ptr, hb] at h
  simp only [bind, Except.bind, hfv] at h
  constructor
  · intro n2 fs2 vs2 hel hvs
    subst hel hvs
    simp only [walkCell_struct] at h
    cases hw : walkFields lib um environ n2 fs2 fs2 0 vs2 with
    | error m => rw [hw] at h; cases h
    | ok p =>
      obtain ⟨e2, vs3⟩ := p
      have he := walkFields_err lib um environ n2 fs2 fs2 0 _ _ _ hw
      subst he
      rw [hw] at h
      simp [bind, Except.bind, pure, Except.pure] at h
      exact ⟨vs3, rfl, h.2.symm⟩
  · intro hne
    cases fv with
    | ptr pv =>
      have hcell : walkCell lib um environ el pv = .ok (none, none) := by
        cases el with
        | basic _ _ => rw [walkCell_basic]
        | ptr _ => rw [walkCell_ptr]
        | struct n2 fs2 =>
          rw [walkCell_struct]
          cases pv with
          | struct vs2 =>
            rcases hne with h1 | h1
            · simp [GoType.walksInto] at h1
            · exact absurd rfl (h1 vs2)
          | _ => rfl
      simp [hcell, pure, Except.pure] at h
      exact h.2.symm
    | _ =>
      simp [pure, Except.pure] at h
      exact h.2.symm

/-- What a walk step does to a field to which the binder assigns nothing: a record (or
the record a non-nil pointer points to) is walked, every other field is left alone. -/
theorem walk_after_skip (lib : Lib) (um : Unmarshalers) (environ : Environ)
    (sname : String) (all : Fields) (i : Nat) (st st' : List Value) (name : String)
    (tag : Option String) (ft : GoType) (fv : Value) (e : Option Error)
    (hb : walkBind lib um environ sname all i st name tag ft = .ok (none, .skip, st))
    (hfv : st[i]? = some fv)
    (h : walk lib um environ sname all i st name tag ft = .ok (e, st')) :
    (∀ n2 fs2 vs2, (ft = .struct n2 fs2 ∨ ft = .ptr (.struct n2 fs2)) →
      fv = stored ft (.struct vs2) →
      ∃ vs3, walkFields lib um environ n2 fs2 fs2 0 vs2 = .ok (none, vs3) ∧
        st' = st.set i (stored ft (.struct vs3))) ∧
    ((ft.walksInto = false ∨ ∀ vs2, fv ≠ stored ft (.struct vs2)) → st' = st) := by
  cases ft with
  | basic tn k =>
    refine ⟨fun n2 fs2 vs2 hft _ => (by rcases hft with h1 | h1 <;> cases h1),
      fun _ => ?_⟩
    rw [walk_basic, hb] at h
    simp [bind, Except.bind, pure, Except.pure] at h
    exact h.2.symm
  | struct n fs0 =>
    obtain ⟨h1, h2⟩ := walk_struct_after lib um environ sname all i st st' st name tag n
      fs0 .skip fv e hb hfv h
    refine ⟨fun n2 fs2 vs2 hft hvs => ?_, fun hne => h2 ?_⟩
    · rcases hft with hh | hh
      · cases hh
        exact h1 vs2 hvs
      · cases hh
    · rcases hne with hh | hh
      · simp [GoType.walksInto] at hh
      · exact hh
  | ptr el =>
    obtain ⟨h1, h2⟩ := walk_ptr_after_skip lib um environ sname all i st st' name tag el
      fv e hb hfv h
    refine ⟨fun n2 fs2 vs2 hft hvs => ?_, fun hne => h2 hne⟩
    rcases hft with hh | hh
    · cases hh
    · cases hh
      exact h1 n2 fs2 vs2 rfl hvs

theorem walkBind_of_skip (lib : Lib) (um : Unmarshalers) (environ : Environ)
    (sname : String) (all : Fields) (i : Nat) (st : List Value) (name : String)
    (tag : Option String) (ft : GoType) (fv : Value) (hfv : st[i]? = some fv)
    (hl : loadValueEnv lib um environ (Indirect ft fv) (some ⟨name, ft, tag⟩)
      (some ⟨sname, all, st⟩) = .ok (none, .skip)) :
    walkBind lib um environ sname all i st name tag ft = .ok (none, .skip, st) := by
  simp only [walkBind, hfv, hl]
  cases ft <;> rfl

/-- After `Load`, a field to which the binder assigns nothing, whatever the record
holds: a record or the record behind a non-nil pointer ends as `Load` on that record
alone leaves it; every other field holds what it held before the call. -/
theorem Load_field_of_skip_any (lib : Lib) (um : Unmarshalers) (environ : Environ)
    (sname : String) (fs : Fields) (vals : List Value) (r : Option Error × Option Iface)
    (i : Nat) (name : String) (tag : Option String) (ft : GoType)
    (hnd : fs.names.Nodup) (hget : fs.get? i = some ⟨name, ft, tag⟩)
    (hskip : ∀ value st, loadValueEnv lib um environ value (some ⟨name, ft, tag⟩)
      (some ⟨sname, fs, st⟩) = .ok (none, .skip))
    (hok : Load lib um environ (target sname fs vals) = .ok r) :
    r.1 = none ∧ ∃ old, vals[i]? = some old ∧
      ((ft.walksInto = false ∨ ∀ vs2, old ≠ stored ft (.struct vs2)) →
        fieldOf r.2 i = some old) ∧
      (∀ n2 fs2 vs2, (ft = .struct n2 fs2 ∨ ft = .ptr (.struct n2 fs2)) →
        old = stored ft (.struct vs2) →
        ∃ vs3, Load lib um environ (target n2 fs2 vs2) = .ok (none, target n2 fs2 vs3) ∧
          fieldOf r.2 i = some (stored ft (.struct vs3))) := by
  obtain ⟨hr, st, st', hst, _, hw, hres⟩ :=
    Load_field_state lib um environ sname fs vals r i _ hnd hget hok
  simp only at hw
  obtain ⟨fv, hfv⟩ := walk_ok_get _ _ _ _ _ _ _ _ _ _ _ hw
  have hb := walkBind_of_skip lib um environ sname fs i st name tag ft fv hfv (hskip _ _)
  obtain ⟨h1, h2⟩ := walk_after_skip lib um environ sname fs i st st' name tag ft fv none
    hb hfv hw
  have hi : i < st.length := by
    rcases Nat.lt_or_ge i st.length with h | h
    · exact h
    · rw [List.getElem?_eq_none h] at hfv; simp at hfv
  refine ⟨hr, fv, by rw [← hst i (Nat.le_refl _), hfv], fun hne => ?_,
    fun n2 fs2 vs2 hft hvs => ?_⟩
  · rw [hres, h2 hne, hfv]
  · obtain ⟨vs3, hwf, hst'⟩ := h1 n2 fs2 vs2 hft hvs
    refine ⟨vs3, Load_of_walkFields lib um environ n2 fs2 vs2 vs3 none hwf, ?_⟩
    rw [hres, hst']
    simp [List.getElem?_set_self, hi]

theorem loadValueEnv_decoded_value (lib : Lib) (um : Unmarshalers) (environ : Environ)
    (value : Option (GoType × Value)) (name key sname : String) (ft : GoType)
    (all : Fields) (st : List Value) (dec : Decoder) (x : Iface)
    (hum : um sname = some dec) (hk : ft.Kind ≠ Kind.Ptr)
    (hdec : dec (.struct st) name key (Getenv environ key) = (some x, none)) :
    loadValueEnv lib um environ value (some ⟨name, ft, some key⟩) (some ⟨sname, all, st⟩)
      = (do
        let a ← SetConverted lib value x
        pure (none, a)) := by
  simp only [loadValueEnv, unmarshalFromValue, hum, hdec, hk, decide_False,
    Bool.false_eq_true, ↓reduceIte]

theorem loadValueEnv_decoded_ptr (lib : Lib) (um : Unmarshalers) (environ : Environ)
    (value : Option (GoType × Value)) (name key sname : String) (ft : GoType)
    (all : Fields) (st : List Value) (dec : Decoder) (x : Iface)
    (hum : um sname = some dec) (hk : ft.Kind = Kind.Ptr)
    (hdec : dec (.struct st) name key (Getenv environ key) = (some x, none)) :
    loadValueEnv lib um environ value (some ⟨name, ft, some key⟩) (some ⟨sname, all, st⟩)
      = (do
        let a ← SetFieldByName (some ⟨sname, all, st⟩) name x
        pure (none, a)) := by
  simp only [loadValueEnv, unmarshalFromValue, hum, hdec, hk, decide_True, ↓reduceIte]

theorem loadValueEnv_decoder_failed (lib : Lib) (um : Unmarshalers) (environ : Environ)
    (value : Option (GoType × Value)) (name key sname : String) (ft : GoType)
    (all : Fields) (st : List Value) (dec : Decoder) (e : Error)
    (hum : um sname = some dec)
    (hdec : (dec (.struct st) name key (Getenv environ key)).2 = some e) :
    loadValueEnv lib um environ value (some ⟨name, ft, some key⟩) (some ⟨sname, all, st⟩)
      = .ok (some e, .skip) := by
  have hu : unmarshalFromValue um environ key ⟨name, ft, some key⟩ (some ⟨sname, all, st⟩)
      = (none, some e) := by
    simp only [unmarshalFromValue, hum]
    rcases hd : dec (.struct st) name key (Getenv environ key) with ⟨x, oe⟩
    rw [hd] at hdec
    simp only at hdec
    subst hdec
    cases x <;> rfl
  simp only [loadValueEnv, hu]
  rfl

theorem loadValueEnv_decoder_absent (lib : Lib) (um : Unmarshalers) (environ : Environ)
    (value : Option (GoType × Value)) (name key sname : String) (ft : GoType)
    (all : Fields) (st : List Value) (dec : Decoder)
    (hum : um sname = some dec)
    (hdec : dec (.struct st) name key (Getenv environ key) = (none, none)) :
    loadValueEnv lib um environ value (some ⟨name, ft, some key⟩) (some ⟨sname, all, st⟩)
      = loadValueEnv lib noUnmarshalers environ value (some ⟨name, ft, some key⟩)
          (some ⟨sname, all, st⟩) := by
  simp only [loadValueEnv, unmarshalFromValue, hum, hdec, noUnmarshalers]

theorem walk_bind_ok (lib : Lib) (um : Unmarshalers) (environ : Environ)
    (sname : String) (all : Fields) (i : Nat) (st : List Value) (name : String)
    (tag : Option String) (ft : GoType) (r : Option Error × List Value)
    (h : walk lib um environ sname all i st name tag ft = .ok r) :
    ∃ err a c1, walkBind lib um environ sname all i st name tag ft = .ok (err, a, c1) := by
  cases hb : walkBind lib um environ sname all i st name tag ft with
  | ok p => exact ⟨p.1, p.2.1, p.2.2, rfl⟩
  | error m =>
    cases ft with
    | basic tn k => rw [walk_basic, hb] at h; cases h
    | struct n2 fs2 => rw [walk_struct, hb] at h; cases h
    | ptr el => rw [walk_ptr, hb] at h; cases h

/-- The binder on a value-mode field for which the decoder answers `x`: it stores `x`
converted to the type of the field, and panics when `x` cannot be converted. -/
theorem walkBind_decoded_value (lib : Lib) (um : Unmarshalers) (environ : Environ)
    (sname : String) (all : Fields) (i : Nat) (st : List Value) (name key : String)
    (ft : GoType) (fv : Value) (dec : Decoder) (x : Iface)
    (hum : um sname = some dec) (hk : ft.Kind ≠ Kind.Ptr)
    (hdec : dec (.struct st) name key (Getenv environ key) = (some x, none))
    (hfv : st[i]? = some fv) :
    walkBind lib um environ sname all i st name (some key) ft
      = (match lib.Convert x ft with
        | some y => .ok (none, .value y, st.set i y)
        | none => .error "reflect.Value.Convert: value cannot be converted to the type") := by
  have hind : Indirect ft fv = some (ft, fv) := by
    cases ft with
    | ptr _ => simp [GoType.Kind] at hk
    | basic _ _ => rfl
    | struct _ _ => rfl
  simp only [walkBind, hfv, hind,
    loadValueEnv_decoded_value lib um environ _ name key sname ft all st dec x hum hk hdec,
    SetConverted]
  cases lib.Convert x ft with
  | none => rfl
  | some y =>
    cases ft with
    | ptr _ => simp [GoType.Kind] at hk
    | basic _ _ => rfl
    | struct _ _ => rfl

/-- The walk step of a value-mode field for which the decoder answers `x`. -/
theorem walk_decoded_value (lib : Lib) (um : Unmarshalers) (environ : Environ)
    (sname : String) (all : Fields) (i : Nat) (st : List Value) (name key : String)
    (ft : GoType) (fv : Value) (dec : Decoder) (x : Iface) (y : Value)
    (hum : um sname = some dec) (hk : ft.Kind ≠ Kind.Ptr)
    (hdec : dec (.struct st) name key (Getenv environ key) = (some x, none))
    (hconv : lib.Convert x ft = some y) (hfv : st[i]? = some fv) :
    walkBind lib um environ sname all i st name (some key) ft
        = .ok (none, .value y, st.set i y) ∧
      ((ft.walksInto = false ∨ ∀ vs2, y ≠ .struct vs2) →
        walk lib um environ sname all i st name (some key) ft = .ok (none, st.set i y)) := by
  have hb : walkBind lib um environ sname all i st name (some key) ft
      = .ok (none, .value y, st.set i y) := by
    rw [walkBind_decoded_value lib um environ sname all i st name key ft fv dec x hum
      hk hdec hfv, hconv]
  have hi : i < st.length := by
    rcases Nat.lt_or_ge i st.length with h | h
    · exact h
    · rw [List.getElem?_eq_none h] at hfv; simp at hfv
  refine ⟨hb, fun hne => ?_⟩
  cases ft with
  | ptr _ => simp [GoType.Kind] at hk
  | basic tn k => rw [walk_basic, hb]; rfl
  | struct n2 fs2 =>
    have hne' : ∀ vs2, y ≠ .struct vs2 := by
      rcases hne with h | h
      · simp [GoType.walksInto] at h
      · exact h
    rw [walk_struct, hb]
    simp only [bind, Except.bind, List.getElem?_set_self hi]
    cases y with
    | struct vs2 => exact absurd rfl (hne' vs2)
    | _ => rfl

/-- The field after a walk step that returned, when the decoder answered `x` for a
value-mode field. -/
theorem field_decoded_value (lib : Lib) (um : Unmarshalers) (environ : Environ)
    (sname : String) (all : Fields) (i : Nat) (st st' : List Value) (name key : String)
    (ft : GoType) (dec : Decoder) (x : Iface) (e : Option Error)
    (hum : um sname = some dec) (hk : ft.Kind ≠ Kind.Ptr)
    (hdec : dec (.struct st) name key (Getenv environ key) = (some x, none))
    (hw : walk lib um environ sname all i st name (some key) ft = .ok (e, st')) :
    ∃ y, lib.Convert x ft = some y ∧
      ((ft.walksInto = false ∨ ∀ vs2, y ≠ .struct vs2) → st'[i]? = some y) ∧
      (∀ n2 fs2 vs2, ft = .struct n2 fs2 → y = .struct vs2 →
        ∃ vs3, Load lib um environ (target n2 fs2 vs2) = .ok (none, target n2 fs2 vs3) ∧
          st'[i]? = some (.struct vs3)) := by
  obtain ⟨fv, hfv⟩ := walk_ok_get _ _ _ _ _ _ _ _ _ _ _ hw
  have hi : i < st.length := by
    rcases Nat.lt_or_ge i st.length with h | h
    · exact h
    · rw [List.getElem?_eq_none h] at hfv; simp at hfv
  obtain ⟨err, a, c1, hb⟩ := walk_bind_ok _ _ _ _ _ _ _ _ _ _ _ hw
  rw [walkBind_decoded_value lib um environ sname all i st name key ft fv dec x hum
    hk hdec hfv] at hb
  cases hc : lib.Convert x ft with
  | none => rw [hc] at hb; cases hb
  | some y =>
    obtain ⟨hb1, hb2⟩ := walk_decoded_value lib um environ sname all i st name key ft fv
      dec x y hum hk hdec hc hfv
    refine ⟨y, rfl, fun hne => ?_, fun n2 fs2 vs2 hft hy => ?_⟩
    · rw [hb2 hne] at hw
      simp at hw
      rw [← hw.2, List.getElem?_set_self hi]
    · subst hft
      obtain ⟨h1, _⟩ := walk_struct_after lib um environ sname all i st st' _ name
        (some key) n2 fs2 _ y e hb1 (List.getElem?_set_self hi) hw
      obtain ⟨vs3, hwf, hst'⟩ := h1 vs2 hy
      refine ⟨vs3, Load_of_walkFields lib um environ n2 fs2 vs2 vs3 none hwf, ?_⟩
      rw [hst']
      simp [List.getElem?_set_self, hi]

/-- The binder on a pointer-mode field for which the decoder answers `x`: it assigns
`x` to the field by name, and panics unless `x` has the type of the field. -/
theorem walkBind_decoded_ptr (lib : Lib) (um : Unmarshalers) (environ : Environ)
    (sname : String) (all : Fields) (i : Nat) (st : List Value) (name key : String)
    (el : GoType) (fv : Value) (dec : Decoder) (x : Iface)
    (hum : um sname = some dec) (hby : all.byName name = some (i, .ptr el))
    (hdec : dec (.struct st) name key (Getenv environ key) = (some x, none))
    (hfv : st[i]? = some fv) :
    walkBind lib um environ sname all i st name (some key) (.ptr el)
      = (if x.typ.beq (.ptr el) then .ok (none, .field name x.val, st.set i x.val)
        else .error "reflect.Set: value is not assignable to the type of the field") := by
  simp only [walkBind, hfv,
    loadValueEnv_decoded_ptr lib um environ _ name key sname (.ptr el) all st dec x hum rfl
      hdec,
    SetFieldByName, hby]
  by_cases hb : x.typ.beq (.ptr el) = true
  · simp [hb, applyAssign, hby, bind, Except.bind, pure, Except.pure]
  · simp [hb, bind, Except.bind, throw, throwThe, MonadExceptOf.throw]

/-- The walk step of a pointer-mode field for which the decoder answers `x`: whenever
it returns, `x` has the type of the field and the field holds `x`; it does return for a
pointer to a type that is not a record. -/
theorem walk_decoded_ptr (lib : Lib) (um : Unmarshalers) (environ : Environ)
    (sname : String) (all : Fields) (i : Nat) (st : List Value) (name key : String)
    (el : GoType) (fv : Value) (dec : Decoder) (x : Iface)
    (hum : um sname = some dec) (hby : all.byName name = some (i, .ptr el))
    (hdec : dec (.struct st) name key (Getenv environ key) = (some x, none))
    (hfv : st[i]? = some fv) :
    (∀ e st', walk lib um environ sname all i st name (some key) (.ptr el) = .ok (e, st') →
      x.typ.beq (.ptr el) = true ∧ st' = st.set i x.val) ∧
    (x.typ.beq (.ptr el) = true → (GoType.ptr el).walksInto = false →
      walk lib um environ sname all i st name (some key) (.ptr el)
        = .ok (none, st.set i x.val)) := by
  have hbind := walkBind_decoded_ptr lib um environ sname all i st name key el fv dec x hum
    hby hdec hfv
  constructor
  · intro e st' hw
    by_cases hb : x.typ.beq (.ptr el) = true
    · refine ⟨hb, ?_⟩
      rw [if_pos hb] at hbind
      rw [walk_ptr, hbind] at hw
      simp only [bind, Except.bind, hfv] at hw
      cases fv with
      | ptr pv =>
        simp only at hw
        cases hc : walkCell lib um environ el pv with
        | error m => rw [hc] at hw; cases hw
        | ok p =>
          rw [hc] at hw
          simp [pure, Except.pure] at hw
          exact hw.2.symm
      | _ =>
        simp [pure, Except.pure] at hw
        exact hw.2.symm
    · rw [if_neg hb] at hbind
      rw [walk_ptr, hbind] at hw
      cases hw
  · intro hb hleaf
    rw [if_pos hb] at hbind
    rw [walk_ptr, hbind]
    simp only [bind, Except.bind, hfv]
    cases fv with
    | ptr pv =>
      have hcell : walkCell lib um environ el pv = .ok (none, none) := by
        cases el with
        | basic _ _ => rw [walkCell_basic]
        | ptr _ => rw [walkCell_ptr]
        | struct _ _ => simp [GoType.walksInto] at hleaf
      simp only [hcell]
      rfl
    | _ => rfl

end env

theorem parseDigits_plus (cs : List Char) (acc : Nat) :
    parseDigits ('+' :: cs) acc = none := by
  simp [parseDigits]

theorem hasSign_digits (s : String) (ds : List Nat) (hne : ds ≠ [])
    (hlt : ∀ d ∈ ds, d < 10) (h : s.data = ds.map digitChar) : hasSign s = false := by
  obtain ⟨d0, ds0, rfl⟩ := List.exists_cons_of_ne_nil hne
  obtain ⟨hp, hm⟩ := digitChar_ne_sign d0 (hlt d0 (List.mem_cons_self _ _))
  simp [hasSign, h, hp, hm]

theorem ParseUint_denotes (s : String) (n : Int) (w : Nat) (h : Denotes s n)
    (hw : w = 8 ∨ w = 16 ∨ w = 32 ∨ w = 64) :
    ParseUint s w
      = if hasSign s = false ∧ 0 ≤ n ∧ n < (2 : Int) ^ w then some n.toNat else none := by
  obtain ⟨ds, hne, hlt, hcase⟩ := h
  have hw64 : ¬ 64 < w := by omega
  have hw0 : effBitSize w = w := by
    unfold effBitSize; rw [if_neg (by omega)]
  have hne' : ¬ (List.map digitChar ds = []) := by simpa using hne
  unfold ParseUint
  rcases hcase with ⟨hdata, hval⟩ | ⟨hdata, hval⟩ | ⟨hdata, hval⟩
  · have hs := hasSign_digits s ds hne hlt hdata
    rw [hdata, if_neg hne', if_neg hw64, parseDigits_map ds 0 hlt, hw0]
    simp only [Nat.zero_mul, Nat.zero_add, hs, true_and]
    subst hval
    by_cases hr : Nat.ofDigits 10 ds.reverse < 2 ^ w
    · have : ((Nat.ofDigits 10 ds.reverse : Nat) : Int) < (2 : Int) ^ w := by
        exact_mod_cast hr
      simp [hr, this]
    · have : ¬ ((Nat.ofDigits 10 ds.reverse : Nat) : Int) < (2 : Int) ^ w := by
        intro hh; apply hr; exact_mod_cast hh
      simp [hr, this]
  · have hs : hasSign s = true := by simp [hasSign, hdata]
    rw [hdata]
    simp [parseDigits_plus, hs, hw64]
  · have hs : hasSign s = true := by simp [hasSign, hdata]
    rw [hdata]
    simp [parseDigits_minus, hs, hw64]

theorem ParseInt_denotes (s : String) (n : Int) (w : Nat) (h : Denotes s n)
    (hw : w = 8 ∨ w = 16 ∨ w = 32 ∨ w = 64) :
    ParseInt s w
      = if -(2 : Int) ^ (w - 1) ≤ n ∧ n < (2 : Int) ^ (w - 1) then some n else none := by
  obtain ⟨ds, hne, hlt, hcase⟩ := h
  have hw64 : ¬ 64 < w := by omega
  have hw0 : effBitSize w = w := by
    unfold effBitSize; rw [if_neg (by omega)]
  have hne' : ¬ (List.map digitChar ds = []) := by simpa using hne
  have hpow : ((2 ^ (w - 1) : Nat) : Int) = (2 : Int) ^ (w - 1) := by push_cast; rfl
  have hpos : (0 : Int) < (2 : Int) ^ (w - 1) := by positivity
  have hpd := parseDigits_map ds 0 hlt
  simp only [Nat.zero_mul, Nat.zero_add] at hpd
  unfold ParseInt
  rcases hcase with ⟨hdata, hval⟩ | ⟨hdata, hval⟩ | ⟨hdata, hval⟩
  · rw [hdata]
    obtain ⟨d0, ds0, rfl⟩ := List.exists_cons_of_ne_nil hne
    have hd0 : d0 < 10 := hlt d0 (List.mem_cons_self _ _)
    obtain ⟨hp, hm⟩ := digitChar_ne_sign d0 hd0
    simp only [List.map_cons] at hpd hne'
    simp only [List.map_cons, hp, hm, or_self, if_false, if_neg hne', if_neg hw64, hpd,
      hw0]
    subst hval
    generalize Nat.ofDigits 10 (d0 :: ds0).reverse = un
    by_cases hr : un < 2 ^ (w - 1)
    · have h2 : (un : Int) < (2 : Int) ^ (w - 1) := by rw [← hpow]; omega
      have h1 : -(2 : Int) ^ (w - 1) ≤ (un : Int) := by omega
      simp [hr, h1, h2]
    · have h2 : ¬ ((un : Int) < (2 : Int) ^ (w - 1)) := by rw [← hpow]; omega
      simp [hr, h2]
  · rw [hdata]
    simp only [true_or, if_true, if_neg hne', if_neg hw64, hpd, hw0]
    subst hval
    generalize Nat.ofDigits 10 ds.reverse = un
    have hneg : ¬ ('+' = '-') := by decide
    by_cases hr : un < 2 ^ (w - 1)
    · have h2 : (un : Int) < (2 : Int) ^ (w - 1) := by rw [← hpow]; omega
      have h1 : -(2 : Int) ^ (w - 1) ≤ (un : Int) := by omega
      simp [hr, h1, h2]
    · have h2 : ¬ ((un : Int) < (2 : Int) ^ (w - 1)) := by rw [← hpow]; omega
      simp [hr, h2]
  · rw [hdata]
    simp only [or_true, if_true, if_neg hne', if_neg hw64, hpd, hw0]
    subst hval
    generalize Nat.ofDigits 10 ds.reverse = un
    by_cases hr : un ≤ 2 ^ (w - 1)
    · have h1 : -(2 : Int) ^ (w - 1) ≤ -(un : Int) := by rw [← hpow]; omega
      have h2 : -(un : Int) < (2 : Int) ^ (w - 1) := by omega
      simp [hr, h1, h2]
    · have h1 : ¬ (-(2 : Int) ^ (w - 1) ≤ -(un : Int)) := by rw [← hpow]; omega
      simp [hr, h1]

namespace env

theorem setInt_denotes (ptr : Bool) (str : Option StructValue) (sf : StructField)
    (s : String) (value : Option (GoType × Value)) (k : Kind) (w : Nat) (n : Int)
    (hw : intWidth k = some (true, w)) (hden : Denotes s n) :
    setInt ptr str sf s value k
      = if inRange true w n then
          (if ptr then do
            let a ← SetFieldByName str sf.Name ⟨.ptr (predeclared k), .ptr (.int n)⟩
            pure (none, a)
          else do
            let a ← SetInt value n
            pure (none, a))
        else pure (none, .skip) := by
  have hw' := intWidth_cases k true w hw
  have hb : bits k = w := by
    cases k <;> simp [intWidth] at hw <;> simp [bits, hw]
  unfold setInt
  rw [hb, ParseInt_denotes s n w hden hw']
  by_cases hin : inRange true w n
  · have hin' := hin
    simp only [inRange, if_true] at hin'
    rw [if_pos hin', if_pos hin]
    cases ptr
    · rfl
    · have hc : castInts k (.int n) = .ok ⟨.ptr (predeclared k), .ptr (.int n)⟩ := by
        cases k <;> simp [intWidth] at hw <;> subst hw <;>
          simp [castInts, wrapInt_id _ n (by simp) hin'.1 hin'.2, pure, Except.pure]
      simp [hc, bind, Except.bind]
  · have hin' := hin
    simp only [inRange, if_true] at hin'
    rw [if_neg hin', if_neg hin]

theorem setUInt_denotes (ptr : Bool) (str : Option StructValue) (sf : StructField)
    (s : String) (value : Option (GoType × Value)) (k : Kind) (w : Nat) (n : Int)
    (hw : intWidth k = some (false, w)) (hden : Denotes s n) :
    setUInt ptr str sf s value k
      = if hasSign s = false ∧ inRange false w n then
          (if ptr then do
            let a ← SetFieldByName str sf.Name ⟨.ptr (predeclared k), .ptr (.uint n.toNat)⟩
            pure (none, a)
          else do
            let a ← SetUint value n.toNat
            pure (none, a))
        else pure (none, .skip) := by
  have hw' := intWidth_cases k false w hw
  have hb : bits k = w := by
    cases k <;> simp [intWidth] at hw <;> simp [bits, hw]
  unfold setUInt
  rw [hb, ParseUint_denotes s n w hden hw']
  by_cases hin : hasSign s = false ∧ inRange false w n
  · have hin' := hin
    simp only [inRange, Bool.false_eq_true, if_false] at hin'
    rw [if_pos hin', if_pos hin]
    have hlt : n.toNat < 2 ^ w := by
      have h0 := hin'.2.1
      have h1 := hin'.2.2
      have : ((n.toNat : Nat) : Int) < ((2 ^ w : Nat) : Int) := by
        rw [Int.toNat_of_nonneg h0]; push_cast; exact h1
      exact_mod_cast this
    cases ptr
    · rfl
    · have hc : castInts k (.uint n.toNat)
          = .ok ⟨.ptr (predeclared k), .ptr (.uint n.toNat)⟩ := by
        cases k <;> simp [intWidth] at hw <;> subst hw <;>
          simp [castInts, wrapUint_id _ _ hlt, pure, Except.pure]
      simp [hc, bind, Except.bind]
  · have hin' := hin
    simp only [inRange, Bool.false_eq_true, if_false] at hin'
    rw [if_neg hin', if_neg hin]

end env

theorem digitChar_of_mem (c : Char) (h : decimalDigits.contains c = true) :
    ∃ d, d < 10 ∧ c = digitChar d := by
  simp only [decimalDigits, List.contains_eq_any_beq, List.any_cons, List.any_nil,
    Bool.or_false, Bool.or_eq_true, beq_iff_eq] at h
  rcases h with h | h | h | h | h | h | h | h | h | h <;> subst h
  · exact ⟨0, by decide, rfl⟩
  · exact ⟨1, by decide, rfl⟩
  · exact ⟨2, by decide, rfl⟩
  · exact ⟨3, by decide, rfl⟩
  · exact ⟨4, by decide, rfl⟩
  · exact ⟨5, by decide, rfl⟩
  · exact ⟨6, by decide, rfl⟩
  · exact ⟨7, by decide, rfl⟩
  · exact ⟨8, by decide, rfl⟩
  · exact ⟨9, by decide, rfl⟩

theorem digits_of_all (cs : List Char)
    (h : cs.all (fun d => decimalDigits.contains d) = true) :
    ∃ ds : List Nat, (∀ d ∈ ds, d < 10) ∧ cs = ds.map digitChar := by
  induction cs with
  | nil => exact ⟨[], by simp, rfl⟩
  | cons c cs ih =>
    simp only [List.all_cons, Bool.and_eq_true] at h
    obtain ⟨d, hd, hc⟩ := digitChar_of_mem c h.1
    obtain ⟨ds, hds, hcs⟩ := ih h.2
    refine ⟨d :: ds, ?_, by simp [hc, hcs]⟩
    intro x hx
    rcases List.mem_cons.mp hx with h1 | h1
    · subst h1; exact hd
    · exact hds x h1

theorem all_of_digits (ds : List Nat) (hlt : ∀ d ∈ ds, d < 10) :
    (ds.map digitChar).all (fun d => decimalDigits.contains d) = true := by
  have := parseDigits_some_all (ds.map digitChar) 0 _ (parseDigits_map ds 0 hlt)
  exact this

/-- The numerals of `Denotes` are exactly the strings that are base-10 integers. -/
theorem isDecimalInteger_iff (s : String) :
    isDecimalInteger s = true ↔ ∃ n, Denotes s n := by
  constructor
  · intro h
    unfold isDecimalInteger at h
    cases hd : s.data with
    | nil => rw [hd] at h; simp at h
    | cons c cs =>
      rw [hd] at h
      simp only at h
      by_cases hc : c = '+' ∨ c = '-'
      · rw [if_pos hc] at h
        simp only [Bool.and_eq_true, Bool.not_eq_true', List.isEmpty_eq_false] at h
        obtain ⟨ds, hds, hcs⟩ := digits_of_all cs h.2
        have hne : ds ≠ [] := by
          intro h0; subst h0; simp at hcs; exact h.1 hcs
        rcases hc with hc | hc
        · exact ⟨_, ds, hne, hds, Or.inr (Or.inl ⟨by rw [hd, hc, hcs], rfl⟩)⟩
        · exact ⟨_, ds, hne, hds, Or.inr (Or.inr ⟨by rw [hd, hc, hcs], rfl⟩)⟩
      · rw [if_neg hc] at h
        obtain ⟨ds, hds, hcs⟩ := digits_of_all (c :: cs) h
        have hne : ds ≠ [] := by
          intro h0; subst h0; simp at hcs
        exact ⟨_, ds, hne, hds, Or.inl ⟨by rw [hd, hcs], rfl⟩⟩
  · rintro ⟨n, ds, hne, hlt, hcase⟩
    have hall := all_of_digits ds hlt
    obtain ⟨d0, ds0, rfl⟩ := List.exists_cons_of_ne_nil hne
    obtain ⟨hp, hm⟩ := digitChar_ne_sign d0 (hlt d0 (List.mem_cons_self _ _))
    unfold isDecimalInteger
    rcases hcase with ⟨hdata, _⟩ | ⟨hdata, _⟩ | ⟨hdata, _⟩
    · rw [hdata]
      simp only [List.map_cons, hp, hm, or_self, if_false]
      simpa using hall
    · rw [hdata]
      simp only [true_or, if_true, Bool.and_eq_true, Bool.not_eq_true',
        List.isEmpty_eq_false]
      exact ⟨by simp, hall⟩
    · rw [hdata]
      simp only [or_true, if_true, Bool.and_eq_true, Bool.not_eq_true',
        List.isEmpty_eq_false]
      exact ⟨by simp, hall⟩

/-! ## The claims -/

/-- C1 (the code departs from the claim): a float field whose variable holds text that
does not parse makes `setFloat64` fail, and `loadValueEnv` passes the failure on, but
`walk` answers it with `return nil`.  For every library that rejects `abc`, `Load` of
a pointer to `struct { F float64 "env:K" }` with `K=abc` returns a nil error and leaves
the record as it was. -/
theorem C1_float_parse_failure_returns_nil (lib : Lib) (e : Error)
    (h : lib.ParseFloat "abc" 64 = .error e) :
    env.Load lib noUnmarshalers (envOf [("K", "abc")]) (target "T" oneFloat [.float 0])
      = .ok (none, target "T" oneFloat [.float 0]) := by
  simp [env.Load, target, GoType.Kind, env.walkRoot, Indirect, env.loadValueEnv,
    env.walkCell_struct, oneFloat, env.walkFields_cons, env.walkFields_nil, predeclared,
    env.walk_basic, env.walkBind, env.unmarshalFromValue, noUnmarshalers, LookupEnv,
    envOf, env.setValue, env.setFloat64, h, env.applyAssign, bind, Except.bind, pure,
    Except.pure]

/-- Witness for C1 with the sample library. -/
theorem C1_float_parse_failure_returns_nil_witness :
    sampleLib.ParseFloat "abc" 64
        = .error "strconv.ParseFloat: parsing abc: invalid syntax" ∧
      env.Load sampleLib noUnmarshalers (envOf [("K", "abc")])
        (target "T" oneFloat [.float 0]) = .ok (none, target "T" oneFloat [.float 0]) :=
  ⟨rfl, C1_float_parse_failure_returns_nil sampleLib _ rfl⟩

/-- C2: `Load` of a value that is not a pointer (the nil interface included) returns the
error `load(non-pointer <v>)`, where `<v>` is the `%v` text of the argument, and `Load`
of a nil pointer returns the different error `load pointer nil <nil>` (fmt prints a nil
pointer as `<nil>`); both leave the argument as it was, for every environment and every
set of custom decoders, since the walk is not entered. -/
theorem C2_load_rejects_non_pointer_and_nil (lib : Lib) (um : env.Unmarshalers)
    (environ : Environ) (v : Option Iface) (e : GoType)
    (hv : ∀ x, v = some x → x.typ.Kind ≠ Kind.Ptr)
    (hnil : lib.Sprint (some ⟨.ptr e, .nil⟩) = "<nil>") :
    env.Load lib um environ v
        = .ok (some ("load(non-pointer " ++ lib.Sprint v ++ ")"), v) ∧
      env.Load lib um environ (some ⟨.ptr e, .nil⟩)
        = .ok (some "load pointer nil <nil>", some ⟨.ptr e, .nil⟩) ∧
      ("load(non-pointer " ++ lib.Sprint v ++ ")") ≠ "load pointer nil <nil>" := by
  refine ⟨?_, ?_, ?_⟩
  · cases v with
    | none => rfl
    | some x =>
      have := hv x rfl
      simp [env.Load, this, pure, Except.pure]
  · simp [env.Load, GoType.Kind, hnil, pure, Except.pure]
  · intro h
    have h2 := congrArg String.data h
    simp [String.data_append] at h2

/-- Witness for C2: the empty struct passed by value, as in `TestLoad`. -/
theorem C2_load_rejects_non_pointer_and_nil_witness :
    env.Load sampleLib noUnmarshalers (envOf []) (some ⟨.struct "" .nil, .struct []⟩)
        = .ok (some "load(non-pointer {})", some ⟨.struct "" .nil, .struct []⟩) ∧
      env.Load sampleLib noUnmarshalers (envOf [])
          (some ⟨.ptr (predeclared .Uint), .nil⟩)
        = .ok (some "load pointer nil <nil>", some ⟨.ptr (predeclared .Uint), .nil⟩) ∧
      "load(non-pointer {})" ≠ "load pointer nil <nil>" :=
  C2_load_rejects_non_pointer_and_nil sampleLib noUnmarshalers (envOf [])
    (some ⟨.struct "" .nil, .struct []⟩) (predeclared .Uint)
    (by intro x hx; cases hx; simp [GoType.Kind]) rfl

/-- C3, the claim as stated fails: the decoder of `D` returns the record
`DBConfig{Port: 1}` for the tagged value-mode field `DB`, and `PORT=8080` is set.  The
binder stores the decoded record, and the walk then binds the fields of that record from
the environment: after `Load` the field holds `DBConfig{Port: 8080}`, not the decoded
value. -/
theorem C3_decoded_record_is_walked :
    sampleLib.Convert ⟨.struct "DBConfig" portRecord, .struct [.uint 1]⟩
        (.struct "DBConfig" portRecord) = some (.struct [.uint 1]) ∧
    env.Load sampleLib recordUnmarshalers (envOf [("PORT", "8080")])
        (target "D" taggedNestedRecord [.struct [.uint 0]])
      = .ok (none, target "D" taggedNestedRecord [.struct [.uint 8080]]) ∧
    fieldOf (target "D" taggedNestedRecord [.struct [.uint 8080]]) 0
      ≠ some (.struct [.uint 1]) := by
  refine ⟨rfl, rfl, ?_⟩
  simp [fieldOf, target]

/-- C3 as amended: custom decoder precedence for a tagged value-mode field (a field whose
type is not a pointer) of a record whose type implements the decoder.  The decoder is
asked on the record as it is when the field is reached (`st`: the fields before it hold
their final values, the others what they held before the call).  If it answers a
non-absent value `x`, the binder stores `x` converted to the field's type whatever the
environment holds (the key may be unset), and panics when `x` cannot be converted; a
field that then does not hold a record holds exactly the converted value after `Load`,
while a record is walked like every record and ends as `Load` called on the converted
value alone leaves it.  If the decoder answers the absent signal `(nil, nil)`, the
binder does exactly what it does for a record without any decoder (default coercion of
the actual environment value, or nothing when the key is absent): a field that is not
a record ends as the walk step without decoder leaves it, and a record is walked. -/
theorem C3_custom_decoder_precedence (lib : Lib) (um : env.Unmarshalers)
    (environ : Environ) (sname : String) (fs : Fields) (vals : List Value)
    (i : Nat) (name key : String) (ft : GoType)
    (dec : env.Decoder) (hnd : fs.names.Nodup)
    (hget : fs.get? i = some ⟨name, ft, some key⟩) (hval : ft.Kind ≠ Kind.Ptr)
    (hum : um sname = some dec) :
    (∀ x y st fv, dec (.struct st) name key (Getenv environ key) = (some x, none) →
      lib.Convert x ft = some y → st[i]? = some fv →
      env.walkBind lib um environ sname fs i st name (some key) ft
        = .ok (none, .value y, st.set i y) ∧
      ((ft.walksInto = false ∨ ∀ vs2, y ≠ .struct vs2) →
        env.walk lib um environ sname fs i st name (some key) ft
          = .ok (none, st.set i y))) ∧
    ∀ r, env.Load lib um environ (target sname fs vals) = .ok r →
      r.1 = none ∧
      ∃ st, (∀ k, i ≤ k → st[k]? = vals[k]?) ∧ (∀ k, k < i → st[k]? = fieldOf r.2 k) ∧
        (∀ x, dec (.struct st) name key (Getenv environ key) = (some x, none) →
          ∃ y, lib.Convert x ft = some y ∧
            ((ft.walksInto = false ∨ ∀ vs2, y ≠ .struct vs2) →
              fieldOf r.2 i = some y) ∧
            (∀ n2 fs2 vs2, ft = .struct n2 fs2 → y = .struct vs2 →
              ∃ vs3, env.Load lib um environ (target n2 fs2 vs2)
                  = .ok (none, target n2 fs2 vs3) ∧
                fieldOf r.2 i = some (.struct vs3))) ∧
        (dec (.struct st) name key (Getenv environ key) = (none, none) →
          (∀ value, env.loadValueEnv lib um environ value (some ⟨name, ft, some key⟩)
              (some ⟨sname, fs, st⟩)
            = env.loadValueEnv lib noUnmarshalers environ value
              (some ⟨name, ft, some key⟩) (some ⟨sname, fs, st⟩)) ∧
          (ft.walksInto = false →
            ∃ st', env.walk lib noUnmarshalers environ sname fs i st name (some key) ft
                = .ok (none, st') ∧
              fieldOf r.2 i = st'[i]?) ∧
          (∀ n2 fs2 vs2, ft = .struct n2 fs2 → vals[i]? = some (.struct vs2) →
            ∃ vs3, env.Load lib um environ (target n2 fs2 vs2)
                = .ok (none, target n2 fs2 vs3) ∧
              fieldOf r.2 i = some (.struct vs3))) := by
  have hstep : ∀ x y st fv, dec (.struct st) name key (Getenv environ key) = (some x, none) →
      lib.Convert x ft = some y → st[i]? = some fv →
      env.walkBind lib um environ sname fs i st name (some key) ft
        = .ok (none, .value y, st.set i y) ∧
      ((ft.walksInto = false ∨ ∀ vs2, y ≠ .struct vs2) →
        env.walk lib um environ sname fs i st name (some key) ft
          = .ok (none, st.set i y)) := by
    intro x y st fv hdec hconv hfv
    have hb : env.walkBind lib um environ sname fs i st name (some key) ft
        = .ok (none, .value y, st.set i y) := by
      rw [env.walkBind_decoded_value lib um environ sname fs i st name key ft fv dec x hum
        hval hdec hfv, hconv]
    have hi : i < st.length := by
      rcases Nat.lt_or_ge i st.length with h | h
      · exact h
      · rw [List.getElem?_eq_none h] at hfv; simp at hfv
    refine ⟨hb, fun hne => ?_⟩
    cases ft with
    | ptr _ => simp [GoType.Kind] at hval
    | basic tn k => rw [env.walk_basic, hb]; rfl
    | struct n2 fs2 =>
      have hne' : ∀ vs2, y ≠ .struct vs2 := by
        rcases hne with h | h
        · simp [GoType.walksInto] at h
        · exact h
      rw [env.walk_struct, hb]
      simp only [bind, Except.bind, List.getElem?_set_self hi]
      cases y with
      | struct vs2 => exact absurd rfl (hne' vs2)
      | _ => rfl
  refine ⟨hstep, fun r hok => ?_⟩
  obtain ⟨hr, st, st', hst, hlow, hw, hres⟩ :=
    env.Load_field_state lib um environ sname fs vals r i _ hnd hget hok
  simp only at hw
  obtain ⟨fv, hfv⟩ := env.walk_ok_get _ _ _ _ _ _ _ _ _ _ _ hw
  have hi : i < st.length := by
    rcases Nat.lt_or_ge i st.length with h | h
    · exact h
    · rw [List.getElem?_eq_none h] at hfv; simp at hfv
  refine ⟨hr, st, hst, hlow, fun x hdec => ?_, fun hdec => ⟨fun value => ?_, fun hleaf => ?_,
    fun n2 fs2 vs2 hft hv => ?_⟩⟩
  · obtain ⟨err, a, c1, hb⟩ := env.walk_bind_ok _ _ _ _ _ _ _ _ _ _ _ hw
    rw [env.walkBind_decoded_value lib um environ sname fs i st name key ft fv dec x hum
      hval hdec hfv] at hb
    cases hc : lib.Convert x ft with
    | none => rw [hc] at hb; cases hb
    | some y =>
      obtain ⟨hb1, hb2⟩ := hstep x y st fv hdec hc hfv
      refine ⟨y, rfl, fun hne => ?_, fun n2 fs2 vs2 hft hy => ?_⟩
      · rw [hb2 hne] at hw
        simp at hw
        rw [hres, ← hw, List.getElem?_set_self hi]
      · subst hft
        obtain ⟨h1, _⟩ := env.walk_struct_after lib um environ sname fs i st st' _ name
          (some key) n2 fs2 _ y none hb1 (List.getElem?_set_self hi) hw
        obtain ⟨vs3, hwf, hst'⟩ := h1 vs2 hy
        refine ⟨vs3, env.Load_of_walkFields lib um environ n2 fs2 vs2 vs3 none hwf, ?_⟩
        rw [hres, hst']
        simp [List.getElem?_set_self, hi]
  · exact env.loadValueEnv_decoder_absent lib um environ value name key sname ft fs st dec
      hum hdec
  · cases ft with
    | ptr _ => simp [GoType.Kind] at hval
    | struct _ _ => simp [GoType.walksInto] at hleaf
    | basic tn k =>
      refine ⟨st', ?_, hres⟩
      rw [← hw, env.walk_basic, env.walk_basic]
      simp only [env.walkBind, hfv,
        env.loadValueEnv_decoder_absent lib um environ _ name key sname _ fs st dec hum hdec]
  · subst hft
    have hfv' : st[i]? = some (.struct vs2) := by rw [hst i (Nat.le_refl _), hv]
    have hb : env.walkBind lib um environ sname fs i st name (some key) (.struct n2 fs2)
        = .ok (none, .skip, st) := by
      rw [← env.walkBind_struct_skip lib noUnmarshalers environ sname fs i st name
        (some key) n2 fs2 _ hfv' rfl]
      simp only [env.walkBind, hfv',
        env.loadValueEnv_decoder_absent lib um environ _ name key sname _ fs st dec hum hdec]
    obtain ⟨h1, _⟩ := env.walk_struct_after lib um environ sname fs i st st' st name
      (some key) n2 fs2 .skip _ none hb hfv' hw
    obtain ⟨vs3, hwf, hst'⟩ := h1 vs2 rfl
    refine ⟨vs3, env.Load_of_walkFields lib um environ n2 fs2 vs2 vs3 none hwf, ?_⟩
    rw [hres, hst']
    simp [List.getElem?_set_self, hi]


/-- Witness for C3 as amended: in the record of type `U`, `Field` receives the name of
its variable from the decoder although `test` is not set; `Count`, for which the decoder
returns the absent signal, ends as the walk step without decoder leaves it (with the
environment value 7); and the record `DB` decoded for `D` ends as `Load` on the decoded
record leaves it. -/
theorem C3_custom_decoder_precedence_witness :
    (env.walkBind sampleLib sampleUnmarshalers (envOf [("test4", "7")]) "U" decodedFields 0
        [.string "", .uint 0] "Field" (some "test") (predeclared .String)
      = .ok (none, .value (.string "test"),
          [Value.string "", Value.uint 0].set 0 (.string "test")) ∧
      env.walk sampleLib sampleUnmarshalers (envOf [("test4", "7")]) "U" decodedFields 0
        [.string "", .uint 0] "Field" (some "test") (predeclared .String)
      = .ok (none, [Value.string "", Value.uint 0].set 0 (.string "test"))) ∧
    (∃ y, sampleLib.Convert ⟨predeclared .String, .string "test"⟩ (predeclared .String)
        = some y ∧
      fieldOf (target "U" decodedFields [.string "test", .uint 7]) 0 = some y) ∧
    (∃ st st', (∀ k, 1 ≤ k → st[k]? = [Value.string "", Value.uint 0][k]?) ∧
      env.walk sampleLib noUnmarshalers (envOf [("test4", "7")]) "U" decodedFields
        1 st "Count" (some "test4") (predeclared .Uint) = .ok (none, st') ∧
      fieldOf (target "U" decodedFields [.string "test", .uint 7]) 1 = st'[1]?) ∧
    (∃ vs3, env.Load sampleLib recordUnmarshalers (envOf [("PORT", "8080")])
        (target "DBConfig" portRecord [.uint 1])
        = .ok (none, target "DBConfig" portRecord vs3) ∧
      fieldOf (target "D" taggedNestedRecord [.struct [.uint 8080]]) 0
        = some (.struct vs3)) := by
  have h0 := C3_custom_decoder_precedence sampleLib sampleUnmarshalers
    (envOf [("test4", "7")]) "U" decodedFields [.string "", .uint 0] 0 "Field" "test"
    (predeclared .String) sampleDecoder (by decide) rfl (by decide) rfl
  have h1 := C3_custom_decoder_precedence sampleLib sampleUnmarshalers
    (envOf [("test4", "7")]) "U" decodedFields [.string "", .uint 0] 1 "Count" "test4"
    (predeclared .Uint) sampleDecoder (by decide) rfl (by decide) rfl
  have h2 := C3_custom_decoder_precedence sampleLib recordUnmarshalers
    (envOf [("PORT", "8080")]) "D" taggedNestedRecord [.struct [.uint 0]] 0 "DB" "DB"
    (.struct "DBConfig" portRecord)
    (fun _ _ _ _ => (some ⟨.struct "DBConfig" portRecord, .struct [.uint 1]⟩, none))
    (by decide) rfl (by decide) rfl
  refine ⟨?_, ?_, ?_, ?_⟩
  · obtain ⟨hb, hw⟩ := h0.1 ⟨predeclared .String, .string "test"⟩ (.string "test")
      [.string "", .uint 0] (.string "") rfl rfl rfl
    exact ⟨hb, hw (Or.inl rfl)⟩
  · obtain ⟨_, st, _, _, hx, _⟩ := h0.2 (none, target "U" decodedFields
      [.string "test", .uint 7]) rfl
    obtain ⟨y, hy, hleaf, _⟩ := hx ⟨predeclared .String, .string "test"⟩ rfl
    exact ⟨y, hy, hleaf (Or.inl rfl)⟩
  · obtain ⟨_, st, hst, _, _, habs⟩ := h1.2 (none, target "U" decodedFields
      [.string "test", .uint 7]) rfl
    obtain ⟨_, hleaf, _⟩ := habs rfl
    obtain ⟨st', hw, hres⟩ := hleaf rfl
    exact ⟨st, st', hst, hw, hres⟩
  · obtain ⟨_, st, _, _, hx, _⟩ := h2.2 (none, target "D" taggedNestedRecord
      [.struct [.uint 8080]]) rfl
    obtain ⟨y, hy, _, hrec⟩ := hx ⟨.struct "DBConfig" portRecord, .struct [.uint 1]⟩ rfl
    have hy' : y = .struct [.uint 1] := by
      have : sampleLib.Convert ⟨.struct "DBConfig" portRecord, .struct [.uint 1]⟩
          (.struct "DBConfig" portRecord) = some (.struct [.uint 1]) := rfl
      rw [this] at hy
      exact (Option.some.inj hy).symm
    exact hrec "DBConfig" portRecord [.uint 1] rfl hy'

/-- C4, the claim as stated fails: the tagged field `DB` is a record, its key `DB` is
absent from the environment, and its declaring record has no custom decoder; yet after
`Load` the field does not hold the value it held before, because its own field `Port`
was bound from `PORT`. -/
theorem C4_absent_key_record_field_is_walked :
    envOf [("PORT", "8080")] "DB" = none ∧
    env.Load sampleLib noUnmarshalers (envOf [("PORT", "8080")])
        (target "Outer" taggedNestedRecord [.struct [.uint 0]])
      = .ok (none, target "Outer" taggedNestedRecord [.struct [.uint 8080]]) ∧
    fieldOf (target "Outer" taggedNestedRecord [.struct [.uint 8080]]) 0
      ≠ fieldOf (target "Outer" taggedNestedRecord [.struct [.uint 0]]) 0 := by
  refine ⟨rfl, rfl, ?_⟩
  simp [fieldOf, target]

/-- C4 as amended: a tagged field whose binding key is absent from the environment, in a
record without custom decoder.  The binder assigns nothing to the field and reports no
error, for a field of any type.  `Load` returns on every well-formed target, and
whenever it returns, it returns nil; a field that does not hold a record (nor a non-nil
pointer to one) holds exactly the value it held before the call; a field that holds a
record, or a non-nil pointer to one, is still walked and ends as `Load` called on that
record alone leaves it. -/
theorem C4_absent_key_keeps_field (lib : Lib) (um : env.Unmarshalers)
    (environ : Environ) (sname : String) (fs : Fields) (vals : List Value)
    (i : Nat) (name key : String) (ft : GoType)
    (hnd : fs.names.Nodup) (hget : fs.get? i = some ⟨name, ft, some key⟩)
    (hum : um sname = none) (habs : environ key = none) :
    (∀ value st, env.loadValueEnv lib um environ value (some ⟨name, ft, some key⟩)
        (some ⟨sname, fs, st⟩) = .ok (none, Assign.skip)) ∧
    (WellFormed um (.struct sname fs) (.struct vals) →
      ∃ r, env.Load lib um environ (target sname fs vals) = .ok r) ∧
    ∀ r, env.Load lib um environ (target sname fs vals) = .ok r →
      r.1 = none ∧ ∃ old, vals[i]? = some old ∧
        ((ft.walksInto = false ∨ ∀ vs2, old ≠ stored ft (.struct vs2)) →
          fieldOf r.2 i = some old) ∧
        (∀ n2 fs2 vs2, (ft = .struct n2 fs2 ∨ ft = .ptr (.struct n2 fs2)) →
          old = stored ft (.struct vs2) →
          ∃ vs3, env.Load lib um environ (target n2 fs2 vs2)
              = .ok (none, target n2 fs2 vs3) ∧
            fieldOf r.2 i = some (stored ft (.struct vs3))) := by
  have hlook : LookupEnv environ key = none := by simp [LookupEnv, habs]
  have hskip : ∀ value st, env.loadValueEnv lib um environ value
      (some ⟨name, ft, some key⟩) (some ⟨sname, fs, st⟩) = .ok (none, Assign.skip) := by
    intro value st
    rw [env.loadValueEnv_nodec lib um environ value name key sname ft fs st hum, hlook]
    rfl
  refine ⟨hskip, fun hwf => ?_, fun r hok => ?_⟩
  · obtain ⟨vals', h⟩ := env.Load_returns lib um environ sname fs vals hwf
    exact ⟨_, h⟩
  · exact env.Load_field_of_skip_any lib um environ sname fs vals r i name (some key) ft
      hnd hget hskip hok

/-- Witness for C4 as amended: the default `dflt` of `S` survives a `Load` in which `K2`
is not set; and the tagged record `DB`, whose key is not set either, ends as `Load` on
it alone leaves it, with `Port` bound from `PORT`. -/
theorem C4_absent_key_keeps_field_witness :
    (∀ value st, env.loadValueEnv sampleLib noUnmarshalers (envOf [("K", "3.14")]) value
        (some ⟨"S", predeclared .String, some "K2"⟩)
        (some ⟨"T", floatThenString, st⟩) = .ok (none, Assign.skip)) ∧
    (∃ r, env.Load sampleLib noUnmarshalers (envOf [("K", "3.14")])
        (target "T" floatThenString [.float 0, .string "dflt"]) = .ok r) ∧
    ((none : Option Error) = none ∧
      ∃ old, [Value.float 0, Value.string "dflt"][1]? = some old ∧
        (((predeclared .String).walksInto = false ∨
            ∀ vs2, old ≠ stored (predeclared .String) (.struct vs2)) →
          fieldOf (target "T" floatThenString [.float 314, .string "dflt"]) 1 = some old) ∧
        (∀ n2 fs2 vs2, (predeclared .String = .struct n2 fs2 ∨
            predeclared .String = .ptr (.struct n2 fs2)) →
          old = stored (predeclared .String) (.struct vs2) →
          ∃ vs3, env.Load sampleLib noUnmarshalers (envOf [("K", "3.14")])
              (target n2 fs2 vs2) = .ok (none, target n2 fs2 vs3) ∧
            fieldOf (target "T" floatThenString [.float 314, .string "dflt"]) 1
              = some (stored (predeclared .String) (.struct vs3)))) ∧
    ((none : Option Error) = none ∧
      ∃ old, [Value.struct [.uint 0]][0]? = some old ∧
        (((GoType.struct "DBConfig" portRecord).walksInto = false ∨
            ∀ vs2, old ≠ stored (.struct "DBConfig" portRecord) (.struct vs2)) →
          fieldOf (target "Outer" taggedNestedRecord [.struct [.uint 8080]]) 0
            = some old) ∧
        (∀ n2 fs2 vs2, (GoType.struct "DBConfig" portRecord = .struct n2 fs2 ∨
            GoType.struct "DBConfig" portRecord = .ptr (.struct n2 fs2)) →
          old = stored (.struct "DBConfig" portRecord) (.struct vs2) →
          ∃ vs3, env.Load sampleLib noUnmarshalers (envOf [("PORT", "8080")])
              (target n2 fs2 vs2) = .ok (none, target n2 fs2 vs3) ∧
            fieldOf (target "Outer" taggedNestedRecord [.struct [.uint 8080]]) 0
              = some (stored (.struct "DBConfig" portRecord) (.struct vs3)))) :=
  ⟨(C4_absent_key_keeps_field sampleLib noUnmarshalers (envOf [("K", "3.14")]) "T"
      floatThenString [.float 0, .string "dflt"] 1 "S" "K2" (predeclared .String)
      (by decide) rfl rfl rfl).1,
   (C4_absent_key_keeps_field sampleLib noUnmarshalers (envOf [("K", "3.14")]) "T"
      floatThenString [.float 0, .string "dflt"] 1 "S" "K2" (predeclared .String)
      (by decide) rfl rfl rfl).2.1
      (by simp [WellFormed, WellFormedFields, floatThenString, noUnmarshalers,
        Fields.names]),
   (C4_absent_key_keeps_field sampleLib noUnmarshalers (envOf [("K", "3.14")]) "T"
      floatThenString [.float 0, .string "dflt"] 1 "S" "K2" (predeclared .String)
      (by decide) rfl rfl rfl).2.2
      (none, target "T" floatThenString [.float 314, .string "dflt"]) rfl,
   (C4_absent_key_keeps_field sampleLib noUnmarshalers (envOf [("PORT", "8080")]) "Outer"
      taggedNestedRecord [.struct [.uint 0]] 0 "DB" "DB" (.struct "DBConfig" portRecord)
      (by decide) rfl rfl rfl).2.2
      (none, target "Outer" taggedNestedRecord [.struct [.uint 8080]]) rfl⟩

/-- C5: a bool field (value or pointer mode) of a record without custom decoder whose
variable is set to `s`.  `Load` returns on every well-formed target, and whenever it
returns, it returns no error and the field holds the value false when `s` is the empty
string, `0`, or `false` in any mix of upper and lower case, and true for every other
`s`; a pointer field points to a cell with that value. -/
theorem C5_bool_coercion (lib : Lib) (um : env.Unmarshalers) (environ : Environ)
    (sname : String) (fs : Fields) (vals : List Value)
    (i : Nat) (name key : String) (ft : GoType)
    (s : String) (hnd : fs.names.Nodup)
    (hget : fs.get? i = some ⟨name, ft, some key⟩) (hkind : effKind ft = Kind.Bool)
    (hum : um sname = none) (hs : LookupEnv environ key = some s) :
    (WellFormed um (.struct sname fs) (.struct vals) →
      ∃ r, env.Load lib um environ (target sname fs vals) = .ok r) ∧
    ∀ r, env.Load lib um environ (target sname fs vals) = .ok r →
      r.1 = none ∧
        fieldOf r.2 i
          = some (stored ft (.bool (!(s == "" || s == "0" || isFalseWord s)))) := by
  refine ⟨fun hwf => ?_, fun r hok => ?_⟩
  · obtain ⟨vals', h⟩ := env.Load_returns lib um environ sname fs vals hwf
    exact ⟨_, h⟩
  · have hleaf : ft.walksInto = false := by
      cases ft with
      | basic _ _ => rfl
      | struct _ _ => simp [effKind, GoType.Kind] at hkind
      | ptr el => cases el <;> first | rfl | simp [effKind, GoType.Kind] at hkind
    obtain ⟨hr, st, fv, err, a, _, hfv, hl, hres⟩ :=
      env.Load_leaf_field lib um environ sname fs vals r i _ hnd hget hleaf hok
    refine ⟨hr, ?_⟩
    rw [hres]
    have hby := Fields.byName_of_get fs i _ hnd hget
    simp only at hby
    rw [env.loadValueEnv_nodec lib um environ _ name key sname ft fs st hum, hs] at hl
    simp only [env.setValue, hkind, env.setBool, setBool_value_eq, Run.bind_eq_ok,
      Run.pure_eq_ok] at hl
    obtain ⟨a', ha', hp⟩ := hl
    simp at hp
    obtain ⟨_, hp2⟩ := hp
    subst hp2
    cases ft with
    | struct _ _ => simp [effKind, GoType.Kind] at hkind
    | basic tn k =>
      simp only [effKind, GoType.Kind] at hkind
      subst hkind
      simp [GoType.Kind, Indirect, SetBool, Run.pure_eq_ok] at ha'
      subst ha'
      simp [Assign.result]
    | ptr el =>
      simp [GoType.Kind, SetFieldByName, hby] at ha'
      split at ha'
      · simp [Run.pure_eq_ok] at ha'
        subst ha'
        simp [Assign.result, stored]
      · simp [Run.throw_ne_ok] at ha'

/-- Witness for C5: with `test_f1=False` the pointer field of the record of
`TestLoadBool` points to false. -/
theorem C5_bool_coercion_witness :
    (∃ r, env.Load sampleLib noUnmarshalers (envOf [("test_f1", "False")])
        (target "test" boolPair [.bool true, .nil]) = .ok r) ∧
    ((none : Option Error) = none ∧
      fieldOf (target "test" boolPair [.bool false, .ptr (.bool false)]) 1
        = some (stored (.ptr (predeclared .Bool))
            (.bool (!("False" == "" || "False" == "0" || isFalseWord "False"))))) :=
  ⟨(C5_bool_coercion sampleLib noUnmarshalers (envOf [("test_f1", "False")]) "test"
      boolPair [.bool true, .nil] 1 "FieldPtr" "test_f1" (.ptr (predeclared .Bool))
      "False" (by decide) rfl rfl rfl rfl).1
      (by simp [WellFormed, WellFormedFields, boolPair, noUnmarshalers, Fields.names,
        GoType.settable, supportedKind, predeclared, GoType.Kind, GoType.beq]),
   (C5_bool_coercion sampleLib noUnmarshalers (envOf [("test_f1", "False")]) "test"
      boolPair [.bool true, .nil] 1 "FieldPtr" "test_f1" (.ptr (predeclared .Bool))
      "False" (by decide) rfl rfl rfl rfl).2
      (none, target "test" boolPair [.bool false, .ptr (.bool false)]) rfl⟩

/-- C6, the claim as stated fails: `+5` is a base-10 string denoting 5, and 5 lies in
the range of `uint8`; yet the `uint8` field that held 7 is left at 7, because
`strconv.ParseUint` does not accept a sign. -/
theorem C6_signed_numeral_leaves_unsigned_field :
    Denotes "+5" 5 ∧ inRange false 8 5 ∧
    env.Load sampleLib noUnmarshalers (envOf [("test_f1", "+5")])
        (target "test" uint8Pair [.uint 7, .nil])
      = .ok (none, target "test" uint8Pair [.uint 7, .nil]) :=
  ⟨⟨[5], by decide, by decide, Or.inr (Or.inl ⟨rfl, rfl⟩)⟩, by decide, rfl⟩

/-- C6 as amended: an integer field (value or pointer mode) of a record without custom
decoder whose variable holds a base-10 numeral `s` of the integer `n` (an optional sign,
then decimal digits: exactly the strings that are base-10 integers).  With `w` the
declared width of the kind (`int` and `uint` count as 64 bits), a signed field is set
to `n` exactly when `-2^(w-1) <= n < 2^(w-1)`, and an unsigned field exactly when `s`
carries no sign and `0 <= n < 2^w`; otherwise the field keeps the value it had.  The
value stored is `n` itself, never a truncated or wrapped one, and `Load` returns no
error.  `Load` returns on every well-formed target. -/
theorem C6_integer_range_checked (lib : Lib) (um : env.Unmarshalers) (environ : Environ)
    (sname : String) (fs : Fields) (vals : List Value)
    (i : Nat) (name key : String) (ft : GoType)
    (s : String) (n : Int) (signed : Bool) (w : Nat) (hnd : fs.names.Nodup)
    (hget : fs.get? i = some ⟨name, ft, some key⟩)
    (hw : intWidth (effKind ft) = some (signed, w)) (hum : um sname = none)
    (hs : LookupEnv environ key = some s) (hden : Denotes s n) :
    (∀ t, isDecimalInteger t = true ↔ ∃ m, Denotes t m) ∧
    (WellFormed um (.struct sname fs) (.struct vals) →
      ∃ r, env.Load lib um environ (target sname fs vals) = .ok r) ∧
    ∀ r, env.Load lib um environ (target sname fs vals) = .ok r →
      r.1 = none ∧ ∃ old, vals[i]? = some old ∧
        fieldOf r.2 i
          = some (if inRange signed w n ∧ (signed = true ∨ hasSign s = false) then
              stored ft (intValue signed n) else old) := by
  refine ⟨isDecimalInteger_iff, fun hwf => ?_, fun r hok => ?_⟩
  · obtain ⟨vals', h⟩ := env.Load_returns lib um environ sname fs vals hwf
    exact ⟨_, h⟩
  · have hleaf := env.leaf_of_intWidth ft signed w hw
    obtain ⟨hr, st, fv, err, a, _, hfv, hl, hres⟩ :=
      env.Load_leaf_field lib um environ sname fs vals r i _ hnd hget hleaf hok
    refine ⟨hr, fv, hfv, ?_⟩
    rw [hres]
    congr 1
    have hby := Fields.byName_of_get fs i _ hnd hget
    simp only at hby
    rw [env.loadValueEnv_nodec lib um environ _ name key sname ft fs st hum, hs] at hl
    simp only at hl
    have hptr : ∀ el, ft = .ptr el → decide (ft.Kind = Kind.Ptr) = true := by
      intro el h; subst h; rfl
    have hval : ∀ tn k, ft = .basic tn k → decide (ft.Kind = Kind.Ptr) = false := by
      intro tn k h; subst h
      simp only [effKind, GoType.Kind] at hw
      simp only [GoType.Kind, decide_eq_false_iff_not]
      intro hk; subst hk; simp [intWidth] at hw
    cases signed with
    | true =>
      rw [env.setValue_signed _ _ _ _ _ _ _ w hw, env.setInt_denotes _ _ _ _ _ _ w n hw hden]
        at hl
      simp only [true_or, and_true]
      by_cases hin : inRange true w n
      · rw [if_pos hin] at hl
        rw [if_pos hin]
        cases ft with
        | struct _ _ => simp [effKind, GoType.Kind, intWidth] at hw
        | basic tn k =>
          rw [hval tn k rfl] at hl
          simp only [Bool.false_eq_true, if_false, Indirect,
            env.SetInt_in_range (.basic tn k) fv w n hw hin, bind, Except.bind, pure,
            Except.pure] at hl
          simp at hl
          rw [← hl.2]
          rfl
        | ptr el =>
          rw [hptr el rfl] at hl
          simp only [if_true, Run.bind_eq_ok, Run.pure_eq_ok] at hl
          obtain ⟨a', ha', hp⟩ := hl
          simp at hp
          rw [← hp.2, env.SetFieldByName_result sname fs st name _ _ a' fv ha']
          rfl
      · rw [if_neg hin] at hl
        rw [if_neg hin]
        simp [Run.pure_eq_ok] at hl
        rw [← hl.2]
        rfl
    | false =>
      rw [env.setValue_unsigned _ _ _ _ _ _ _ w hw,
        env.setUInt_denotes _ _ _ _ _ _ w n hw hden] at hl
      simp only [Bool.false_eq_true, false_or]
      by_cases hin : hasSign s = false ∧ inRange false w n
      · rw [if_pos hin] at hl
        rw [if_pos ⟨hin.2, hin.1⟩]
        cases ft with
        | struct _ _ => simp [effKind, GoType.Kind, intWidth] at hw
        | basic tn k =>
          rw [hval tn k rfl] at hl
          simp only [Bool.false_eq_true, if_false, Indirect,
            env.SetUint_in_range (.basic tn k) fv w n hw hin.2, bind, Except.bind, pure,
            Except.pure] at hl
          simp at hl
          rw [← hl.2]
          rfl
        | ptr el =>
          rw [hptr el rfl] at hl
          simp only [if_true, Run.bind_eq_ok, Run.pure_eq_ok] at hl
          obtain ⟨a', ha', hp⟩ := hl
          simp at hp
          rw [← hp.2, env.SetFieldByName_result sname fs st name _ _ a' fv ha']
          rfl
      · rw [if_neg hin] at hl
        rw [if_neg (fun h => hin ⟨h.2, h.1⟩)]
        simp [Run.pure_eq_ok] at hl
        rw [← hl.2]
        rfl

/-- Witness for C6 as amended: `250` is stored in a `*uint8` field, `256` leaves a
`uint8` field that held 7 at 7, `-0` leaves it at 7 as well, and `+5` is stored in an
`int8` field. -/
theorem C6_integer_range_checked_witness :
    (∃ r, env.Load sampleLib noUnmarshalers (envOf [("test_f1", "250")])
        (target "test" uint8Pair [.uint 7, .nil]) = .ok r) ∧
    ((none : Option Error) = none ∧ ∃ old, [Value.uint 7, Value.nil][1]? = some old ∧
      fieldOf (target "test" uint8Pair [.uint 250, .ptr (.uint 250)]) 1
        = some (if inRange false 8 250 ∧ (false = true ∨ hasSign "250" = false) then
            stored (.ptr (predeclared .Uint8)) (intValue false 250) else old)) ∧
    ((none : Option Error) = none ∧ ∃ old, [Value.uint 7, Value.nil][0]? = some old ∧
      fieldOf (target "test" uint8Pair [.uint 7, .nil]) 0
        = some (if inRange false 8 256 ∧ (false = true ∨ hasSign "256" = false) then
            stored (predeclared .Uint8) (intValue false 256) else old)) ∧
    ((none : Option Error) = none ∧ ∃ old, [Value.uint 7, Value.nil][0]? = some old ∧
      fieldOf (target "test" uint8Pair [.uint 7, .nil]) 0
        = some (if inRange false 8 0 ∧ (false = true ∨ hasSign "-0" = false) then
            stored (predeclared .Uint8) (intValue false 0) else old)) ∧
    ((none : Option Error) = none ∧ ∃ old, [Value.int 7, Value.nil][0]? = some old ∧
      fieldOf (target "test" int8Pair [.int 5, .ptr (.int 5)]) 0
        = some (if inRange true 8 5 ∧ (true = true ∨ hasSign "+5" = false) then
            stored (predeclared .Int8) (intValue true 5) else old)) :=
  ⟨(C6_integer_range_checked sampleLib noUnmarshalers (envOf [("test_f1", "250")]) "test"
      uint8Pair [.uint 7, .nil] 1 "Field8Ptr" "test_f1" (.ptr (predeclared .Uint8)) "250"
      250 false 8 (by decide) rfl rfl rfl rfl
      ⟨[2, 5, 0], by decide, by decide, Or.inl ⟨rfl, rfl⟩⟩).2.1
      (by simp [WellFormed, WellFormedFields, uint8Pair, noUnmarshalers, Fields.names,
        GoType.settable, supportedKind, predeclared, GoType.Kind, GoType.beq]),
   (C6_integer_range_checked sampleLib noUnmarshalers (envOf [("test_f1", "250")]) "test"
      uint8Pair [.uint 7, .nil] 1 "Field8Ptr" "test_f1" (.ptr (predeclared .Uint8)) "250"
      250 false 8 (by decide) rfl rfl rfl rfl
      ⟨[2, 5, 0], by decide, by decide, Or.inl ⟨rfl, rfl⟩⟩).2.2
      (none, target "test" uint8Pair [.uint 250, .ptr (.uint 250)]) rfl,
   (C6_integer_range_checked sampleLib noUnmarshalers (envOf [("test_f1", "256")]) "test"
      uint8Pair [.uint 7, .nil] 0 "Field8" "test_f1" (predeclared .Uint8) "256"
      256 false 8 (by decide) rfl rfl rfl rfl
      ⟨[2, 5, 6], by decide, by decide, Or.inl ⟨rfl, rfl⟩⟩).2.2
      (none, target "test" uint8Pair [.uint 7, .nil]) rfl,
   (C6_integer_range_checked sampleLib noUnmarshalers (envOf [("test_f1", "-0")]) "test"
      uint8Pair [.uint 7, .nil] 0 "Field8" "test_f1" (predeclared .Uint8) "-0"
      0 false 8 (by decide) rfl rfl rfl rfl
      ⟨[0], by decide, by decide, Or.inr (Or.inr ⟨rfl, rfl⟩)⟩).2.2
      (none, target "test" uint8Pair [.uint 7, .nil]) rfl,
   (C6_integer_range_checked sampleLib noUnmarshalers (envOf [("test_f1", "+5")]) "test"
      int8Pair [.int 7, .nil] 0 "Field8" "test_f1" (predeclared .Int8) "+5"
      5 true 8 (by decide) rfl rfl rfl rfl
      ⟨[5], by decide, by decide, Or.inr (Or.inl ⟨rfl, rfl⟩)⟩).2.2
      (none, target "test" int8Pair [.int 5, .ptr (.int 5)]) rfl⟩

/-- C7: an integer field (signed or unsigned, any width, value or pointer mode) of a
record without custom decoder whose variable holds a string that is not a base-10
integer (an optional sign and at least one digit).  `Load` returns on every well-formed
target, and whenever it returns, it returns nil and the field keeps the value it had
before the call. -/
theorem C7_malformed_integer_is_ignored (lib : Lib) (um : env.Unmarshalers)
    (environ : Environ) (sname : String) (fs : Fields) (vals : List Value)
    (i : Nat) (name key : String) (ft : GoType)
    (s : String) (signed : Bool) (w : Nat) (hnd : fs.names.Nodup)
    (hget : fs.get? i = some ⟨name, ft, some key⟩)
    (hw : intWidth (effKind ft) = some (signed, w)) (hum : um sname = none)
    (hs : LookupEnv environ key = some s) (hbad : isDecimalInteger s = false) :
    (WellFormed um (.struct sname fs) (.struct vals) →
      ∃ r, env.Load lib um environ (target sname fs vals) = .ok r) ∧
    ∀ r, env.Load lib um environ (target sname fs vals) = .ok r →
      r.1 = none ∧ ∃ old, vals[i]? = some old ∧ fieldOf r.2 i = some old := by
  refine ⟨fun hwf => ?_, fun r hok => ?_⟩
  · obtain ⟨vals', h⟩ := env.Load_returns lib um environ sname fs vals hwf
    exact ⟨_, h⟩
  · have hleaf := env.leaf_of_intWidth ft signed w hw
    obtain ⟨hr, st, fv, err, a, _, hfv, hl, hres⟩ :=
      env.Load_leaf_field lib um environ sname fs vals r i _ hnd hget hleaf hok
    refine ⟨hr, fv, hfv, ?_⟩
    rw [hres]
    rw [env.loadValueEnv_nodec lib um environ _ name key sname ft fs st hum, hs] at hl
    simp only at hl
    cases signed with
    | true =>
      rw [env.setValue_signed _ _ _ _ _ _ _ w hw] at hl
      simp only [env.setInt, ParseInt_malformed s _ hbad, Run.pure_eq_ok] at hl
      simp at hl
      rw [← hl.2]; rfl
    | false =>
      rw [env.setValue_unsigned _ _ _ _ _ _ _ w hw] at hl
      simp only [env.setUInt, ParseUint_malformed s _ hbad, Run.pure_eq_ok] at hl
      simp at hl
      rw [← hl.2]; rfl

/-- Witness for C7: `test_int=GGG` as in `TestLoad`; the `int` field keeps its 5. -/
theorem C7_malformed_integer_is_ignored_witness :
    (∃ r, env.Load sampleLib noUnmarshalers (envOf [("test_int", "GGG")])
        (target "test" testLoadFields [.string "", .int 5]) = .ok r) ∧
    ((none : Option Error) = none ∧ ∃ old, [Value.string "", Value.int 5][1]? = some old ∧
      fieldOf (target "test" testLoadFields [.string "", .int 5]) 1 = some old) :=
  ⟨(C7_malformed_integer_is_ignored sampleLib noUnmarshalers
      (envOf [("test_int", "GGG")]) "test" testLoadFields [.string "", .int 5] 1
      "FieldInt" "test_int" (predeclared .Int) "GGG" true 64 (by decide) rfl rfl rfl rfl
      (by decide)).1
      (by simp [WellFormed, WellFormedFields, testLoadFields, noUnmarshalers,
        Fields.names]),
   (C7_malformed_integer_is_ignored sampleLib noUnmarshalers
      (envOf [("test_int", "GGG")]) "test" testLoadFields [.string "", .int 5] 1
      "FieldInt" "test_int" (predeclared .Int) "GGG" true 64 (by decide) rfl rfl rfl rfl
      (by decide)).2
      (none, target "test" testLoadFields [.string "", .int 5]) rfl⟩

/-- C8: in a record without custom decoder, a value field and a pointer field of the
same supported kind (bool, string, float32, float64, any signed or unsigned integer
width) bound to the same key, whose variable holds a string that parses for the kind
to the value `v` of the Value Coercion Table.  After `Load` the value field holds `v`
and the pointer field is non-nil and points to a cell holding the same `v`; for the
integer kinds `v` is the parsed number itself, so the narrowing casts of pointer mode
(and of `SetInt`, `SetUint`) change nothing.  `Load` returns on every well-formed
target. -/
theorem C8_value_and_pointer_agree (lib : Lib) (um : env.Unmarshalers)
    (environ : Environ) (sname : String) (fs : Fields) (vals : List Value)
    (i j : Nat) (namei namej key tn : String)
    (k : Kind) (el : GoType) (s : String) (v : Value) (hnd : fs.names.Nodup)
    (hgi : fs.get? i = some ⟨namei, .basic tn k, some key⟩)
    (hgj : fs.get? j = some ⟨namej, .ptr el, some key⟩) (hel : el.Kind = k)
    (hum : um sname = none) (hs : LookupEnv environ key = some s)
    (hv : coerced lib k s = some v) :
    (WellFormed um (.struct sname fs) (.struct vals) →
      ∃ r, env.Load lib um environ (target sname fs vals) = .ok r) ∧
    ∀ r, env.Load lib um environ (target sname fs vals) = .ok r →
      r.1 = none ∧ fieldOf r.2 i = some v ∧ fieldOf r.2 j = some (.ptr v) := by
  refine ⟨fun hwf => ?_, fun r hok => ?_⟩
  · obtain ⟨vals', h⟩ := env.Load_returns lib um environ sname fs vals hwf
    exact ⟨_, h⟩
  · have hkp : k ≠ Kind.Ptr := by
      intro h; subst h; simp [coerced, intWidth] at hv
    have hleafj : (GoType.ptr el).walksInto = false := by
      cases el with
      | basic _ _ => rfl
      | ptr _ => rfl
      | struct _ _ =>
        simp only [GoType.Kind] at hel
        subst hel
        simp [coerced, intWidth] at hv
    obtain ⟨hr, st, fv, err, a, _, _, hl, hres⟩ :=
      env.Load_leaf_field lib um environ sname fs vals r i _ hnd hgi (by rfl) hok
    obtain ⟨_, st2, fv2, err2, a2, _, _, hl2, hres2⟩ :=
      env.Load_leaf_field lib um environ sname fs vals r j _ hnd hgj hleafj hok
    refine ⟨hr, ?_, ?_⟩
    · rw [hres]
      rw [env.loadValueEnv_nodec lib um environ _ namei key sname _ fs st hum, hs] at hl
      simp only [GoType.Kind, hkp, decide_False, effKind, Indirect] at hl
      have := env.setValue_coerced_value lib (some ⟨sname, fs, st⟩)
        ⟨namei, .basic tn k, some key⟩ s (.basic tn k) fv v (by simpa [GoType.Kind] using hv)
      simp only [GoType.Kind] at this
      rw [this] at hl
      simp at hl
      rw [← hl.2]
      rfl
    · rw [hres2]
      rw [env.loadValueEnv_nodec lib um environ _ namej key sname _ fs st2 hum, hs] at hl2
      have hek : effKind (GoType.ptr el) = k := hel
      have hpk : (GoType.ptr el).Kind = Kind.Ptr := rfl
      simp only [hek, hpk, decide_True] at hl2
      rw [env.setValue_coerced_ptr lib _ _ s _ k v hv] at hl2
      simp only [Run.bind_eq_ok, Run.pure_eq_ok] at hl2
      obtain ⟨a', ha', hp⟩ := hl2
      simp at hp
      rw [← hp.2, env.SetFieldByName_result sname fs st2 namej _ _ a' fv2 ha']

/-- Witness for C8: `test_f1=102` as in `TestLoadInt`; the `int8` field and the cell of
the `*int8` field both hold 102. -/
theorem C8_value_and_pointer_agree_witness :
    (∃ r, env.Load sampleLib noUnmarshalers (envOf [("test_f1", "102")])
        (target "test" int8Pair [.int 0, .nil]) = .ok r) ∧
    ((none : Option Error) = none ∧
      fieldOf (target "test" int8Pair [.int 102, .ptr (.int 102)]) 0
        = some (Value.int 102) ∧
      fieldOf (target "test" int8Pair [.int 102, .ptr (.int 102)]) 1
        = some (.ptr (Value.int 102))) :=
  ⟨(C8_value_and_pointer_agree sampleLib noUnmarshalers (envOf [("test_f1", "102")])
      "test" int8Pair [.int 0, .nil] 0 1 "Field8" "Field8Ptr" "test_f1" "int8" .Int8
      (predeclared .Int8) "102" (.int 102) (by decide) rfl rfl rfl rfl rfl rfl).1
      (by simp [WellFormed, WellFormedFields, int8Pair, noUnmarshalers, Fields.names,
        GoType.settable, supportedKind, predeclared, GoType.Kind, GoType.beq]),
   (C8_value_and_pointer_agree sampleLib noUnmarshalers (envOf [("test_f1", "102")])
      "test" int8Pair [.int 0, .nil] 0 1 "Field8" "Field8Ptr" "test_f1" "int8" .Int8
      (predeclared .Int8) "102" (.int 102) (by decide) rfl rfl rfl rfl rfl rfl).2
      (none, target "test" int8Pair [.int 102, .ptr (.int 102)]) rfl⟩

/-- C9 (the code departs from the claim): a failed float coercion does not stop the
walk.  For every library that rejects `abc`, `Load` of a pointer to
`struct { F float64 "env:K"; S string "env:K2" }` with `K=abc` and `K2=hello` returns
nil and binds `S`, the field after the failing one, to `hello`: `walk` answers the
failure of `loadValueEnv` with `return nil`, so the loop over the fields goes on. -/
theorem C9_fields_after_failed_float_are_bound (lib : Lib) (e : Error)
    (h : lib.ParseFloat "abc" 64 = .error e) :
    env.Load lib noUnmarshalers (envOf [("K", "abc"), ("K2", "hello")])
        (target "T" floatThenString [.float 0, .string ""])
      = .ok (none, target "T" floatThenString [.float 0, .string "hello"]) := by
  simp [env.Load, target, GoType.Kind, env.walkRoot, Indirect, env.loadValueEnv,
    env.walkCell_struct, floatThenString, env.walkFields_cons, env.walkFields_nil,
    predeclared, env.walk_basic, env.walkBind, env.unmarshalFromValue, noUnmarshalers,
    LookupEnv, envOf, env.setValue, env.setFloat64, h, env.applyAssign, env.setString,
    SetString, bind, Except.bind, pure, Except.pure]

/-- Witness for C9 with the sample library. -/
theorem C9_fields_after_failed_float_are_bound_witness :
    sampleLib.ParseFloat "abc" 64
        = .error "strconv.ParseFloat: parsing abc: invalid syntax" ∧
      env.Load sampleLib noUnmarshalers (envOf [("K", "abc"), ("K2", "hello")])
        (target "T" floatThenString [.float 0, .string ""])
      = .ok (none, target "T" floatThenString [.float 0, .string "hello"]) :=
  ⟨rfl, C9_fields_after_failed_float_are_bound sampleLib _ rfl⟩

/-- C10, the claim as stated fails: a record of a type with a custom decoder, whose
field has the empty `env` annotation.  The decoder is consulted (with the empty key) and
its result `decoded` replaces the field's `old`. -/
theorem C10_empty_tag_decoder_is_applied :
    env.Load sampleLib emptyTagUnmarshalers (envOf []) (target "E" emptyTagFields [.string "old"])
        = .ok (none, target "E" emptyTagFields [.string "decoded"]) ∧
      fieldOf (target "E" emptyTagFields [.string "decoded"]) 0
        ≠ fieldOf (target "E" emptyTagFields [.string "old"]) 0 := by
  refine ⟨rfl, ?_⟩
  simp [fieldOf, target]

/-- C10 as amended: a field whose `env` annotation is present and empty.  The
environment is never consulted for it, since no variable has the empty name.  In a
record without custom decoder the binder assigns nothing to the field, for every
environment: `Load` returns on every well-formed target, and whenever it returns, a
field that does not hold a record (nor a non-nil pointer to one) holds what it held
before, while a record is still walked.  In a record whose type implements the decoder,
the decoder is still consulted, with the empty key and the empty value, on the record as
it is when the field is reached, and its answer is applied: an error is swallowed and
the field is left alone; the absent signal leaves the field to the behaviour without
decoder; a value `x` is stored in the field, converted to the field's type in value mode
and as it is (it must have the type of the field) in pointer mode. -/
theorem C10_empty_tag_binds_only_through_decoder (lib : Lib) (um : env.Unmarshalers)
    (environ : Environ) (sname : String) (fs : Fields) (vals : List Value)
    (i : Nat) (name : String) (ft : GoType)
    (hnd : fs.names.Nodup) (hget : fs.get? i = some ⟨name, ft, some ""⟩) :
    (um sname = none →
      (∀ value st, env.loadValueEnv lib um environ value (some ⟨name, ft, some ""⟩)
        (some ⟨sname, fs, st⟩) = .ok (none, Assign.skip)) ∧
      (WellFormed um (.struct sname fs) (.struct vals) →
        ∃ r, env.Load lib um environ (target sname fs vals) = .ok r) ∧
      ∀ r, env.Load lib um environ (target sname fs vals) = .ok r →
        r.1 = none ∧ ∃ old, vals[i]? = some old ∧
          ((ft.walksInto = false ∨ ∀ vs2, old ≠ stored ft (.struct vs2)) →
            fieldOf r.2 i = some old) ∧
          (∀ n2 fs2 vs2, (ft = .struct n2 fs2 ∨ ft = .ptr (.struct n2 fs2)) →
            old = stored ft (.struct vs2) →
            ∃ vs3, env.Load lib um environ (target n2 fs2 vs2)
                = .ok (none, target n2 fs2 vs3) ∧
              fieldOf r.2 i = some (stored ft (.struct vs3)))) ∧
    (∀ dec st fv, um sname = some dec → st[i]? = some fv →
      (∀ e, (dec (.struct st) name "" "").2 = some e →
        env.walk lib um environ sname fs i st name (some "") ft = .ok (none, st)) ∧
      (dec (.struct st) name "" "" = (none, none) →
        env.walkBind lib um environ sname fs i st name (some "") ft
          = .ok (none, .skip, st)) ∧
      (∀ x y, dec (.struct st) name "" "" = (some x, none) → ft.Kind ≠ Kind.Ptr →
        lib.Convert x ft = some y →
        env.walkBind lib um environ sname fs i st name (some "") ft
            = .ok (none, .value y, st.set i y) ∧
          ((ft.walksInto = false ∨ ∀ vs2, y ≠ .struct vs2) →
            env.walk lib um environ sname fs i st name (some "") ft
              = .ok (none, st.set i y))) ∧
      (∀ x el, dec (.struct st) name "" "" = (some x, none) → ft = .ptr el →
        x.typ.beq ft = true →
        env.walkBind lib um environ sname fs i st name (some "") ft
            = .ok (none, .field name x.val, st.set i x.val) ∧
          (ft.walksInto = false →
            env.walk lib um environ sname fs i st name (some "") ft
              = .ok (none, st.set i x.val)))) ∧
    (∀ dec r, um sname = some dec →
      env.Load lib um environ (target sname fs vals) = .ok r →
      r.1 = none ∧
      ∃ st, (∀ k, i ≤ k → st[k]? = vals[k]?) ∧ (∀ k, k < i → st[k]? = fieldOf r.2 k) ∧
        (∀ e, (dec (.struct st) name "" "").2 = some e → fieldOf r.2 i = vals[i]?) ∧
        (dec (.struct st) name "" "" = (none, none) →
          ∃ old, vals[i]? = some old ∧
            ((ft.walksInto = false ∨ ∀ vs2, old ≠ stored ft (.struct vs2)) →
              fieldOf r.2 i = some old) ∧
            (∀ n2 fs2 vs2, (ft = .struct n2 fs2 ∨ ft = .ptr (.struct n2 fs2)) →
              old = stored ft (.struct vs2) →
              ∃ vs3, env.Load lib um environ (target n2 fs2 vs2)
                  = .ok (none, target n2 fs2 vs3) ∧
                fieldOf r.2 i = some (stored ft (.struct vs3)))) ∧
        (∀ x, dec (.struct st) name "" "" = (some x, none) → ft.Kind ≠ Kind.Ptr →
          ∃ y, lib.Convert x ft = some y ∧
            ((ft.walksInto = false ∨ ∀ vs2, y ≠ .struct vs2) →
              fieldOf r.2 i = some y) ∧
            (∀ n2 fs2 vs2, ft = .struct n2 fs2 → y = .struct vs2 →
              ∃ vs3, env.Load lib um environ (target n2 fs2 vs2)
                  = .ok (none, target n2 fs2 vs3) ∧
                fieldOf r.2 i = some (.struct vs3))) ∧
        (∀ x el, dec (.struct st) name "" "" = (some x, none) → ft = .ptr el →
          x.typ.beq ft = true ∧ fieldOf r.2 i = some x.val)) := by
  have hg : Getenv environ "" = "" := by simp [Getenv, LookupEnv]
  have hby := Fields.byName_of_get fs i _ hnd hget
  simp only at hby
  have habsent : ∀ dec st fv, um sname = some dec → st[i]? = some fv →
      dec (.struct st) name "" "" = (none, none) →
      env.walkBind lib um environ sname fs i st name (some "") ft
        = .ok (none, .skip, st) := by
    intro dec st fv hum hfv hdec
    apply env.walkBind_of_skip lib um environ sname fs i st name (some "") ft fv hfv
    rw [env.loadValueEnv_decoder_absent lib um environ _ name "" sname ft fs st dec hum
      (by rw [hg]; exact hdec),
      env.loadValueEnv_nodec lib noUnmarshalers environ _ name "" sname ft fs st rfl]
    simp only [LookupEnv, if_true]
    rfl
  refine ⟨fun hum => ?_, fun dec st fv hum hfv => ⟨fun e hdec => ?_, habsent dec st fv hum hfv,
    fun x y hdec hk hconv => ?_, fun x el hdec hft hb => ?_⟩, fun dec r hum hok => ?_⟩
  · have hskip : ∀ value st, env.loadValueEnv lib um environ value
        (some ⟨name, ft, some ""⟩) (some ⟨sname, fs, st⟩) = .ok (none, Assign.skip) := by
      intro value st
      rw [env.loadValueEnv_nodec lib um environ value name "" sname ft fs st hum]
      simp only [LookupEnv, if_true]
      rfl
    refine ⟨hskip, fun hwf => ?_, fun r hok => ?_⟩
    · obtain ⟨vals', h⟩ := env.Load_returns lib um environ sname fs vals hwf
      exact ⟨_, h⟩
    · exact env.Load_field_of_skip_any lib um environ sname fs vals r i name (some "") ft
        hnd hget hskip hok
  · exact env.walk_of_error lib um environ sname fs i st name (some "") ft fv e hfv
      (env.loadValueEnv_decoder_failed lib um environ _ name "" sname ft fs st dec e hum
        (by rw [hg]; exact hdec))
  · exact env.walk_decoded_value lib um environ sname fs i st name "" ft fv dec x y hum hk
      (by rw [hg]; exact hdec) hconv hfv
  · subst hft
    have hbind := env.walkBind_decoded_ptr lib um environ sname fs i st name "" el fv dec x
      hum hby (by rw [hg]; exact hdec) hfv
    rw [if_pos hb] at hbind
    exact ⟨hbind, fun hleaf =>
      (env.walk_decoded_ptr lib um environ sname fs i st name "" el fv dec x hum hby
        (by rw [hg]; exact hdec) hfv).2 hb hleaf⟩
  · obtain ⟨hr, st, st', hst, hlow, hw, hres⟩ :=
      env.Load_field_state lib um environ sname fs vals r i _ hnd hget hok
    simp only at hw
    obtain ⟨fv, hfv⟩ := env.walk_ok_get _ _ _ _ _ _ _ _ _ _ _ hw
    have hi : i < st.length := by
      rcases Nat.lt_or_ge i st.length with h | h
      · exact h
      · rw [List.getElem?_eq_none h] at hfv; simp at hfv
    have hold : vals[i]? = some fv := by rw [← hst i (Nat.le_refl _), hfv]
    refine ⟨hr, st, hst, hlow, fun e hdec => ?_, fun hdec => ?_, fun x hdec hk => ?_,
      fun x el hdec hft => ?_⟩
    · rw [env.walk_of_error lib um environ sname fs i st name (some "") ft fv e hfv
        (env.loadValueEnv_decoder_failed lib um environ _ name "" sname ft fs st dec e hum
          (by rw [hg]; exact hdec))] at hw
      simp at hw
      rw [hres, ← hw, hfv, hold]
    · obtain ⟨h1, h2⟩ := env.walk_after_skip lib um environ sname fs i st st' name (some "")
        ft fv none (habsent dec st fv hum hfv hdec) hfv hw
      refine ⟨fv, hold, fun hne => ?_, fun n2 fs2 vs2 hft hvs => ?_⟩
      · rw [hres, h2 hne, hfv]
      · obtain ⟨vs3, hwf, hst'⟩ := h1 n2 fs2 vs2 hft hvs
        refine ⟨vs3, env.Load_of_walkFields lib um environ n2 fs2 vs2 vs3 none hwf, ?_⟩
        rw [hres, hst']
        simp [List.getElem?_set_self, hi]
    · obtain ⟨y, hy, h1, h2⟩ := env.field_decoded_value lib um environ sname fs i st st' name
        "" ft dec x none hum hk (by rw [hg]; exact hdec) hw
      refine ⟨y, hy, fun hne => ?_, fun n2 fs2 vs2 hft hvs => ?_⟩
      · rw [hres, h1 hne]
      · obtain ⟨vs3, hl, hf⟩ := h2 n2 fs2 vs2 hft hvs
        exact ⟨vs3, hl, by rw [hres, hf]⟩
    · subst hft
      obtain ⟨hb, hst'⟩ := (env.walk_decoded_ptr lib um environ sname fs i st name "" el fv
        dec x hum hby (by rw [hg]; exact hdec) hfv).1 none st' hw
      refine ⟨hb, ?_⟩
      rw [hres, hst', List.getElem?_set_self hi]


/-- Witness for C10 as amended: the record of `TestLoad`, whose `Field` has the empty
annotation, keeps `Field` whatever the environment holds; and in a record of the type
`E`, whose decoder answers for both fields, the value-mode field `Field` receives the
decoded string and the pointer-mode field `Ptr` the decoded pointer. -/
theorem C10_empty_tag_binds_only_through_decoder_witness :
    (∃ r, env.Load sampleLib noUnmarshalers (envOf [("test_int", "12"), ("", "x")])
        (target "test" testLoadFields [.string "kept", .int 0]) = .ok r) ∧
    (∃ old, [Value.string "kept", Value.int 0][0]? = some old ∧
      fieldOf (target "test" testLoadFields [.string "kept", .int 12]) 0 = some old) ∧
    (env.walk sampleLib emptyTagPairUnmarshalers (envOf [("", "x")]) "E" emptyTagPair 0
        [.string "old", .nil] "Field" (some "") (predeclared .String)
      = .ok (none, [Value.string "old", Value.nil].set 0 (.string "decoded"))) ∧
    (env.walk sampleLib emptyTagPairUnmarshalers (envOf [("", "x")]) "E" emptyTagPair 1
        [.string "decoded", .nil] "Ptr" (some "") (.ptr (predeclared .String))
      = .ok (none, [Value.string "decoded", Value.nil].set 1 (.ptr (.string "boxed")))) ∧
    (∃ y, sampleLib.Convert ⟨predeclared .String, .string "decoded"⟩ (predeclared .String)
        = some y ∧
      fieldOf (target "E" emptyTagPair [.string "decoded", .ptr (.string "boxed")]) 0
        = some y) ∧
    fieldOf (target "E" emptyTagPair [.string "decoded", .ptr (.string "boxed")]) 1
      = some (.ptr (.string "boxed")) := by
  have h0 := C10_empty_tag_binds_only_through_decoder sampleLib noUnmarshalers
    (envOf [("test_int", "12"), ("", "x")]) "test" testLoadFields
    [.string "kept", .int 0] 0 "Field" (predeclared .String) (by decide) rfl
  have h1 := C10_empty_tag_binds_only_through_decoder sampleLib emptyTagPairUnmarshalers
    (envOf [("", "x")]) "E" emptyTagPair [.string "old", .nil] 0 "Field"
    (predeclared .String) (by decide) rfl
  have h2 := C10_empty_tag_binds_only_through_decoder sampleLib emptyTagPairUnmarshalers
    (envOf [("", "x")]) "E" emptyTagPair [.string "old", .nil] 1 "Ptr"
    (.ptr (predeclared .String)) (by decide) rfl
  refine ⟨?_, ?_, ?_, ?_, ?_, ?_⟩
  · exact (h0.1 rfl).2.1 (by simp [WellFormed, WellFormedFields, testLoadFields,
      noUnmarshalers, Fields.names])
  · obtain ⟨_, old, hold, hleaf, _⟩ := (h0.1 rfl).2.2
      (none, target "test" testLoadFields [.string "kept", .int 12]) rfl
    exact ⟨old, hold, hleaf (Or.inl rfl)⟩
  · exact ((h1.2.1 _ [.string "old", .nil] (.string "old") rfl rfl).2.2.1
      ⟨predeclared .String, .string "decoded"⟩ (.string "decoded") rfl (by decide) rfl).2
      (Or.inl rfl)
  · exact ((h2.2.1 _ [.string "decoded", .nil] .nil rfl rfl).2.2.2
      ⟨.ptr (predeclared .String), .ptr (.string "boxed")⟩ (predeclared .String) rfl rfl
      rfl).2 rfl
  · obtain ⟨_, st, _, _, _, _, hx, _⟩ := h1.2.2 _
      (none, target "E" emptyTagPair [.string "decoded", .ptr (.string "boxed")]) rfl rfl
    obtain ⟨y, hy, hleaf, _⟩ := hx ⟨predeclared .String, .string "decoded"⟩ rfl (by decide)
    exact ⟨y, hy, hleaf (Or.inl rfl)⟩
  · obtain ⟨_, st, _, _, _, _, _, hp⟩ := h2.2.2 _
      (none, target "E" emptyTagPair [.string "decoded", .ptr (.string "boxed")]) rfl rfl
    exact (hp ⟨.ptr (predeclared .String), .ptr (.string "boxed")⟩ (predeclared .String)
      rfl rfl).2

/-- C11: a field without a binding annotation whose type is a record (or a pointer to a
record, holding a non-nil pointer) is recursed into.  `Load` on a well-formed target
returns; when it returns its error is nil and the nested record holds after the call
exactly the fields that `Load` called on the nested record itself, as a target of its
own, leaves in it: its tagged fields are top-level fields of that call, bound from their
own keys, and nothing of the parent (its name, its fields, the name of the field) enters
the result.  The nested record is any record, so the same holds at every depth. -/
theorem C11_untagged_record_field_is_walked (lib : Lib) (um : env.Unmarshalers)
    (environ : Environ) (sname : String) (fs : Fields) (vals : List Value) (i : Nat)
    (name : String) (ft : GoType) (n2 : String) (fs2 : Fields) (vs2 : List Value)
    (hnd : fs.names.Nodup)
    (hget : fs.get? i = some ⟨name, ft, none⟩)
    (hft : ft = .struct n2 fs2 ∨ ft = .ptr (.struct n2 fs2))
    (hval : vals[i]? = some (stored ft (.struct vs2))) :
    (WellFormed um (.struct sname fs) (.struct vals) →
      ∃ r, env.Load lib um environ (target sname fs vals) = .ok r) ∧
    ∀ r, env.Load lib um environ (target sname fs vals) = .ok r →
      r.1 = none ∧
      ∃ vs3, env.Load lib um environ (target n2 fs2 vs2) = .ok (none, target n2 fs2 vs3) ∧
        fieldOf r.2 i = some (stored ft (.struct vs3)) := by
  refine ⟨fun hwf => ?_, fun r hok => ?_⟩
  · obtain ⟨vals', h⟩ := env.Load_returns lib um environ sname fs vals hwf
    exact ⟨_, h⟩
  · obtain ⟨h1, st, st', hst, hw, hres⟩ :=
      env.Load_field lib um environ sname fs vals r i _ hnd hget hok
    simp only at hw
    have hfv : st[i]? = some (stored ft (.struct vs2)) := by
      rw [hst i (Nat.le_refl _), hval]
    obtain ⟨vs3, hwf, hst'⟩ := env.walk_untagged_record lib um environ sname fs i st st'
      name ft n2 fs2 vs2 none hft hfv hw
    refine ⟨h1, vs3, env.Load_of_walkFields lib um environ n2 fs2 vs2 vs3 none hwf, ?_⟩
    have hi : i < st.length := by
      rcases Nat.lt_or_ge i st.length with h | h
      · exact h
      · rw [List.getElem?_eq_none h] at hfv; simp at hfv
    rw [hres, hst']
    simp [List.getElem?_set_self, hi]

/-- Witness for C11: with `NAME=srv` and `PORT=8080` set, the field `Port` of the
untagged field `DB` is bound from `PORT`, as it is when `Load` is called on the nested
record itself. -/
theorem C11_untagged_record_field_is_walked_witness :
    (∃ r, env.Load sampleLib noUnmarshalers (envOf [("NAME", "srv"), ("PORT", "8080")])
      (target "Outer" nestedRecord [.string "", .struct [.uint 0]]) = .ok r) ∧
    ((none : Option Error) = none ∧
      ∃ vs3, env.Load sampleLib noUnmarshalers (envOf [("NAME", "srv"), ("PORT", "8080")])
          (target "DBConfig" portRecord [.uint 0])
          = .ok (none, target "DBConfig" portRecord vs3) ∧
        fieldOf (target "Outer" nestedRecord [.string "srv", .struct [.uint 8080]]) 1
          = some (stored (.struct "DBConfig" portRecord) (.struct vs3))) :=
  ⟨(C11_untagged_record_field_is_walked sampleLib noUnmarshalers
      (envOf [("NAME", "srv"), ("PORT", "8080")]) "Outer" nestedRecord
      [.string "", .struct [.uint 0]] 1 "DB" (.struct "DBConfig" portRecord) "DBConfig"
      portRecord [.uint 0] (by decide) rfl (Or.inl rfl) rfl).1
      (by simp [WellFormed, WellFormedFields, nestedRecord, portRecord, noUnmarshalers,
        Fields.names, GoType.settable, supportedKind, predeclared, GoType.Kind, GoType.beq]),
   (C11_untagged_record_field_is_walked sampleLib noUnmarshalers
      (envOf [("NAME", "srv"), ("PORT", "8080")]) "Outer" nestedRecord
      [.string "", .struct [.uint 0]] 1 "DB" (.struct "DBConfig" portRecord) "DBConfig"
      portRecord [.uint 0] (by decide) rfl (Or.inl rfl) rfl).2
      (none, target "Outer" nestedRecord [.string "srv", .struct [.uint 8080]]) rfl⟩

/-- C12: a tagged pointer-to-primitive field that is nil before the call, in a record
without custom decoder.  `Load` returns on every well-formed target, and whenever it
returns, it returns nil and the field is non-nil exactly when the binding key is present
and its string parses for the pointee kind (to the value `v` of the Value Coercion
Table); the field then points to a cell holding `v`.  In every other case (absent key,
malformed integer, failed float parse) the field is still nil. -/
theorem C12_nil_pointer_is_allocated_only_on_parse (lib : Lib) (um : env.Unmarshalers)
    (environ : Environ) (sname : String) (fs : Fields) (vals : List Value) (i : Nat)
    (name key tn : String) (k : Kind) (hnd : fs.names.Nodup)
    (hget : fs.get? i = some ⟨name, .ptr (.basic tn k), some key⟩)
    (hnil : vals[i]? = some Value.nil) (hum : um sname = none) :
    (WellFormed um (.struct sname fs) (.struct vals) →
      ∃ r, env.Load lib um environ (target sname fs vals) = .ok r) ∧
    ∀ r, env.Load lib um environ (target sname fs vals) = .ok r →
      r.1 = none ∧
      (fieldOf r.2 i ≠ some Value.nil ↔
        ∃ s v, LookupEnv environ key = some s ∧ coerced lib k s = some v) ∧
      (∀ s v, LookupEnv environ key = some s → coerced lib k s = some v →
        fieldOf r.2 i = some (.ptr v)) := by
  refine ⟨fun hwf => ?_, fun r hok => ?_⟩
  · obtain ⟨vals', h⟩ := env.Load_returns lib um environ sname fs vals hwf
    exact ⟨_, h⟩
  · obtain ⟨hr, _⟩ := env.Load_field lib um environ sname fs vals r i _ hnd hget hok
    have hset : ∀ s v, LookupEnv environ key = some s → coerced lib k s = some v →
        fieldOf r.2 i = some (.ptr v) := fun s v hs hv =>
      env.Load_field_of_coerced lib um environ sname fs vals r i name key _ s v hnd hget
        hum hs hv hok
    refine ⟨hr, ⟨fun hne => ?_, fun ⟨s, v, hs, hv⟩ => ?_⟩, hset⟩
    · by_contra hno
      apply hne
      have hskip : ∀ value st, ∃ err, env.loadValueEnv lib um environ value
          (some ⟨name, .ptr (.basic tn k), some key⟩) (some ⟨sname, fs, st⟩)
          = .ok (err, Assign.skip) := by
        intro value st
        rw [env.loadValueEnv_nodec lib um environ value name key sname _ fs st hum]
        cases hs : LookupEnv environ key with
        | none => exact ⟨none, rfl⟩
        | some s =>
          have hc : coerced lib k s = none := by
            cases hv : coerced lib k s with
            | none => rfl
            | some v => exact absurd ⟨s, v, hs, hv⟩ hno
          exact env.setValue_uncoerced lib _ _ _ s value _ hc
      obtain ⟨old, hold, hf⟩ := env.Load_field_of_skip lib um environ sname fs vals r i _
        hnd hget (by rfl) hskip hok
      rw [hnil] at hold
      simp at hold
      rw [hf, ← hold]
    · rw [hset s v hs hv]
      simp

/-- Witness for C12: with `test_f1=3.14` the nil `*float64` of `TestLoadFloat` points to
the parsed number after the call. -/
theorem C12_nil_pointer_is_allocated_only_on_parse_witness :
    (∃ r, env.Load sampleLib noUnmarshalers (envOf [("test_f1", "3.14")])
        (target "test" floatPair [.float 0, .nil]) = .ok r) ∧
    (none : Option Error) = none ∧
    fieldOf (target "test" floatPair [.float 314, .ptr (.float 314)]) 1
      = some (.ptr (Value.float 314)) :=
  ⟨(C12_nil_pointer_is_allocated_only_on_parse sampleLib noUnmarshalers
      (envOf [("test_f1", "3.14")]) "test" floatPair [.float 0, .nil] 1 "FieldPtr64"
      "test_f1" "float64" .Float64 (by decide) rfl rfl rfl).1
      (by simp [WellFormed, WellFormedFields, floatPair, noUnmarshalers, Fields.names,
        GoType.settable, supportedKind, predeclared, GoType.Kind, GoType.beq]),
   ((C12_nil_pointer_is_allocated_only_on_parse sampleLib noUnmarshalers
      (envOf [("test_f1", "3.14")]) "test" floatPair [.float 0, .nil] 1 "FieldPtr64"
      "test_f1" "float64" .Float64 (by decide) rfl rfl rfl).2
      (none, target "test" floatPair [.float 314, .ptr (.float 314)]) rfl).1,
   ((C12_nil_pointer_is_allocated_only_on_parse sampleLib noUnmarshalers
      (envOf [("test_f1", "3.14")]) "test" floatPair [.float 0, .nil] 1 "FieldPtr64"
      "test_f1" "float64" .Float64 (by decide) rfl rfl rfl).2
      (none, target "test" floatPair [.float 314, .ptr (.float 314)]) rfl).2.2 "3.14"
      (.float 314) rfl rfl⟩

/-- C14: a tagged string field (value or pointer mode) of a record without custom
decoder.  `Load` returns on every well-formed target, and whenever it returns, it
returns nil; when the binding key is present with the value `s`, the empty string
included, the field holds exactly `s` (a pointer field points to a cell holding `s`),
so a present and empty variable overwrites the prior value; when the key is absent the
field keeps its prior value. -/
theorem C14_string_field_holds_raw_value (lib : Lib) (um : env.Unmarshalers)
    (environ : Environ) (sname : String) (fs : Fields) (vals : List Value) (i : Nat)
    (name key : String) (ft : GoType) (hnd : fs.names.Nodup)
    (hget : fs.get? i = some ⟨name, ft, some key⟩) (hkind : effKind ft = Kind.String)
    (hum : um sname = none) :
    (WellFormed um (.struct sname fs) (.struct vals) →
      ∃ r, env.Load lib um environ (target sname fs vals) = .ok r) ∧
    ∀ r, env.Load lib um environ (target sname fs vals) = .ok r →
      r.1 = none ∧
      (∀ s, LookupEnv environ key = some s →
        fieldOf r.2 i = some (stored ft (.string s))) ∧
      (LookupEnv environ key = none →
        ∃ old, vals[i]? = some old ∧ fieldOf r.2 i = some old) := by
  refine ⟨fun hwf => ?_, fun r hok => ?_⟩
  · obtain ⟨vals', h⟩ := env.Load_returns lib um environ sname fs vals hwf
    exact ⟨_, h⟩
  · obtain ⟨hr, _⟩ := env.Load_field lib um environ sname fs vals r i _ hnd hget hok
    refine ⟨hr, fun s hs => ?_, fun habs => ?_⟩
    · exact env.Load_field_of_coerced lib um environ sname fs vals r i name key ft s _ hnd
        hget hum hs (by rw [hkind]; rfl) hok
    · have hleaf : ft.walksInto = false := by
        cases ft with
        | basic _ _ => rfl
        | struct _ _ => simp [effKind, GoType.Kind] at hkind
        | ptr el => cases el <;> first | rfl | simp [effKind, GoType.Kind] at hkind
      refine env.Load_field_of_skip lib um environ sname fs vals r i _ hnd hget hleaf
        (fun value st => ⟨none, ?_⟩) hok
      rw [env.loadValueEnv_nodec lib um environ value name key sname ft fs st hum, habs]
      rfl

/-- Witness for C14: `test_f1` is set to the empty string; `Field`, which held `prior`,
now holds the empty string. -/
theorem C14_string_field_holds_raw_value_witness :
    (∃ r, env.Load sampleLib noUnmarshalers (envOf [("test_f1", "")])
        (target "test" stringRecord [.string "prior", .nil, .string "u"]) = .ok r) ∧
    (none : Option Error) = none ∧
    fieldOf (target "test" stringRecord [.string "", .ptr (.string ""), .string "u"]) 0
      = some (stored (predeclared .String) (.string "")) :=
  ⟨(C14_string_field_holds_raw_value sampleLib noUnmarshalers (envOf [("test_f1", "")])
      "test" stringRecord [.string "prior", .nil, .string "u"] 0 "Field" "test_f1"
      (predeclared .String) (by decide) rfl rfl rfl).1
      (by simp [WellFormed, WellFormedFields, stringRecord, noUnmarshalers, Fields.names,
        GoType.settable, supportedKind, predeclared, GoType.Kind, GoType.beq]),
   ((C14_string_field_holds_raw_value sampleLib noUnmarshalers (envOf [("test_f1", "")])
      "test" stringRecord [.string "prior", .nil, .string "u"] 0 "Field" "test_f1"
      (predeclared .String) (by decide) rfl rfl rfl).2
      (none, target "test" stringRecord [.string "", .ptr (.string ""), .string "u"])
      rfl).1,
   ((C14_string_field_holds_raw_value sampleLib noUnmarshalers (envOf [("test_f1", "")])
      "test" stringRecord [.string "prior", .nil, .string "u"] 0 "Field" "test_f1"
      (predeclared .String) (by decide) rfl rfl rfl).2
      (none, target "test" stringRecord [.string "", .ptr (.string ""), .string "u"])
      rfl).2.1 "" rfl⟩

/-- C16 (the code departs from the claim): `LoadFromEnv` of a nil pointer.  The
underlying `env.Load` fails with `load pointer nil ...`, and `LoadFromEnv` answers that
failure with `return nil`: it returns a nil error and leaves the argument as it was. -/
theorem C16_LoadFromEnv_drops_the_error_of_Load (lib : Lib) (um : env.Unmarshalers)
    (environ : Environ) (e : GoType) :
    env.Load lib um environ (some ⟨.ptr e, .nil⟩)
        = .ok (some ("load pointer nil " ++ lib.Sprint (some ⟨.ptr e, .nil⟩)),
            some ⟨.ptr e, .nil⟩) ∧
      config.LoadFromEnv lib um environ (some ⟨.ptr e, .nil⟩)
        = .ok (none, some ⟨.ptr e, .nil⟩) := by
  constructor
  · simp [env.Load, GoType.Kind, pure, Except.pure]
  · simp [config.LoadFromEnv, env.Load, GoType.Kind, bind, Except.bind, pure, Except.pure]

/-- C18: `Mode.String` is `file` for `ModeFile` (1), `environment` for
`ModeEnvironment` (2) and `unknown` for every other integer, among them `ModeUnknown`
(0), 100 and every negative value. -/
theorem C18_Mode_String (m : config.Mode) (n : Nat) :
    config.ModeUnknown = 0 ∧ config.ModeFile = 1 ∧ config.ModeEnvironment = 2 ∧
      config.Mode.String m
        = (if m = 1 then "file" else if m = 2 then "environment" else "unknown") ∧
      config.Mode.String 0 = "unknown" ∧ config.Mode.String 100 = "unknown" ∧
      config.Mode.String (Int.negSucc n) = "unknown" := by
  refine ⟨rfl, rfl, rfl, rfl, rfl, rfl, ?_⟩
  have h1 : Int.negSucc n ≠ 1 := by intro h; cases h
  have h2 : Int.negSucc n ≠ 2 := by intro h; cases h
  simp [config.Mode.String, config.ModeFile, config.ModeEnvironment, h1, h2]

/-- C20: for a fixed environment and an argument in whose type no record type implements
`Unmarshaler` (the fields of each record type having distinct names), `Load` is
idempotent: whenever a call returns, with an error or without, the call on the argument
as that call left it returns the same error and leaves the argument as it is, every
field holding the value it had after the first call (a pointer field is nil as before,
or points to an equal pointee).  On a well-formed pointer to a record both calls
return. -/
theorem C20_Load_is_idempotent (lib : Lib) (um : env.Unmarshalers) (environ : Environ)
    (x : Option Iface) (hplain : ∀ y, x = some y → y.typ.plain um = true) :
    (∀ r, env.Load lib um environ x = .ok r → env.Load lib um environ r.2 = .ok r) ∧
    ∀ sname fs vals, x = target sname fs vals →
      WellFormed um (.struct sname fs) (.struct vals) →
      ∃ r, env.Load lib um environ x = .ok r ∧ env.Load lib um environ r.2 = .ok r := by
  refine ⟨fun r h => env.Load_idem lib um environ x hplain r h, ?_⟩
  intro sname fs vals hx hwf
  obtain ⟨vals', h⟩ := env.Load_returns lib um environ sname fs vals hwf
  rw [← hx] at h
  exact ⟨_, h, env.Load_idem lib um environ x hplain _ h⟩

/-- Witness for C20: with `test_f1=1` set, the first call on the record of `TestLoadBool`
sets `Field` and allocates `FieldPtr`; the second call leaves both as they are. -/
theorem C20_Load_is_idempotent_witness :
    (∀ y, target "test" boolPair [.bool false, .nil] = some y →
      y.typ.plain noUnmarshalers = true) ∧
    env.Load sampleLib noUnmarshalers (envOf [("test_f1", "1")])
        ((none : Option Error), target "test" boolPair [.bool true, .ptr (.bool true)]).2
      = .ok (none, target "test" boolPair [.bool true, .ptr (.bool true)]) ∧
    ∃ r, env.Load sampleLib noUnmarshalers (envOf [("test_f1", "1")])
        (target "test" boolPair [.bool false, .nil]) = .ok r ∧
      env.Load sampleLib noUnmarshalers (envOf [("test_f1", "1")]) r.2 = .ok r :=
  ⟨fun _ hy => Option.some.inj hy ▸ rfl,
   (C20_Load_is_idempotent sampleLib noUnmarshalers (envOf [("test_f1", "1")])
      (target "test" boolPair [.bool false, .nil])
      (fun _ hy => Option.some.inj hy ▸ rfl)).1
      (none, target "test" boolPair [.bool true, .ptr (.bool true)]) rfl,
   (C20_Load_is_idempotent sampleLib noUnmarshalers (envOf [("test_f1", "1")])
      (target "test" boolPair [.bool false, .nil])
      (fun _ hy => Option.some.inj hy ▸ rfl)).2 "test" boolPair [.bool false, .nil] rfl
      (by simp [WellFormed, WellFormedFields, boolPair, noUnmarshalers, Fields.names,
        GoType.settable, supportedKind, predeclared, GoType.Kind, GoType.beq])⟩

end GoConfig
